import Mathlib

/-! ORE market building: `CompositeLoader`, `DefaultCurve`, `TodaysMarket`,
`CrLgmBuilder`, and the QuantExt classes `IrHwStateProcess` and
`ZeroInflationIndexWrapper`.

A shallow embedding of

* `OREData/ored/marketdata/compositeloader.hpp`
* `OREData/ored/marketdata/defaultcurve.cpp`
* `OREData/ored/marketdata/todaysmarket.hpp`
* `OREData/ored/model/crlgmbuilder.cpp`
* `QuantExt/qle/processes/irhwstateprocess.hpp`
* `QuantExt/qle/indexes/inflationindexwrapper.cpp`

C++ calls that may throw return `Outcome`; `shared_ptr`s that may be null are
`Option`s; `Real` numbers are rationals; QuantLib and the other collaborators
the code calls into are parameters.
-/

set_option autoImplicit false

/-! ## QuantLib vocabulary -/

namespace QuantLib

/-- QuantLib `Real`, taken as a rational number. -/
abbrev Real := ℚ

/-- QuantLib `Date`, identified with its serial number. -/
abbrev Date := ℕ

/-- QuantLib `TimeUnit`. -/
inductive TimeUnit where
  | Days
  | Weeks
  | Months
  | Years
  deriving DecidableEq, Repr

/-- QuantLib `Period`: a length and a unit. -/
structure Period where
  length : Int
  units : TimeUnit
  deriving DecidableEq, Repr

/-- The sentinel `Null<Real>()`, which is `std::numeric_limits<float>::max()`. -/
def nullReal : Real := 340282346638528859811704183484516925440

/-- QuantLib `Calendar`, as far as the code uses it: `advance`. -/
structure Calendar where
  advance : Date → Period → Date

/-- QuantLib `Frequency`, identified with the integer value of the enumerator
(`Monthly` is 12). -/
abbrev Frequency := Int

/-- QuantLib `CPI::InterpolationType`. -/
inductive CPI.InterpolationType where
  | AsIndex
  | Flat
  | Linear
  deriving DecidableEq, Repr

end QuantLib

namespace ore
namespace data

open QuantLib (Date Period Calendar TimeUnit nullReal)

/-! ## Failure model -/

/-- How a C++ call can fail to return: a `std::exception` carrying `what()`
(`QL_FAIL` and `QL_REQUIRE` raise one), an exception of another type, or a null
dereference, which is no exception and passes every `catch`. -/
inductive Failure where
  | error (what : String)
  | unknown
  | undefined
  deriving DecidableEq, Repr

/-- Result of a call that may fail. -/
abbrev Outcome (α : Type) := Except Failure α

/-- The macro `QL_FAIL(msg)`. -/
def qlFail {α : Type} (msg : String) : Outcome α := .error (.error msg)

/-- The macro `QL_REQUIRE(cond, msg)`. -/
def qlRequire (cond : Bool) (msg : String) : Outcome Unit :=
  if cond then .ok () else qlFail msg

/-! ## Market data and loaders -/

/-- The quote classes a `MarketDatum` can be cast to in `defaultcurve.cpp`. -/
inductive QuoteKind where
  | cdsSpread (term : Period)
  | hazardRate (term : Period)
  | other
  deriving DecidableEq, Repr

/-- A `MarketDatum`: its name, the value of its quote and its dynamic type. -/
structure MarketDatum where
  name : String
  value : QuantLib.Real
  kind : QuoteKind
  deriving DecidableEq, Repr

/-- A `Fixing`. -/
structure Fixing where
  date : Date
  name : String
  fixing : QuantLib.Real
  deriving DecidableEq, Repr

/-- The abstract `Loader` interface, as `CompositeLoader` overrides and calls
it and as `defaultcurve.cpp` calls it. The member `get` is the overload
`get(name, d)` for a name, which `CompositeLoader` overrides; `getQuote` is the
overload `get(p, d)` that `getConfiguredQuotes` calls with an element `p` of
`cdsQuotes()` and whose result it tests for a null datum. -/
structure Loader where
  loadQuotes : Date → Outcome (List MarketDatum)
  get : String → Date → Outcome (Option MarketDatum)
  has : String → Date → Bool
  loadFixings : Outcome (Finset Fixing)
  loadDividends : Outcome (Finset Fixing)
  getQuote : String → Date → Outcome (Option MarketDatum)

/-- The members `a_`, `b_` of `CompositeLoader`. -/
structure CompositeLoader where
  a_ : Option Loader
  b_ : Option Loader

namespace CompositeLoader

/-- The constructor `CompositeLoader(a, b)`. -/
def create (a b : Option Loader) : Outcome CompositeLoader :=
  if a.isSome || b.isSome then .ok ⟨a, b⟩
  else qlFail "CompositeLoader(): at least one loader must be not null"

/-- The method `CompositeLoader::loadQuotes(d)`. -/
def loadQuotes (c : CompositeLoader) (d : Date) : Outcome (List MarketDatum) :=
  match c.b_, c.a_ with
  | none, some a => a.loadQuotes d
  | none, none => .error .undefined
  | some b, none => b.loadQuotes d
  | some b, some a => do
    let tmp1 ← a.loadQuotes d
    let data := [] ++ tmp1
    let tmp2 ← b.loadQuotes d
    pure (data ++ tmp2)

/-- The condition `a_ && a_->has(name, d)` (and likewise for `b_`). -/
def hasIn (l : Option Loader) (name : String) (d : Date) : Bool :=
  match l with
  | some a => a.has name d
  | none => false

/-- The method `CompositeLoader::get(name, d)`; `showDate` is the streaming of a
date into the message. -/
def get (showDate : Date → String) (c : CompositeLoader) (name : String) (d : Date) :
    Outcome (Option MarketDatum) :=
  if hasIn c.a_ name d then
    match c.a_ with
    | some a => a.get name d
    | none => .error .undefined
  else if hasIn c.b_ name d then
    match c.b_ with
    | some b => b.get name d
    | none => .error .undefined
  else qlFail ("No MarketDatum for name " ++ name ++ " and date " ++ showDate d)

/-- The method `CompositeLoader::has(name, d)`. -/
def has (c : CompositeLoader) (name : String) (d : Date) : Bool :=
  hasIn c.a_ name d || hasIn c.b_ name d

/-- The method `CompositeLoader::loadFixings()`. -/
def loadFixings (c : CompositeLoader) : Outcome (Finset Fixing) :=
  match c.b_, c.a_ with
  | none, some a => a.loadFixings
  | none, none => .error .undefined
  | some b, none => b.loadFixings
  | some b, some a => do
    let tmp1 ← a.loadFixings
    let tmp2 ← b.loadFixings
    pure ((∅ ∪ tmp1) ∪ tmp2)

/-- The method `CompositeLoader::loadDividends()`. -/
def loadDividends (c : CompositeLoader) : Outcome (Finset Fixing) :=
  match c.b_, c.a_ with
  | none, some a => a.loadDividends
  | none, none => .error .undefined
  | some b, none => b.loadDividends
  | some b, some a => do
    let tmp1 ← a.loadDividends
    let tmp2 ← b.loadDividends
    pure ((∅ ∪ tmp1) ∪ tmp2)

/-- Modelled from the spec: the overload `get(p, d)` for a configured quote `p`,
which `CompositeLoader` does not override; it is declared with `Loader` in
`loader.hpp`, which is not among the sources. A quote that is available,
`has(name, d)`, is fetched with `get(name, d)`; for one that is not, the result
is a null datum, the case `getConfiguredQuotes` tests for and skips. -/
def getQuote (showDate : Date → String) (c : CompositeLoader) (name : String) (d : Date) :
    Outcome (Option MarketDatum) :=
  if c.has name d then c.get showDate name d else .ok none

end CompositeLoader

/-! ## Default curves (`defaultcurve.cpp`) -/

/-- The enumeration `DefaultCurveConfig::Type`; `other` stands for a value
outside the three enumerators, with its integer code. -/
inductive DefaultCurveConfig.Type where
  | SpreadCDS
  | HazardRate
  | Benchmark
  | other (code : Int)
  deriving DecidableEq, Repr

/-- The value `static_cast<int>(type)`. -/
def DefaultCurveConfig.Type.toInt : DefaultCurveConfig.Type → Int
  | .SpreadCDS => 0
  | .HazardRate => 1
  | .Benchmark => 2
  | .other code => code

/-- The accessors of `DefaultCurveConfig` read by `defaultcurve.cpp`. -/
structure DefaultCurveConfig where
  curveID : String
  type : DefaultCurveConfig.Type
  recoveryRateQuote : String
  conventionID : String
  discountCurveID : String
  benchmarkCurveID : String
  sourceCurveID : String
  cdsQuotes : List String
  pillars : List String
  calendar : Calendar
  spotLag : ℕ
  dayCounter : String
  extrapolation : Bool
  startDate : Date

/-- The accessors of `DefaultCurveSpec` read by `defaultcurve.cpp`. -/
structure DefaultCurveSpec where
  name : String
  curveConfigID : String
  deriving DecidableEq, Repr

/-- The accessors of `CdsConvention` read by `defaultcurve.cpp`. -/
structure CdsConvention where
  settlementDays : ℕ
  calendar : Calendar
  frequency : String
  paymentConvention : String
  rule : String
  dayCounter : String
  settlesAccrual : Bool
  paysAtDefaultTime : Bool

/-- A `Convention` and whether it can be cast to `CdsConvention`. -/
inductive Convention where
  | cds (c : CdsConvention)
  | other

/-- The result of `dynamic_pointer_cast<CdsConvention>`. -/
def Convention.asCds : Convention → Option CdsConvention
  | .cds c => some c
  | .other => none

/-- The repository `Conventions`: `has` and `get`. -/
structure Conventions where
  has : String → Bool
  get : String → Outcome Convention

/-- The repository `CurveConfigurations`: `defaultCurveConfig`. -/
structure CurveConfigurations where
  defaultCurveConfig : String → Outcome DefaultCurveConfig

/-- A `YieldCurve`, as far as it is used: the discount factor of its handle. -/
structure YieldCurve where
  discount : Date → Outcome QuantLib.Real

/-- The arguments handed to `QuantExt::SpreadCdsHelper`. -/
structure SpreadCdsHelper where
  quote : QuantLib.Real
  tenor : Period
  convention : CdsConvention
  recoveryRate : QuantLib.Real
  discountCurve : YieldCurve
  startDate : Date

/-- The term structure stored in `curve_`: the node lists and flags it is built from. -/
inductive DefaultTermStructure where
  | survivalProbabilityCurve (dates : List Date) (probabilities : List QuantLib.Real)
      (dayCounter : String) (extrapolation : Bool)
  | hazardRateCurve (dates : List Date) (hazardRates : List QuantLib.Real)
      (dayCounter : String) (extrapolation : Bool)
  deriving DecidableEq, Repr

/-- Sets the extrapolation flag, as `enableExtrapolation()` does. -/
def DefaultTermStructure.enableExtrapolation : DefaultTermStructure → DefaultTermStructure
  | .survivalProbabilityCurve ds ps dc _ => .survivalProbabilityCurve ds ps dc true
  | .hazardRateCurve ds hs dc _ => .hazardRateCurve ds hs dc true

/-- The QuantLib and parsing routines `defaultcurve.cpp` calls. -/
structure QuantLibEnv where
  /-- The order `operator<` on periods, the key order of `map<Period, Real>`. -/
  periodLt : Period → Period → Bool
  /-- The method `latestDate()` of a CDS helper. -/
  latestDate : Date → SpreadCdsHelper → Date
  /-- The survival probability of the bootstrapped `PiecewiseDefaultCurve`. -/
  piecewiseSurvivalProbability : Date → List SpreadCdsHelper → String → Date → Outcome QuantLib.Real
  /-- The constructor of an interpolated curve, which checks its nodes. -/
  makeCurve : DefaultTermStructure → Outcome Unit
  /-- The call `curve_->survivalProbability(QL_EPSILON)` forcing the curve. -/
  forceBootstrap : DefaultTermStructure → Outcome Unit
  /-- The function `parsePeriod`. -/
  parsePeriod : String → Outcome Period

/-- The members `curve_` and `recoveryRate_` of `DefaultCurve`. -/
structure DefaultCurve where
  curve_ : Option DefaultTermStructure
  recoveryRate_ : QuantLib.Real
  deriving DecidableEq, Repr

/-- Insertion into a `std::map` kept as a key-sorted list: the new map and
whether the pair was inserted (`false` when the key is already present). -/
def mapInsert {K V : Type} (lt : K → K → Bool) : List (K × V) → K → V → List (K × V) × Bool
  | [], k, v => ([(k, v)], true)
  | (k', v') :: rest, k, v =>
    if lt k k' then ((k, v) :: (k', v') :: rest, true)
    else if lt k' k then
      let r := mapInsert lt rest k v
      ((k', v') :: r.1, r.2)
    else ((k', v') :: rest, false)

/-- The lookup `yieldCurves.find(id)`. -/
def findCurve (yieldCurves : List (String × YieldCurve)) (id : String) : Option YieldCurve :=
  (yieldCurves.find? (fun p => p.1 == id)).map Prod.snd

/-- The rendering of a period in a message, `showPeriod`, is a parameter like `showDate`. -/
structure Streams where
  showDate : Date → String
  showPeriod : Period → String

namespace DefaultCurve

/-- The term of a market datum under the cast the curve type selects; a failed
cast is dereferenced, which is undefined. -/
def quoteTerm (type : DefaultCurveConfig.Type) (md : MarketDatum) : Outcome Period :=
  if type = .SpreadCDS then
    match md.kind with
    | .cdsSpread term => .ok term
    | _ => .error .undefined
  else
    match md.kind with
    | .hazardRate term => .ok term
    | _ => .error .undefined

/-- The loop of `getConfiguredQuotes` over `config.cdsQuotes()`. -/
def loadConfiguredQuotes (q : QuantLibEnv) (io : Streams) (config : DefaultCurveConfig)
    (asof : Date) (loader : Loader) :
    List String → List (Period × QuantLib.Real) → Outcome (List (Period × QuantLib.Real))
  | [], result => .ok result
  | p :: ps, result => do
    match ← loader.getQuote p asof with
    | some md =>
      let tenor ← quoteTerm config.type md
      let r := mapInsert q.periodLt result tenor md.value
      qlRequire r.2 ("duplicate term in quotes found (" ++ io.showPeriod tenor ++
        ") while loading default curve " ++ config.curveID)
      loadConfiguredQuotes q io config asof loader ps r.1
    | none => loadConfiguredQuotes q io config asof loader ps result

/-- The method `DefaultCurve::getConfiguredQuotes`. -/
def getConfiguredQuotes (q : QuantLibEnv) (io : Streams) (config : DefaultCurveConfig)
    (asof : Date) (loader : Loader) : Outcome (List (Period × QuantLib.Real)) := do
  qlRequire (config.type == .SpreadCDS || config.type == .HazardRate)
    ("DefaultCurve::getConfiguredQuotes expected a default curve configuration with type " ++
      "SpreadCDS or HazardRate")
  let result ← loadConfiguredQuotes q io config asof loader config.cdsQuotes []
  qlRequire (!result.isEmpty) ("No market points found for curve config " ++ config.curveID)
  pure result

/-- The quotes the loader holds for a list of configured names: for every name
with a datum of the quote type of the curve, the term and the value of that
datum, in the order of the names. -/
def loadedQuotes (type : DefaultCurveConfig.Type) (asof : Date) (loader : Loader)
    (names : List String) : List (Period × QuantLib.Real) :=
  names.filterMap fun p =>
    match loader.getQuote p asof with
    | .ok (some md) =>
      match quoteTerm type md with
      | .ok term => some (term, md.value)
      | .error _ => none
    | _ => none

/-- Every name of the list loads with the quote type of the curve: the loader
returns no datum for it, or a datum that casts to that quote type. -/
def LoadsWithType (type : DefaultCurveConfig.Type) (asof : Date) (loader : Loader)
    (names : List String) : Prop :=
  ∀ p ∈ names, loader.getQuote p asof = .ok none ∨
    ∃ md term, loader.getQuote p asof = .ok (some md) ∧ quoteTerm type md = .ok term

/-- The loop of `buildCdsCurve` copying the bootstrapped curve: `acc` holds the
dates and survival probabilities pushed so far. -/
def copyPiecewise (q : QuantLibEnv) (asof : Date) (helpers : List SpreadCdsHelper)
    (dayCounter : String) :
    List SpreadCdsHelper → List Date × List QuantLib.Real →
      Outcome (List Date × List QuantLib.Real)
  | [], acc => .ok acc
  | h :: hs, acc =>
    if q.latestDate asof h > asof then do
      let dates := acc.1 ++ [q.latestDate asof h]
      let sp ← q.piecewiseSurvivalProbability asof helpers dayCounter (q.latestDate asof h)
      copyPiecewise q asof helpers dayCounter hs (dates, acc.2 ++ [sp])
    else copyPiecewise q asof helpers dayCounter hs acc

/-- The tail shared by the three builders: construct the interpolated curve,
enable extrapolation if configured, force the curve. -/
def finishCurve (q : QuantLibEnv) (config : DefaultCurveConfig) (curve : DefaultTermStructure)
    (recoveryRate : QuantLib.Real) : Outcome DefaultCurve := do
  q.makeCurve curve
  let curve := if config.extrapolation then curve.enableExtrapolation else curve
  q.forceBootstrap curve
  pure ⟨some curve, recoveryRate⟩

/-- The method `DefaultCurve::buildCdsCurve`, from the `recoveryRate_` set by the constructor. -/
def buildCdsCurve (q : QuantLibEnv) (io : Streams) (recoveryRate_ : QuantLib.Real)
    (config : DefaultCurveConfig) (asof : Date) (spec : DefaultCurveSpec) (loader : Loader)
    (conventions : Conventions) (yieldCurves : List (String × YieldCurve)) :
    Outcome DefaultCurve := do
  qlRequire (config.type == .SpreadCDS)
    "DefaultCurve::buildCdsCurve expected a default curve configuration with type SpreadCDS"
  qlRequire (recoveryRate_ != nullReal) "DefaultCurve: recovery rate needed to build SpreadCDS curve"
  qlRequire (conventions.has config.conventionID)
    ("No conventions found with id " ++ config.conventionID)
  let conv ← conventions.get config.conventionID
  match conv.asCds with
  | none => qlFail "SpreadCDS curves require CDS convention"
  | some cdsConv =>
    match findCurve yieldCurves config.discountCurveID with
    | none =>
      qlFail ("The discount curve, " ++ config.discountCurveID ++
        ", required in the building of the curve, " ++ spec.name ++ ", was not found.")
    | some discountCurve =>
      let quotes ← getConfiguredQuotes q io config asof loader
      let helpers : List SpreadCdsHelper := quotes.map fun quote =>
        ⟨quote.2, quote.1, cdsConv, recoveryRate_, discountCurve, config.startDate⟩
      let nodes ← copyPiecewise q asof helpers config.dayCounter helpers ([asof], [1])
      qlRequire (decide (nodes.1.length ≥ 2)) "Need at least 2 points to build the default curve"
      finishCurve q config (.survivalProbabilityCurve nodes.1 nodes.2 config.dayCounter false)
        recoveryRate_

/-- The comparison `a != b` of two periods, as in `p != 0 * Days`: one of them is
less than the other. -/
def periodNe (q : QuantLibEnv) (a b : Period) : Bool :=
  q.periodLt a b || q.periodLt b a

/-- The method `DefaultCurve::buildHazardRateCurve`. -/
def buildHazardRateCurve (q : QuantLibEnv) (io : Streams) (recoveryRate_ : QuantLib.Real)
    (config : DefaultCurveConfig) (asof : Date) (loader : Loader) (conventions : Conventions) :
    Outcome DefaultCurve := do
  qlRequire (config.type == .HazardRate)
    "DefaultCurve::buildHazardRateCurve expected a default curve configuration with type HazardRate"
  qlRequire (conventions.has config.conventionID)
    ("No conventions found with id " ++ config.conventionID)
  let conv ← conventions.get config.conventionID
  match conv.asCds with
  | none => qlFail "HazardRate curves require CDS convention"
  | some cdsConv =>
    let quotes ← getConfiguredQuotes q io config asof loader
    let cal := cdsConv.calendar
    match quotes with
    | [] => .error .undefined
    | first :: _ =>
      let front : List Date × List QuantLib.Real :=
        if periodNe q first.1 ⟨0, .Days⟩ then ([asof], [first.2]) else ([], [])
      let dates := front.1 ++ quotes.map fun quote => cal.advance asof quote.1
      let quoteValues := front.2 ++ quotes.map fun quote => quote.2
      let built ← finishCurve q config (.hazardRateCurve dates quoteValues config.dayCounter false)
        recoveryRate_
      pure (if built.recoveryRate_ = nullReal then { built with recoveryRate_ := 0 } else built)

/-- The loop of `buildBenchmarkCurve` over the pillars, from the dates and
probabilities pushed so far. -/
def impliedSurvival (asof spot : Date) (cal : Calendar) (sourceCurve benchmarkCurve : YieldCurve) :
    List Period → List Date × List QuantLib.Real → Outcome (List Date × List QuantLib.Real)
  | [], acc => .ok acc
  | pillar :: rest, acc => do
    let d := cal.advance spot pillar
    let tmp := (← sourceCurve.discount d) / (← benchmarkCurve.discount d)
    impliedSurvival asof spot cal sourceCurve benchmarkCurve rest
      (acc.1 ++ [d], acc.2 ++ [if d = asof then 1 else tmp])

/-- The method `DefaultCurve::buildBenchmarkCurve`. -/
def buildBenchmarkCurve (q : QuantLibEnv) (recoveryRate_ : QuantLib.Real)
    (config : DefaultCurveConfig) (asof : Date) (spec : DefaultCurveSpec)
    (yieldCurves : List (String × YieldCurve)) : Outcome DefaultCurve := do
  qlRequire (config.type == .Benchmark)
    "DefaultCurve::buildBenchmarkCurve expected a default curve configuration with type Benchmark"
  qlRequire (recoveryRate_ == nullReal)
    ("DefaultCurve: recovery rate must not be given " ++
      "for benchmark implied curve type, it is assumed to be 0.0")
  match findCurve yieldCurves config.benchmarkCurveID with
  | none =>
    qlFail ("The benchmark curve, " ++ config.benchmarkCurveID ++
      ", required in the building of the curve, " ++ spec.name ++ ", was not found.")
  | some benchmarkCurve =>
    match findCurve yieldCurves config.sourceCurveID with
    | none =>
      qlFail ("The source curve, " ++ config.sourceCurveID ++
        ", required in the building of the curve, " ++ spec.name ++ ", was not found.")
    | some sourceCurve =>
      let pillars ← config.pillars.mapM q.parsePeriod
      let cal := config.calendar
      let spot := cal.advance asof ⟨config.spotLag, .Days⟩
      let nodes ← impliedSurvival asof spot cal sourceCurve benchmarkCurve pillars ([], [])
      qlRequire (decide (nodes.1.length > 0)) "DefaultCurve (Benchmark): no dates given"
      let nodes :=
        if nodes.1.head? ≠ some asof then (asof :: nodes.1, (1 : QuantLib.Real) :: nodes.2)
        else nodes
      finishCurve q config (.survivalProbabilityCurve nodes.1 nodes.2 config.dayCounter false) 0

/-- The step of the constructor setting `recoveryRate_` if necessary. -/
def loadRecoveryRate (config : DefaultCurveConfig) (asof : Date) (loader : Loader) :
    Outcome QuantLib.Real :=
  if config.recoveryRateQuote ≠ "" then do
    qlRequire (loader.has config.recoveryRateQuote asof)
      ("There is no market data for the requested recovery rate " ++ config.recoveryRateQuote)
    match ← loader.get config.recoveryRateQuote asof with
    | some md => pure md.value
    | none => .error .undefined
  else pure nullReal

/-- The switch of the constructor building the curve of the requested type. -/
def buildRequestedType (q : QuantLibEnv) (io : Streams) (recoveryRate_ : QuantLib.Real)
    (config : DefaultCurveConfig) (asof : Date) (spec : DefaultCurveSpec) (loader : Loader)
    (conventions : Conventions) (yieldCurves : List (String × YieldCurve)) :
    Outcome DefaultCurve :=
  match config.type with
  | .SpreadCDS => buildCdsCurve q io recoveryRate_ config asof spec loader conventions yieldCurves
  | .HazardRate => buildHazardRateCurve q io recoveryRate_ config asof loader conventions
  | .Benchmark => buildBenchmarkCurve q recoveryRate_ config asof spec yieldCurves
  | .other code =>
    qlFail ("The DefaultCurveConfig type " ++
      toString (DefaultCurveConfig.Type.toInt (.other code)) ++ " was not recognised")

/-- The `try` block of the constructor. -/
def constructBody (q : QuantLibEnv) (io : Streams) (asof : Date) (spec : DefaultCurveSpec)
    (loader : Loader) (curveConfigs : CurveConfigurations) (conventions : Conventions)
    (yieldCurves : List (String × YieldCurve)) : Outcome DefaultCurve := do
  let config ← curveConfigs.defaultCurveConfig spec.curveConfigID
  let recoveryRate_ ← loadRecoveryRate config asof loader
  buildRequestedType q io recoveryRate_ config asof spec loader conventions yieldCurves

/-- The text both handlers of the constructor put in front of the reason. -/
def failureHead (spec : DefaultCurveSpec) : String :=
  "default curve building failed for " ++ spec.curveConfigID ++ ": "

/-- The constructor `DefaultCurve::DefaultCurve`: the `try` block and its two handlers. -/
def construct (q : QuantLibEnv) (io : Streams) (asof : Date) (spec : DefaultCurveSpec)
    (loader : Loader) (curveConfigs : CurveConfigurations) (conventions : Conventions)
    (yieldCurves : List (String × YieldCurve)) : Outcome DefaultCurve :=
  match constructBody q io asof spec loader curveConfigs conventions yieldCurves with
  | .ok curve => .ok curve
  | .error (.error what) => qlFail (failureHead spec ++ what)
  | .error .unknown => qlFail (failureHead spec ++ "unknown error")
  | .error .undefined => .error .undefined

end DefaultCurve

/-! ### Example inputs for default curves -/

/-- A loader over a list of market data: `has` looks the name up, `get`
returns the datum or fails, and `getQuote` returns the datum, or a null datum
for a name the loader does not have. -/
def listLoader (data : List MarketDatum) : Loader where
  loadQuotes := fun _ => .ok data
  get := fun name _ =>
    match data.find? fun m => m.name = name with
    | some m => .ok (some m)
    | none => qlFail ("No datum for " ++ name)
  has := fun name _ => data.any fun m => m.name = name
  loadFixings := .ok ∅
  loadDividends := .ok ∅
  getQuote := fun name _ => .ok (data.find? fun m => m.name = name)

/-- A loader holding no data whose `get` returns a null datum for every name. -/
def nullDatumLoader : Loader where
  loadQuotes := fun _ => .ok []
  get := fun _ _ => .ok none
  has := fun _ _ => false
  loadFixings := .ok ∅
  loadDividends := .ok ∅
  getQuote := fun _ _ => .ok none

/-- A loader over a list of market data whose `get` returns a null datum for a
name it does not have. -/
def nullableLoader (data : List MarketDatum) : Loader where
  loadQuotes := fun _ => .ok data
  get := fun name _ => .ok (data.find? fun m => m.name = name)
  has := fun name _ => data.any fun m => m.name = name
  loadFixings := .ok ∅
  loadDividends := .ok ∅
  getQuote := fun name _ => .ok (data.find? fun m => m.name = name)

/-- A calendar advancing by the period length, whatever its unit. -/
def plainCalendar : Calendar := ⟨fun d p => d + p.length.toNat⟩

/-- A QuantLib environment whose routines always succeed. -/
def plainEnv : QuantLibEnv where
  periodLt := fun a b => decide (a.length < b.length)
  latestDate := fun asof h => asof + h.tenor.length.toNat
  piecewiseSurvivalProbability := fun _ _ _ _ => .ok 1
  makeCurve := fun _ => .ok ()
  forceBootstrap := fun _ => .ok ()
  parsePeriod := fun _ => .ok ⟨1, .Years⟩

/-- Streams rendering dates and periods by their numbers. -/
def plainStreams : Streams := ⟨fun d => toString d, fun p => toString p.length⟩

/-- A SpreadCDS configuration `CDS1` with discount curve `EUR-EONIA` and no
recovery rate quote. -/
def cdsConfig : DefaultCurveConfig where
  curveID := "CDS1"
  type := .SpreadCDS
  recoveryRateQuote := ""
  conventionID := "CDS-STANDARD"
  discountCurveID := "EUR-EONIA"
  benchmarkCurveID := ""
  sourceCurveID := ""
  cdsQuotes := ["CDS/CREDIT_SPREAD/CDS1/5Y"]
  pillars := []
  calendar := plainCalendar
  spotLag := 0
  dayCounter := "A365"
  extrapolation := true
  startDate := 0

/-- The configuration `cdsConfig` with the recovery rate quote `RECOVERY_RATE/CDS1`. -/
def cdsConfigWithRecovery : DefaultCurveConfig :=
  { cdsConfig with recoveryRateQuote := "RECOVERY_RATE/CDS1" }

/-- A Benchmark configuration `BM1` over the curves `USD-LIBOR` and `USD-GOVT`,
with no recovery rate quote. -/
def benchmarkConfig : DefaultCurveConfig :=
  { cdsConfig with
    curveID := "BM1"
    type := .Benchmark
    discountCurveID := ""
    benchmarkCurveID := "USD-LIBOR"
    sourceCurveID := "USD-GOVT"
    cdsQuotes := []
    pillars := ["1Y"] }

/-- Curve configurations holding one default curve configuration under its id. -/
def singleConfig (config : DefaultCurveConfig) : CurveConfigurations where
  defaultCurveConfig := fun id =>
    if id = config.curveID then .ok config else qlFail ("no default curve config " ++ id)

/-- Conventions holding the CDS convention `CDS-STANDARD`. -/
def cdsConventions : Conventions where
  has := fun id => id = "CDS-STANDARD"
  get := fun _ => .ok (.cds ⟨1, plainCalendar, "Quarterly", "Following", "CDS", "A360", true, true⟩)

/-- The curve spec of `CDS1`. -/
def cdsSpec : DefaultCurveSpec := ⟨"Default/USD/CDS1", "CDS1"⟩

/-- A recovery rate datum for `CDS1`. -/
def recoveryDatum : MarketDatum := ⟨"RECOVERY_RATE/CDS1", 2 / 5, .other⟩

/-- A CDS spread datum for `CDS1` with term five years. -/
def cdsSpreadDatum : MarketDatum :=
  ⟨"CDS/CREDIT_SPREAD/CDS1/5Y", 1 / 100, .cdsSpread ⟨5, .Years⟩⟩

/-- A yield curve whose discount factor is one at every date. -/
def flatCurve : YieldCurve := ⟨fun _ => .ok 1⟩

/-- The configuration `benchmarkConfig` with the recovery rate quote `RECOVERY_RATE/BM1`. -/
def benchmarkConfigWithRecovery : DefaultCurveConfig :=
  { benchmarkConfig with recoveryRateQuote := "RECOVERY_RATE/BM1" }

/-- A recovery rate datum for `BM1` whose value is `Null<Real>()`. -/
def sentinelDatum : MarketDatum := ⟨"RECOVERY_RATE/BM1", nullReal, .other⟩

/-- A CDS spread datum for `CDS1` with term ten years. -/
def cdsSpreadDatum10Y : MarketDatum :=
  ⟨"CDS/CREDIT_SPREAD/CDS1/10Y", 3 / 200, .cdsSpread ⟨10, .Years⟩⟩

/-- The configuration `cdsConfig` with the two quotes of terms five and ten years. -/
def twoQuoteConfig : DefaultCurveConfig :=
  { cdsConfig with cdsQuotes := ["CDS/CREDIT_SPREAD/CDS1/5Y", "CDS/CREDIT_SPREAD/CDS1/10Y"] }

/-- A yield curve whose discount factor is one half at every date. -/
def halfCurve : YieldCurve := ⟨fun _ => .ok (1 / 2)⟩

/-- A hazard rate datum for `CDS1` with term five years. -/
def hazardDatum5Y : MarketDatum :=
  ⟨"HAZARD_RATE/RATE/CDS1/5Y", 1 / 50, .hazardRate ⟨5, .Years⟩⟩

/-- A hazard rate datum for `CDS1` with term zero days. -/
def hazardDatum0D : MarketDatum :=
  ⟨"HAZARD_RATE/RATE/CDS1/0D", 1 / 100, .hazardRate ⟨0, .Days⟩⟩

/-- A HazardRate configuration `CDS1` with the quote of term five years. -/
def hazardConfig : DefaultCurveConfig :=
  { cdsConfig with type := .HazardRate, cdsQuotes := ["HAZARD_RATE/RATE/CDS1/5Y"] }

/-- The configuration `hazardConfig` with the quotes of terms five years and
zero days. -/
def hazardConfigWithSpot : DefaultCurveConfig :=
  { hazardConfig with cdsQuotes := ["HAZARD_RATE/RATE/CDS1/5Y", "HAZARD_RATE/RATE/CDS1/0D"] }

/-- A CDS spread datum for `CDS1` with term zero days. -/
def cdsSpreadDatum0D : MarketDatum :=
  ⟨"CDS/CREDIT_SPREAD/CDS1/0D", 1 / 200, .cdsSpread ⟨0, .Days⟩⟩

/-- The configuration `cdsConfigWithRecovery` with the quotes of terms five
years and zero days. -/
def cdsConfigWithSpot : DefaultCurveConfig :=
  { cdsConfigWithRecovery with
    cdsQuotes := ["CDS/CREDIT_SPREAD/CDS1/5Y", "CDS/CREDIT_SPREAD/CDS1/0D"] }

/-! ## Today's market (`todaysmarket.hpp`)

The header declares the constructor, `require`, `buildDependencyGraph`,
`buildNode`, the vertex type `Node` and the caches. Their bodies live in
`todaysmarket.cpp`; the graph builder and executor below follow the design
document of the orchestration layer. -/

/-- Modelled from the spec: the enumeration `MarketObject` of `marketimpl.hpp`,
the object categories of §3 (discount curve, index curve, default curve, equity
volatility, swap index, ...). -/
inductive MarketObject where
  | DiscountCurve
  | YieldCurve
  | IndexCurve
  | SwapIndexCurve
  | FXSpot
  | FXVol
  | SwaptionVol
  | YieldVol
  | CapFloorVol
  | DefaultCurve
  | CDSVol
  | BaseCorrelation
  | InflationCurve
  | InflationCapFloorVol
  | EquityCurve
  | EquityVol
  | Security
  | CommodityCurve
  | CommodityVolatility
  | Correlation
  deriving DecidableEq, Repr

/-- Modelled from the spec: the streaming of a `MarketObject` into a message. -/
def MarketObject.toString : MarketObject → String
  | .DiscountCurve => "DiscountCurve"
  | .YieldCurve => "YieldCurve"
  | .IndexCurve => "IndexCurve"
  | .SwapIndexCurve => "SwapIndexCurve"
  | .FXSpot => "FXSpot"
  | .FXVol => "FXVol"
  | .SwaptionVol => "SwaptionVol"
  | .YieldVol => "YieldVol"
  | .CapFloorVol => "CapFloorVol"
  | .DefaultCurve => "DefaultCurve"
  | .CDSVol => "CDSVol"
  | .BaseCorrelation => "BaseCorrelation"
  | .InflationCurve => "InflationCurve"
  | .InflationCapFloorVol => "InflationCapFloorVol"
  | .EquityCurve => "EquityCurve"
  | .EquityVol => "EquityVol"
  | .Security => "Security"
  | .CommodityCurve => "CommodityCurve"
  | .CommodityVolatility => "CommodityVolatility"
  | .Correlation => "Correlation"

/-- Modelled from the spec: a parsed `CurveSpec` of `curvespec.hpp`, as far as
§4.2 uses it: its name and the logical names (kind and name) it refers to. -/
structure CurveSpec where
  name : String
  references : List (MarketObject × String)
  deriving DecidableEq, Repr

namespace TodaysMarket

/-- The vertex type `TodaysMarket::Node`. -/
structure Node where
  /-- the market object to build -/
  obj : MarketObject
  /-- the LHS of the todays market mapping -/
  name : String
  /-- the RHS of the todays market mapping -/
  mapping : String
  /-- the parsed curve spec, if applicable, null otherwise -/
  curveSpec : Option CurveSpec
  /-- true if we have built this node -/
  built : Bool
  deriving DecidableEq, Repr

/-- Modelled from the spec: the identity of a node, kind and name (§3), as text. -/
def Node.identity (n : Node) : String :=
  n.obj.toString ++ "/" ++ n.name

/-- The type `Graph`, a `boost::directed_graph<Node>`: vertex `i` carries
`nodes[i]`, and an edge `(x, y)` means that `x` must be built before `y`. -/
structure Graph where
  nodes : List Node
  edges : List (ℕ × ℕ)
  deriving DecidableEq, Repr

/-- The edge relation: `x` must be built before `y`, since `y` depends on it. -/
def Graph.Edge (g : Graph) (x y : ℕ) : Prop := (x, y) ∈ g.edges

instance (g : Graph) (x y : ℕ) : Decidable (g.Edge x y) := by
  unfold Graph.Edge; infer_instance

/-- The vertices `v` depends on: the sources of the edges into `v`. -/
def Graph.dependencies (g : Graph) (v : ℕ) : List ℕ :=
  (g.edges.filter fun e => e.2 = v).map Prod.fst

/-- Every edge joins two vertices of the graph. -/
def Graph.WellFormed (g : Graph) : Prop :=
  ∀ e ∈ g.edges, e.1 < g.nodes.length ∧ e.2 < g.nodes.length

/-- No vertex depends on itself, directly or transitively. -/
def Graph.Acyclic (g : Graph) : Prop :=
  ∀ v, ¬ Relation.TransGen g.Edge v v

/-- A list of vertices is a cycle: each has an edge to the next, the last has
an edge to the first, and no vertex repeats. -/
def Graph.IsCycle (g : Graph) (c : List ℕ) : Prop :=
  c ≠ [] ∧ c.Nodup ∧ List.Chain' g.Edge c ∧
    ∀ a b, c.head? = some a → c.getLast? = some b → g.Edge b a

/-- A build order of the graph: every vertex occurs exactly once, and the source
of every edge occurs before its target. -/
def Graph.IsTopological (g : Graph) (order : List ℕ) : Prop :=
  order.Nodup ∧ (∀ v, v ∈ order ↔ v < g.nodes.length) ∧
    ∀ x y, g.Edge x y → order.indexOf x < order.indexOf y

/-- The vertices scheduled so far are distinct vertices of the graph, and each
comes after everything it depends on. -/
def Graph.Scheduled (g : Graph) (done : List ℕ) : Prop :=
  done.Nodup ∧ (∀ v ∈ done, v < g.nodes.length) ∧
    ∀ y ∈ done, ∀ x, g.Edge x y → x ∈ done ∧ done.indexOf x < done.indexOf y

/-- A graph as graph construction leaves it: every edge joins two of its
vertices and no node is built. -/
def Graph.Fresh (g : Graph) : Prop :=
  g.WellFormed ∧ ∀ node ∈ g.nodes, node.built = false

/-- The identity of vertex `v`. -/
def Graph.identity (g : Graph) (v : ℕ) : String :=
  match g.nodes[v]? with
  | some n => n.identity
  | none => ""

/-- Modelled from the spec: one declared mapping of a configuration (§6
configuration source): kind, name (left-hand side), mapping (right-hand side). -/
structure Declaration where
  obj : MarketObject
  name : String
  mapping : String
  deriving DecidableEq, Repr

/-- Modelled from the spec: the configuration source of §6. It exposes, per
configuration name, the declared name -> mapping pairs, and a fallback
configuration consulted when a name is undeclared in the requested one. -/
structure ConfigurationSource where
  declared : String → List Declaration
  fallback : List Declaration

/-- Modelled from the spec: the curve specification registry of §4.1. Given an
object kind and a composition string it yields a specification, no
specification where none applies, or a parse error. -/
abbrev Registry := MarketObject → String → Except String (Option CurveSpec)

/-- Modelled from the spec: the failures that abort graph construction (§7):
`ParseError` for a mapping outside its kind's grammar, `CyclicDependency`
naming the cycle members. -/
inductive GraphError where
  | parseError (node : String) (mapping : String) (message : String)
  | cyclicDependency (members : List String)
  deriving DecidableEq, Repr

/-- Modelled from the spec: §4.2 step 1, the node seeded for a declared mapping:
no specification yet, not built. -/
def seed (d : Declaration) : Node :=
  ⟨d.obj, d.name, d.mapping, none, false⟩

/-- Modelled from the spec: the vertex of the node with the given kind and name, if the
graph has one. -/
def findNode (nodes : List Node) (obj : MarketObject) (name : String) : Option ℕ :=
  let i := nodes.findIdx fun n => n.obj = obj ∧ n.name = name
  if i < nodes.length then some i else none

/-- Modelled from the spec: the declaration of the given kind and name in a list of
declarations. -/
def findDeclaration (decls : List Declaration) (obj : MarketObject) (name : String) :
    Option Declaration :=
  decls.find? fun d => d.obj = obj ∧ d.name = name

/-- Modelled from the spec: §4.2 steps 2 and 3 for the references of vertex `i`.
A reference is resolved to the node of that kind and name and yields an edge
from it to `i`; a name the configuration does not declare is looked up in the
fallback, whose declaration is added as a new node; a name found in neither
yields no edge. -/
def resolveReferences (fallback : List Declaration) (i : ℕ) :
    List (MarketObject × String) → Graph → Graph
  | [], g => g
  | r :: rest, g =>
    match findNode g.nodes r.1 r.2 with
    | some j => resolveReferences fallback i rest { g with edges := g.edges ++ [(j, i)] }
    | none =>
      match findDeclaration fallback r.1 r.2 with
      | some d =>
        resolveReferences fallback i rest
          { nodes := g.nodes ++ [seed d], edges := g.edges ++ [(g.nodes.length, i)] }
      | none => resolveReferences fallback i rest g

/-- Modelled from the spec: §4.2 step 2 for vertex `i`: parse its mapping
(§4.1), store the specification in the node, resolve its references. -/
def resolveNode (registry : Registry) (fallback : List Declaration) (g : Graph) (i : ℕ) :
    Except GraphError Graph :=
  match g.nodes[i]? with
  | none => .ok g
  | some node =>
    match registry node.obj node.mapping with
    | .error message => .error (.parseError node.identity node.mapping message)
    | .ok none => .ok g
    | .ok (some spec) =>
      .ok (resolveReferences fallback i spec.references
        { g with nodes := g.nodes.set i { node with curveSpec := some spec } })

/-- Modelled from the spec: the loop of §4.2 over the vertices `i, i + 1, ...`,
which also visits the nodes added on the way; `fuel` bounds the number of
vertices visited. -/
def resolveFrom (registry : Registry) (fallback : List Declaration) :
    ℕ → ℕ → Graph → Except GraphError Graph
  | 0, _, g => .ok g
  | fuel + 1, i, g =>
    if i < g.nodes.length then
      match resolveNode registry fallback g i with
      | .error e => .error e
      | .ok g' => resolveFrom registry fallback fuel (i + 1) g'
    else .ok g

/-- The kinds and names of the nodes of a list. -/
def identities (nodes : List Node) : List (MarketObject × String) :=
  nodes.map fun n => (n.obj, n.name)

/-- The number of fallback declarations that no node of the list stands for:
the nodes the loop of §4.2 may still add. -/
def available (fallback : List Declaration) (nodes : List Node) : ℕ :=
  (fallback.filter fun d => decide ((d.obj, d.name) ∉ identities nodes)).length

/-- Modelled from the spec: §4.2 steps 1 to 3: seed one node per declared
mapping, then resolve every node. Each node added from the fallback carries a
kind and name no earlier node has, so at most
`declared.length + fallback.length` vertices are visited. -/
def assemble (registry : Registry) (source : ConfigurationSource) (configuration : String) :
    Except GraphError Graph :=
  let declared := source.declared configuration
  resolveFrom registry source.fallback (declared.length + source.fallback.length) 0
    { nodes := declared.map seed, edges := [] }

/-! ### Build order and cycle detection -/

/-- Modelled from the spec: vertex `v` can be scheduled next: it is not scheduled yet
and everything it depends on is. -/
def ready (g : Graph) (done : List ℕ) (v : ℕ) : Bool :=
  decide (v ∉ done) && (g.dependencies v).all fun p => decide (p ∈ done)

/-- Modelled from the spec: the first vertex, in declaration order, that can be
scheduled next. -/
def pickReady (g : Graph) (done : List ℕ) : Option ℕ :=
  (List.range g.nodes.length).find? (ready g done)

/-- Modelled from the spec: a dependency of `v` that is not scheduled yet. -/
def blocker (g : Graph) (done : List ℕ) (v : ℕ) : Option ℕ :=
  (g.dependencies v).find? fun p => decide (p ∉ done)

/-- Modelled from the spec: follow unscheduled dependencies from the head of `path`
until a vertex repeats; the vertices from the head down to the repeated one form
the cycle. -/
def walkBack (g : Graph) (done : List ℕ) : ℕ → List ℕ → List ℕ
  | 0, path => path
  | _ + 1, [] => []
  | fuel + 1, v :: path =>
    match blocker g done v with
    | none => v :: path
    | some p =>
      if p ∈ v :: path then (v :: path).takeWhile (fun u => decide (u ≠ p)) ++ [p]
      else walkBack g done fuel (p :: v :: path)

/-- Modelled from the spec: §4.2 step 4. When no unscheduled vertex can be
scheduled, each of them requires another unscheduled vertex; walking these
requirements from the first unscheduled vertex closes a cycle, whose members
are reported. -/
def findCycle (g : Graph) (done : List ℕ) : List ℕ :=
  match (List.range g.nodes.length).find? fun v => decide (v ∉ done) with
  | some v => walkBack g done g.nodes.length [v]
  | none => []

/-- Modelled from the spec: schedule `fuel` more vertices after `done`, always the first
ready one in declaration order; fail with a cycle when none is ready. -/
def schedule (g : Graph) : ℕ → List ℕ → Except (List ℕ) (List ℕ)
  | 0, done => .ok done
  | fuel + 1, done =>
    match pickReady g done with
    | some v => schedule g fuel (done ++ [v])
    | none => .error (findCycle g done)

/-- Modelled from the spec: the build order of §4.3, a topological order of
the graph with ties broken by declaration order (§4.2); the members of a cycle
when there is none. -/
def topologicalOrder (g : Graph) : Except (List ℕ) (List ℕ) :=
  schedule g g.nodes.length []

/-- Modelled from the spec: `buildDependencyGraph` as §4.2 describes it: steps 1
to 3 assemble the graph, step 4 rejects it with `CyclicDependency`, naming the
cycle members, when it has a cycle. The result is the graph left for the
configuration (the seeded nodes when a mapping does not parse) and the error
that aborted construction, if any. -/
def buildDependencyGraph (registry : Registry) (source : ConfigurationSource)
    (configuration : String) : Graph × Option GraphError :=
  match assemble registry source configuration with
  | .error e => ({ nodes := (source.declared configuration).map seed, edges := [] }, some e)
  | .ok g =>
    match topologicalOrder g with
    | .error cycle => (g, some (.cyclicDependency (cycle.map g.identity)))
    | .ok _ => (g, none)

/-- Modelled from the spec: the build order of a graph that passed cycle detection. -/
def buildOrder (g : Graph) : List ℕ :=
  match topologicalOrder g with
  | .ok order => order
  | .error _ => []

/-! ### Object cache, ledger and executor -/

/-- Modelled from the spec: a handle to a constructed market object. -/
abbrev ObjectHandle := ℕ

/-- The maps `required*_` of the header whose key is the curve spec name. -/
inductive CacheMap where
  | requiredYieldCurves_
  | requiredFxSpots_
  | requiredFxVolCurves_
  | requiredSwaptionVolCurves_
  | requiredYieldVolCurves_
  | requiredCapFloorVolCurves_
  | requiredDefaultCurves_
  | requiredCDSVolCurves_
  | requiredBaseCorrelationCurves_
  | requiredInflationCurves_
  | requiredInflationCapFloorVolCurves_
  | requiredEquityCurves_
  | requiredEquityVolCurves_
  | requiredSecurities_
  | requiredCommodityCurves_
  | requiredCommodityVolCurves_
  | requiredCorrelationCurves_
  deriving DecidableEq, Repr

/-- Modelled from the spec: the map of the header that holds the objects of a
kind (`todaysmarket.cpp` is not among the sources): the map whose value type
the kind is built into, so that discount, yield and index curves share
`requiredYieldCurves_`; a swap index has `requiredSwapIndices_`, which is not
keyed by curve spec name. -/
def cacheMap : MarketObject → Option CacheMap
  | .DiscountCurve => some .requiredYieldCurves_
  | .YieldCurve => some .requiredYieldCurves_
  | .IndexCurve => some .requiredYieldCurves_
  | .SwapIndexCurve => none
  | .FXSpot => some .requiredFxSpots_
  | .FXVol => some .requiredFxVolCurves_
  | .SwaptionVol => some .requiredSwaptionVolCurves_
  | .YieldVol => some .requiredYieldVolCurves_
  | .CapFloorVol => some .requiredCapFloorVolCurves_
  | .DefaultCurve => some .requiredDefaultCurves_
  | .CDSVol => some .requiredCDSVolCurves_
  | .BaseCorrelation => some .requiredBaseCorrelationCurves_
  | .InflationCurve => some .requiredInflationCurves_
  | .InflationCapFloorVol => some .requiredInflationCapFloorVolCurves_
  | .EquityCurve => some .requiredEquityCurves_
  | .EquityVol => some .requiredEquityVolCurves_
  | .Security => some .requiredSecurities_
  | .CommodityCurve => some .requiredCommodityCurves_
  | .CommodityVolatility => some .requiredCommodityVolCurves_
  | .Correlation => some .requiredCorrelationCurves_

/-- The cached market objects of the header: the maps `required*_` keyed by
curve spec name, and for swap indices a map from the configuration name to a
map from swap index name to index. -/
structure ObjectCache where
  required : CacheMap → String → Option ObjectHandle
  requiredSwapIndices_ : String → String → Option ObjectHandle

/-- The empty caches of a new instance. -/
def ObjectCache.empty : ObjectCache :=
  ⟨fun _ _ => none, fun _ _ => none⟩

/-- Modelled from the spec: the key of a node in its map: the curve spec name, or the
node's name when it has no curve spec. -/
def Node.cacheKey (n : Node) : String :=
  match n.curveSpec with
  | some spec => spec.name
  | none => n.name

/-- Modelled from the spec: the cached object of a node under a configuration. -/
def ObjectCache.lookup (c : ObjectCache) (configuration : String) (n : Node) :
    Option ObjectHandle :=
  match cacheMap n.obj with
  | none => c.requiredSwapIndices_ configuration n.name
  | some m => c.required m n.cacheKey

/-- Modelled from the spec: store the object built for a node under a configuration. -/
def ObjectCache.store (c : ObjectCache) (configuration : String) (n : Node)
    (o : ObjectHandle) : ObjectCache :=
  match cacheMap n.obj with
  | none =>
    { c with requiredSwapIndices_ := fun cfg name =>
        if cfg = configuration ∧ name = n.name then some o
        else c.requiredSwapIndices_ cfg name }
  | some m =>
    { c with required := fun m' key =>
        if m' = m ∧ key = n.cacheKey then some o else c.required m' key }

/-- The entry of the caches in which the object of a node lies under a
configuration: its map and its key there, and for a swap index, which has no
map keyed by curve spec name, its name. -/
def Node.slot (n : Node) : Option CacheMap × String :=
  match cacheMap n.obj with
  | none => (none, n.name)
  | some m => (some m, n.cacheKey)

/-- Modelled from the spec: the object builder collaborators of §6, one per
kind: from a node's specification and the objects built so far, an object or a
`BuildError` with its reason. -/
abbrev Builder := String → Node → ObjectCache → Except String ObjectHandle

/-- Modelled from the spec: the status of a node (§3). -/
inductive Status where
  | Pending
  | Built
  | Failed
  deriving DecidableEq, Repr

/-- Modelled from the spec: the state of one configuration's build pass: its
dependency graph, the object cache, the build error ledger (§3), which maps a
node, by its vertex, to a failure reason, and the record of the nodes handed to
`buildNode`, in order. -/
structure State where
  graph : Graph
  cache : ObjectCache
  buildErrors : List (ℕ × String)
  invoked : List ℕ

/-- Modelled from the spec: the ledger's reason for vertex `v`. -/
def State.reason (st : State) (v : ℕ) : Option String :=
  (st.buildErrors.find? fun e => e.1 = v).map Prod.snd

/-- The flag `built` of vertex `v`. -/
def State.isBuilt (st : State) (v : ℕ) : Bool :=
  match st.graph.nodes[v]? with
  | some n => n.built
  | none => false

/-- Modelled from the spec: the status of vertex `v` (§3), read from the
node's flag `built` and the ledger: `Built` when the flag is set, `Failed` when
the ledger has a reason for it, `Pending` otherwise. -/
def State.status (st : State) (v : ℕ) : Status :=
  if st.isBuilt v then .Built
  else if (st.reason v).isSome then .Failed
  else .Pending

/-- Modelled from the spec: the state before a pass over a graph, with the given cache. -/
def State.initial (g : Graph) (cache : ObjectCache) : State :=
  ⟨g, cache, [], []⟩

/-- Modelled from the spec: record vertex `v` as failed with a reason. -/
def State.fail (st : State) (v : ℕ) (reason : String) : State :=
  { st with buildErrors := st.buildErrors ++ [(v, reason)] }

/-- Modelled from the spec: `buildNode`, building a single market object: hand
the node to its builder collaborator; on success store the object in the cache
and set the node's flag `built`, on failure pass the reason on. -/
def buildNode (builder : Builder) (configuration : String) (cache : ObjectCache) (node : Node) :
    Except String (Node × ObjectCache) :=
  match builder configuration node cache with
  | .ok o => .ok ({ node with built := true }, cache.store configuration node o)
  | .error reason => .error reason

/-- Modelled from the spec: the dependencies of `v` that have failed. -/
def failedDependencies (st : State) (v : ℕ) : List ℕ :=
  (st.graph.dependencies v).filter fun u => st.status u = .Failed

/-- Concatenation of a list of strings. -/
def concat : List String → String
  | [] => ""
  | s :: rest => s ++ concat rest

/-- Modelled from the spec: the reason recorded for a node that depends on
failed nodes (§4.3): it names each failed dependency together with that
dependency's own reason. -/
def upstreamReason (st : State) (failed : List ℕ) : String :=
  "upstream failure:" ++ concat (failed.map fun u =>
    " [" ++ st.graph.identity u ++ ": " ++ (st.reason u).getD "" ++ "]")

/-- Modelled from the spec: the references of vertex `v` that no node of the graph satisfies. -/
def unresolvedReferences (g : Graph) (v : ℕ) : List (MarketObject × String) :=
  match g.nodes[v]? with
  | some n =>
    match n.curveSpec with
    | some spec => spec.references.filter fun r => (findNode g.nodes r.1 r.2).isNone
    | none => []
  | none => []

/-- Modelled from the spec: the reason recorded for `UnresolvedDependency` (§7). -/
def unresolvedReason (refs : List (MarketObject × String)) : String :=
  "unresolved dependency:" ++ concat (refs.map fun r => " " ++ r.1.toString ++ "/" ++ r.2)

/-- Modelled from the spec: the executor's treatment of one node (§4.3), for a
vertex of the graph. A node already `Built` is skipped. A node that depends on
a `Failed` node is marked `Failed` with a reason referencing the upstream
failure and is not attempted, whatever the cache holds. A node whose object the
cache holds already, from a prior configuration's pass, from an injection or
from a node of this pass with the same entry, is marked `Built` and skipped: it
is not handed to `buildNode` and the cache is left as it is. A node with an
unresolved dependency is marked `Failed` and is not attempted. Otherwise
construction is attempted: on success the node is `Built` and stored, on
failure it is `Failed` with the builder's reason. The second component names
the node when the pass must abort: the node is `Failed` and continue-on-error
is off. -/
def processNode (builder : Builder) (continueOnError : Bool) (configuration : String)
    (st : State) (v : ℕ) : State × Option ℕ :=
  let abort : Option ℕ := if continueOnError then none else some v
  match st.status v with
  | .Built => (st, none)
  | .Failed => (st, abort)
  | .Pending =>
    match st.graph.nodes[v]? with
    | none => (st, none)
    | some node =>
      if failedDependencies st v ≠ [] then
        (st.fail v (upstreamReason st (failedDependencies st v)), abort)
      else if (st.cache.lookup configuration node).isSome then
        ({ st with
            graph := { st.graph with nodes := st.graph.nodes.set v { node with built := true } } },
          none)
      else if unresolvedReferences st.graph v ≠ [] then
        (st.fail v (unresolvedReason (unresolvedReferences st.graph v)), abort)
      else
        match buildNode builder configuration st.cache node with
        | .ok (node', cache') =>
          ({ st with
              graph := { st.graph with nodes := st.graph.nodes.set v node' }
              cache := cache'
              invoked := st.invoked ++ [v] }, none)
        | .error reason => ({ st.fail v reason with invoked := st.invoked ++ [v] }, abort)

/-- What treating one node does to the state: nothing, a ledger entry for the
node without a build attempt, the node marked built on a cache hit, a ledger
entry after a failed attempt, or the node built and stored. -/
inductive Treated (builder : Builder) (configuration : String) (st : State) (v : ℕ) :
    State → Bool → Prop where
  | skipped (h : st.status v = .Built ∨ (st.status v = .Pending ∧ st.graph.nodes[v]? = none)) :
      Treated builder configuration st v st false
  | wasFailed (h : st.status v = .Failed) : Treated builder configuration st v st true
  | upstream (node : Node) (hs : st.status v = .Pending) (hn : st.graph.nodes[v]? = some node)
      (hf : failedDependencies st v ≠ []) :
      Treated builder configuration st v
        (st.fail v (upstreamReason st (failedDependencies st v))) true
  | cached (node : Node) (hs : st.status v = .Pending) (hn : st.graph.nodes[v]? = some node)
      (hf : failedDependencies st v = [])
      (hc : (st.cache.lookup configuration node).isSome = true) :
      Treated builder configuration st v
        { st with
          graph := { st.graph with nodes := st.graph.nodes.set v { node with built := true } } }
        false
  | unresolved (node : Node) (hs : st.status v = .Pending) (hn : st.graph.nodes[v]? = some node)
      (hf : failedDependencies st v = [])
      (hc : st.cache.lookup configuration node = none)
      (hu : unresolvedReferences st.graph v ≠ []) :
      Treated builder configuration st v
        (st.fail v (unresolvedReason (unresolvedReferences st.graph v))) true
  | built (node : Node) (o : ObjectHandle) (hs : st.status v = .Pending)
      (hn : st.graph.nodes[v]? = some node) (hf : failedDependencies st v = [])
      (hc : st.cache.lookup configuration node = none)
      (hu : unresolvedReferences st.graph v = [])
      (hb : builder configuration node st.cache = .ok o) :
      Treated builder configuration st v
        { st with
          graph := { st.graph with nodes := st.graph.nodes.set v { node with built := true } }
          cache := st.cache.store configuration node o
          invoked := st.invoked ++ [v] } false
  | buildFailed (node : Node) (reason : String) (hs : st.status v = .Pending)
      (hn : st.graph.nodes[v]? = some node) (hf : failedDependencies st v = [])
      (hc : st.cache.lookup configuration node = none)
      (hu : unresolvedReferences st.graph v = [])
      (hb : builder configuration node st.cache = .error reason) :
      Treated builder configuration st v
        { st.fail v reason with invoked := st.invoked ++ [v] } true

/-- What a node declares: everything but its flag `built`. -/
def Node.declaration (n : Node) : MarketObject × String × String × Option CurveSpec :=
  (n.obj, n.name, n.mapping, n.curveSpec)

/-- The state `st'` arises from `st` by treating vertices in `S` only: the edges
and what the nodes declare stay, a vertex outside `S` keeps its node, its
ledger entry and its place in the record of invocations, and no flag, ledger
entry, invocation or terminal status is lost. -/
def Changes (S : ℕ → Prop) (st st' : State) : Prop :=
  st'.graph.edges = st.graph.edges ∧
  st'.graph.nodes.length = st.graph.nodes.length ∧
  (∀ w : ℕ, (st'.graph.nodes[w]?).map Node.declaration =
    (st.graph.nodes[w]?).map Node.declaration) ∧
  (∀ w : ℕ, ¬ S w → st'.graph.nodes[w]? = st.graph.nodes[w]? ∧ st'.reason w = st.reason w ∧
    (w ∈ st'.invoked ↔ w ∈ st.invoked)) ∧
  (∀ w : ℕ, st.isBuilt w = true → st'.isBuilt w = true) ∧
  (∀ (w : ℕ) (r : String), st.reason w = some r → st'.reason w = some r) ∧
  (∀ w : ℕ, st.status w ≠ .Pending → st'.status w = st.status w) ∧
  (∀ w : ℕ, w ∈ st.invoked → w ∈ st'.invoked)

/-- The cache holds an object for the node at vertex `v`. -/
def State.cached (st : State) (configuration : String) (v : ℕ) : Prop :=
  ∀ node, st.graph.nodes[v]? = some node → (st.cache.lookup configuration node).isSome = true

/-- A reason references vertex `u` of the graph: it contains the identity of `u`. -/
def Graph.References (g : Graph) (reason : String) (u : ℕ) : Prop :=
  (g.identity u).data <:+: reason.data

/-- The failure of `u` has been propagated to `v`: `v` is `Failed` without having
been handed to `buildNode`, and its reason contains the identity of `u` and the
reason of `u`. -/
def Propagated (g : Graph) (st : State) (u v : ℕ) : Prop :=
  st.status v = .Failed ∧ v ∉ st.invoked ∧
    ∃ ru rv, st.reason u = some ru ∧ st.reason v = some rv ∧ g.References rv u ∧
      ru.data <:+: rv.data

/-- The state of a tolerant pass over the graph `g` after the vertices in `seen`
have been treated: they are no longer `Pending`, the others are untouched,
everything a treated vertex depends on has been treated, and every failure has
been propagated along the edges into treated vertices. -/
def PassInv (g : Graph) (seen : ℕ → Prop) (st : State) : Prop :=
  st.graph.edges = g.edges ∧
  (∀ w, st.graph.identity w = g.identity w) ∧
  (∀ v, seen v → st.status v ≠ .Pending) ∧
  (∀ v, ¬ seen v → st.status v = .Pending ∧ v ∉ st.invoked) ∧
  (∀ u v, g.Edge u v → seen v → seen u) ∧
  (∀ u v, g.Edge u v → seen v → st.status u = .Failed → Propagated g st u v)

/-- A state over the graph `g` in which nothing has failed and every reference
resolves. -/
def Sound (g : Graph) (st : State) : Prop :=
  st.buildErrors = [] ∧ st.graph.edges = g.edges ∧
    st.graph.nodes.length = g.nodes.length ∧ ∀ w, unresolvedReferences st.graph w = []

/-- The state of a pass over the graph `g` that started with the cache `cache`,
as far as the cache is concerned: the nodes declare what they declared; what
the cache held at the start it still holds; no node handed to `buildNode` had
its object in the cache at the start; every object of the cache was there at
the start or lies in the entry of a node handed to `buildNode`; a node handed to
`buildNode` is no longer `Pending`, its object is in the cache when it is built,
and no two such built nodes share an entry. -/
def CacheInv (g : Graph) (cache : ObjectCache) (configuration : String) (st : State) : Prop :=
  (∀ w : ℕ, (st.graph.nodes[w]?).map Node.declaration = (g.nodes[w]?).map Node.declaration) ∧
  (∀ n o, cache.lookup configuration n = some o → st.cache.lookup configuration n = some o) ∧
  (∀ v ∈ st.invoked, ∀ node, g.nodes[v]? = some node →
    cache.lookup configuration node = none) ∧
  (∀ n, (st.cache.lookup configuration n).isSome = true →
    (cache.lookup configuration n).isSome = true ∨
      ∃ u nu, u ∈ st.invoked ∧ g.nodes[u]? = some nu ∧ nu.slot = n.slot) ∧
  (∀ v ∈ st.invoked, st.status v ≠ .Pending) ∧
  (∀ v ∈ st.invoked, st.isBuilt v = true → ∀ node, g.nodes[v]? = some node →
    (st.cache.lookup configuration node).isSome = true) ∧
  (∀ u v nu nv, u ∈ st.invoked → v ∈ st.invoked → st.isBuilt u = true → st.isBuilt v = true →
    g.nodes[u]? = some nu → g.nodes[v]? = some nv → nu.slot = nv.slot → u = v)

/-- Modelled from the spec: the eager walk of §4.3 over a build order: each
node in turn, stopping at the first node that aborts the pass. -/
def runPass (builder : Builder) (continueOnError : Bool) (configuration : String) :
    List ℕ → State → State × Option ℕ
  | [], st => (st, none)
  | v :: rest, st =>
    match processNode builder continueOnError configuration st v with
    | (st', some f) => (st', some f)
    | (st', none) => runPass builder continueOnError configuration rest st'

/-- Modelled from the spec: ensure each vertex of a list in turn with `ensure`,
stopping at the first that aborts. -/
def ensureAll (ensure : State → ℕ → State × Option ℕ) : List ℕ → State → State × Option ℕ
  | [], st => (st, none)
  | u :: rest, st =>
    match ensure st u with
    | (st', some f) => (st', some f)
    | (st', none) => ensureAll ensure rest st'

/-- Modelled from the spec: the lazy policy of §4.3 for vertex `v`: recursively
ensure that everything `v` depends on is built, under the same failure rule,
then treat `v` itself. The recursion follows dependency edges, so its depth is
bounded by the number of vertices of an acyclic graph; `fuel` is that bound. -/
def requireNode (builder : Builder) (continueOnError : Bool) (configuration : String) :
    ℕ → State → ℕ → State × Option ℕ
  | 0, st, _ => (st, none)
  | fuel + 1, st, v =>
    match st.status v with
    | .Pending =>
      match ensureAll (requireNode builder continueOnError configuration fuel)
          (st.graph.dependencies v) st with
      | (st', some f) => (st', some f)
      | (st', none) => processNode builder continueOnError configuration st' v
    | _ => processNode builder continueOnError configuration st v

/-! ### The market object -/

/-- The flag members `continueOnError_`, `loadFixings_`, `lazyBuild_` and
`preserveQuoteLinkage_` of `TodaysMarket`. -/
structure Flags where
  continueOnError_ : Bool
  loadFixings_ : Bool
  lazyBuild_ : Bool
  preserveQuoteLinkage_ : Bool
  deriving DecidableEq, Repr

/-- The flags of the constructor `TodaysMarket(asof, params, loader, curveConfigs,
conventions, continueOnError = false, loadFixings = true, lazyBuild = false,
referenceData = nullptr, preserveQuoteLinkage = false)`: an argument the caller
does not pass is `none` and takes the default of the declaration; each member
is initialised from the argument of its name. -/
def Flags.construct (continueOnError loadFixings lazyBuild preserveQuoteLinkage : Option Bool) :
    Flags :=
  ⟨continueOnError.getD false, loadFixings.getD true, lazyBuild.getD false,
    preserveQuoteLinkage.getD false⟩

/-- Modelled from the spec: how a pass or a query fails (§7): graph construction
failed, a node failed with continue-on-error off (or the queried node is not
built), or the queried object was never declared. -/
inductive PassFailure where
  | graph (e : GraphError)
  | node (v : ℕ)
  | notFound (obj : MarketObject) (name : String)
  deriving DecidableEq, Repr

/-- Modelled from the spec: `initialise` for one configuration (§3 lifecycle,
§4.3): build the dependency graph; when that fails nothing is executed;
otherwise, unless the market is built lazily, walk the build order. -/
def initialise (registry : Registry) (source : ConfigurationSource) (builder : Builder)
    (flags : Flags) (configuration : String) (cache : ObjectCache) :
    State × Option PassFailure :=
  match buildDependencyGraph registry source configuration with
  | (g, some e) => (State.initial g cache, some (.graph e))
  | (g, none) =>
    if flags.lazyBuild_ then (State.initial g cache, none)
    else
      let r := runPass builder flags.continueOnError_ configuration (buildOrder g)
        (State.initial g cache)
      (r.1, r.2.map PassFailure.node)

/-- Modelled from the spec: `require(o, name, configuration)` (§4.4): a query
for an undeclared object is `NotFound`; in lazy mode a query triggers the
construction of what the node needs; the query fails unless the node is built. -/
def require (builder : Builder) (flags : Flags) (configuration : String) (st : State)
    (o : MarketObject) (name : String) : State × Option PassFailure :=
  match findNode st.graph.nodes o name with
  | none => (st, some (.notFound o name))
  | some v =>
    let st' :=
      if flags.lazyBuild_ then
        (requireNode builder flags.continueOnError_ configuration st.graph.nodes.length st v).1
      else st
    (st', if st'.isBuilt v then none else some (.node v))

/-! ### The configurations of the examples -/

/-- A registry for the examples: `leaf` refers to nothing, `f(X)` to `X`. -/
def exampleRegistry : Registry := fun _ mapping =>
  match mapping with
  | "leaf" => .ok (some ⟨"leaf", []⟩)
  | "f(A)" => .ok (some ⟨"f(A)", [(.DiscountCurve, "A")]⟩)
  | "f(B)" => .ok (some ⟨"f(B)", [(.DiscountCurve, "B")]⟩)
  | "f(C)" => .ok (some ⟨"f(C)", [(.DiscountCurve, "C")]⟩)
  | other => .error ("cannot parse " ++ other)

/-- The configuration `A -> f(B)`, `B -> f(C)`, `C -> leaf`. -/
def chainSource : ConfigurationSource where
  declared := fun _ =>
    [⟨.DiscountCurve, "A", "f(B)"⟩, ⟨.DiscountCurve, "B", "f(C)"⟩, ⟨.DiscountCurve, "C", "leaf"⟩]
  fallback := []

/-- The configuration `A -> f(B)`, `B -> f(A)`. -/
def cycleSource : ConfigurationSource where
  declared := fun _ => [⟨.DiscountCurve, "A", "f(B)"⟩, ⟨.DiscountCurve, "B", "f(A)"⟩]
  fallback := []

/-- The configuration `A -> f(B)`, `B -> leaf`, `C -> leaf`. -/
def pairSource : ConfigurationSource where
  declared := fun _ =>
    [⟨.DiscountCurve, "A", "f(B)"⟩, ⟨.DiscountCurve, "B", "leaf"⟩, ⟨.DiscountCurve, "C", "leaf"⟩]
  fallback := []

/-- A builder that builds every node, numbering the objects by name length. -/
def okBuilder : Builder := fun _ node _ => .ok node.name.length

/-- A builder that fails exactly on the nodes named `B`. -/
def failOnB : Builder := fun _ node _ =>
  if node.name = "B" then .error "no quotes" else .ok 1

/-- The object `o`, built from the object of the node `dependency`: a failure
unless the cache holds that object. -/
def buildFrom (cache : ObjectCache) (configuration : String) (dependency : Node)
    (o : ObjectHandle) : Except String ObjectHandle :=
  if (cache.lookup configuration dependency).isSome then .ok o
  else .error (dependency.name ++ " is not built")

/-- The node `B` of the chain `A -> f(B)`, `B -> f(C)`, `C -> leaf`. -/
def chainB : Node := ⟨.DiscountCurve, "B", "f(C)", some ⟨"f(C)", [(.DiscountCurve, "C")]⟩, false⟩

/-- The node `C` of the chain `A -> f(B)`, `B -> f(C)`, `C -> leaf`. -/
def chainC : Node := ⟨.DiscountCurve, "C", "leaf", some ⟨"leaf", []⟩, false⟩

/-- A builder for the chain `A -> f(B)`, `B -> f(C)`, `C -> leaf` that needs
what a node depends on: `A` is built from the object of `B` and `B` from the
object of `C`. -/
def chainBuilder : Builder := fun configuration node cache =>
  match node.name with
  | "A" => buildFrom cache configuration chainB 3
  | "B" => buildFrom cache configuration chainC 2
  | _ => .ok 1

end TodaysMarket

end data
end ore

/-! ## QuantExt: `IrHwStateProcess` (`irhwstateprocess.hpp`) -/

namespace QuantExt

open QuantLib (Date Frequency)
open ore.data (Outcome qlRequire qlFail)

/-- The enumeration `IrModel::Measure` as the header uses it: the enumerator
`BA`; `other` stands for any other value, with its integer code. -/
inductive IrModel.Measure where
  | BA
  | other (code : Int)
  deriving DecidableEq, Repr

/-- The enumeration `HwModel::Discretization` as the header uses it: the
enumerators `Euler` and `Exact`; `other` stands for any other value, with its
integer code. -/
inductive HwModel.Discretization where
  | Euler
  | Exact
  | other (code : Int)
  deriving DecidableEq, Repr

/-- An `IrHwParametrization`, as far as the header reads it: `n()` and `m()`. -/
structure IrHwParametrization where
  n : ℕ
  m : ℕ
  deriving DecidableEq, Repr

/-- The members of `IrHwStateProcess`; `eulerDiscretization` tells whether the
base `StochasticProcess` was given an `EulerDiscretization` rather than a null
pointer. -/
structure IrHwStateProcess where
  eulerDiscretization : Bool
  parametrization_ : Option IrHwParametrization
  measure_ : IrModel.Measure
  discretization_ : HwModel.Discretization
  evaluateBankAccount_ : Bool
  deriving DecidableEq, Repr

namespace IrHwStateProcess

/-- The constructor `IrHwStateProcess(parametrization, measure, discretization =
Euler, evaluateBankAccount = true)`: an argument the caller does not pass is
`none` and takes its default. -/
def create (parametrization : Option IrHwParametrization) (measure : IrModel.Measure)
    (discretization : Option HwModel.Discretization) (evaluateBankAccount : Option Bool) :
    Outcome IrHwStateProcess := do
  let process : IrHwStateProcess :=
    ⟨discretization.getD .Euler == .Euler, parametrization, measure, discretization.getD .Euler,
      evaluateBankAccount.getD true⟩
  qlRequire (process.measure_ == .BA) "IrHwStateProcess only supports measure BA"
  qlRequire (process.discretization_ == .Euler)
    "IrHwStateProcess only supports dicsretization Euler"
  pure process

end IrHwStateProcess

/-! ## QuantExt: `ZeroInflationIndexWrapper` (`inflationindexwrapper.cpp`) -/

/-- A QuantLib `ZeroInflationIndex`, as far as the wrapper reads it: its
frequency and its fixings, which may fail. -/
structure ZeroInflationIndex where
  frequency : Frequency
  fixing : Date → Outcome QuantLib.Real

/-- A `ZeroInflationIndexWrapper`: the frequency of its base class and the
members `source_` and `interpolation_`. -/
structure ZeroInflationIndexWrapper where
  frequency : Frequency
  source_ : ZeroInflationIndex
  interpolation_ : QuantLib.CPI.InterpolationType

namespace ZeroInflationIndexWrapper

/-- The constructor `ZeroInflationIndexWrapper(source, interpolation)`, which
gives the base class the frequency of the source. -/
def create (source : ZeroInflationIndex) (interpolation : QuantLib.CPI.InterpolationType) :
    ZeroInflationIndexWrapper :=
  ⟨source.frequency, source, interpolation⟩

/-- The method `ZeroInflationIndexWrapper::fixing(fixingDate, forecastTodaysFixing)`;
the QuantLib function `inflationPeriod` is a parameter, and the second argument
is not read. -/
def fixing (inflationPeriod : Date → Frequency → Date × Date) (w : ZeroInflationIndexWrapper)
    (fixingDate : Date) (_forecastTodaysFixing : Bool) : Outcome QuantLib.Real :=
  if w.interpolation_ = .AsIndex then w.source_.fixing fixingDate
  else do
    let dd := inflationPeriod fixingDate w.frequency
    let indexStart ← w.source_.fixing dd.1
    if w.interpolation_ = .Linear then do
      let indexEnd ← w.source_.fixing (dd.2 + 1)
      pure (indexStart + (indexEnd - indexStart) * (((fixingDate : Int) - (dd.1 : Int) : Int) : ℚ) /
        ((((dd.2 + 1 : ℕ) : Int) - (dd.1 : Int) : Int) : ℚ))
    else pure indexStart

end ZeroInflationIndexWrapper

/-- An index whose fixing at the date `d` is `100 + d`. -/
def rampIndex : ZeroInflationIndex := ⟨12, fun d => .ok (100 + d)⟩

/-- Inflation periods of ten days: the period of `d` runs from `10 * (d / 10)`
to `10 * (d / 10) + 9`. -/
def tenDayPeriod : Date → Frequency → Date × Date :=
  fun d _ => (10 * (d / 10), 10 * (d / 10) + 9)

/-! ## QuantExt: the parametrization of the CR LGM model -/

/-- A `CrLgm1fConstantParametrization`: the arguments of its constructor and the
values behind `shift()` and `scaling()`. -/
structure CrLgm1fConstantParametrization where
  currency : String
  termStructure : ore.data.DefaultTermStructure
  alpha : QuantLib.Real
  kappa : QuantLib.Real
  name : String
  shift : QuantLib.Real
  scaling : QuantLib.Real
  deriving DecidableEq, Repr

end QuantExt

namespace ore
namespace data

open QuantLib (Date Period Calendar TimeUnit nullReal)

/-! ## The CR LGM builder (`crlgmbuilder.cpp`) -/

/-- The enumeration `ParamType` as the builder uses it: the enumerator
`Constant`; `other` stands for any other value, with its integer code. -/
inductive ParamType where
  | Constant
  | other (code : Int)
  deriving DecidableEq, Repr

/-- The accessors of `CrLgmData` read by the builder. -/
structure CrLgmData where
  name : String
  qualifier : String
  calibrateA : Bool
  calibrateH : Bool
  aParamType : ParamType
  hParamType : ParamType
  aTimes : List QuantLib.Real
  hTimes : List QuantLib.Real
  aValues : List QuantLib.Real
  hValues : List QuantLib.Real
  shiftHorizon : QuantLib.Real
  scaling : QuantLib.Real
  deriving DecidableEq, Repr

/-- The `Market`, as far as the builder reads it: the term structure behind
`defaultCurve(name, configuration)->curve()`. -/
structure Market where
  defaultCurve : String → String → Outcome DefaultTermStructure

/-- The members of `CrLgmBuilder` set by the constructor, apart from `market_`. -/
structure CrLgmBuilder where
  configuration_ : String
  data_ : CrLgmData
  modelDefaultCurve_ : DefaultTermStructure
  parametrization_ : QuantExt.CrLgm1fConstantParametrization
  deriving DecidableEq, Repr

namespace CrLgmBuilder

/-- The constructor `CrLgmBuilder(market, data, configuration)`;
`makeParametrization` is the constructor of `CrLgm1fConstantParametrization`,
and reading `alpha[0]` or `h[0]` of an empty array is undefined. -/
def create
    (makeParametrization : String → DefaultTermStructure → QuantLib.Real → QuantLib.Real →
      String → Outcome QuantExt.CrLgm1fConstantParametrization)
    (market : Market) (data : CrLgmData) (configuration : String) : Outcome CrLgmBuilder := do
  let name := data.name
  let modelDefaultCurve_ ← market.defaultCurve name configuration
  qlRequire (!data.calibrateA && !data.calibrateH)
    "CrLgmBuilder does not support calibration currently"
  qlRequire (data.aParamType == .Constant)
    "CrLgmBuilder only supports constant volatility currently"
  qlRequire (data.hParamType == .Constant)
    "CrLgmBuilder only supports constant reversion currently"
  let alpha := data.aValues
  let h := data.hValues
  match alpha.head?, h.head? with
  | some alpha0, some h0 =>
    let parametrization_ ← makeParametrization "USD" modelDefaultCurve_ alpha0 h0 name
    qlRequire (decide (data.shiftHorizon ≥ 0)) "shift horizon must be non negative"
    qlRequire (decide (data.scaling > 0)) "scaling must be positive"
    let parametrization_ :=
      if data.shiftHorizon > 0 then { parametrization_ with shift := data.shiftHorizon }
      else parametrization_
    let parametrization_ :=
      if data.scaling ≠ 1 then { parametrization_ with scaling := data.scaling }
      else parametrization_
    pure ⟨configuration, data, modelDefaultCurve_, parametrization_⟩
  | _, _ => .error .undefined

end CrLgmBuilder

/-- A constructor of the parametrization with shift 0 and scaling 1. -/
def plainParametrization (currency : String) (termStructure : DefaultTermStructure)
    (alpha kappa : QuantLib.Real) (name : String) :
    Outcome QuantExt.CrLgm1fConstantParametrization :=
  .ok ⟨currency, termStructure, alpha, kappa, name, 0, 1⟩

/-- A market holding one flat default curve under every name. -/
def plainMarket : Market :=
  ⟨fun _ _ => .ok (.survivalProbabilityCurve [0, 1] [1, 1] "A365" true)⟩

/-- Model data for `CDS1` with constant parameters, shift horizon 5 and scaling 2. -/
def crLgmData : CrLgmData where
  name := "CDS1"
  qualifier := "CDS1"
  calibrateA := false
  calibrateH := false
  aParamType := .Constant
  hParamType := .Constant
  aTimes := []
  hTimes := []
  aValues := [1 / 100]
  hValues := [3 / 100]
  shiftHorizon := 5
  scaling := 2

/-! ## Properties of `CompositeLoader` -/

namespace CompositeLoader

theorem hasIn_eq_true_iff (l : Option Loader) (name : String) (d : Date) :
    hasIn l name d = true ↔ ∃ a, l = some a ∧ a.has name d = true := by
  cases l <;> simp [hasIn]

theorem get_of_hasIn_a (showDate : Date → String) (c : CompositeLoader) (name : String)
    (d : Date) (a : Loader) (ha : c.a_ = some a) (h : a.has name d = true) :
    c.get showDate name d = a.get name d := by
  simp [get, hasIn, ha, h]

theorem get_of_hasIn_b (showDate : Date → String) (c : CompositeLoader) (name : String)
    (d : Date) (b : Loader) (hb : c.b_ = some b) (hna : hasIn c.a_ name d = false)
    (h : b.has name d = true) : c.get showDate name d = b.get name d := by
  unfold get
  rw [hna]
  simp [hasIn, hb, h]

theorem get_of_not_has (showDate : Date → String) (c : CompositeLoader) (name : String)
    (d : Date) (h : c.has name d = false) :
    c.get showDate name d =
      qlFail ("No MarketDatum for name " ++ name ++ " and date " ++ showDate d) := by
  simp only [has, Bool.or_eq_false_iff] at h
  simp [get, h.1, h.2]

/-- C8: for component loaders whose `get(name, d)` returns a datum exactly when
their `has(name, d)` is true, `CompositeLoader::get(name, d)` returns a datum if
and only if `CompositeLoader::has(name, d)` is true, it fails if and only if
`has(name, d)` is false, and it then fails with
`No MarketDatum for name <name> and date <d>`. -/
theorem get_succeeds_iff_has (showDate : Date → String) (c : CompositeLoader) (name : String)
    (d : Date)
    (ha : ∀ a, c.a_ = some a → ((∃ m, a.get name d = .ok (some m)) ↔ a.has name d = true))
    (hb : ∀ b, c.b_ = some b → ((∃ m, b.get name d = .ok (some m)) ↔ b.has name d = true)) :
    ((∃ m, c.get showDate name d = .ok (some m)) ↔ c.has name d = true) ∧
    ((∃ f, c.get showDate name d = .error f) ↔ c.has name d = false) ∧
    (c.has name d = false →
      c.get showDate name d =
        qlFail ("No MarketDatum for name " ++ name ++ " and date " ++ showDate d)) := by
  have key : c.has name d = true → ∃ m, c.get showDate name d = .ok (some m) := by
    intro h
    simp only [has, Bool.or_eq_true] at h
    by_cases h1 : hasIn c.a_ name d = true
    · obtain ⟨a, hael, hat⟩ := (hasIn_eq_true_iff _ _ _).1 h1
      rw [get_of_hasIn_a showDate c name d a hael hat]
      exact (ha a hael).2 hat
    · have h2 : hasIn c.b_ name d = true := by
        rcases h with h | h
        · exact absurd h h1
        · exact h
      obtain ⟨b, hbel, hbt⟩ := (hasIn_eq_true_iff _ _ _).1 h2
      rw [get_of_hasIn_b showDate c name d b hbel (by simpa using h1) hbt]
      exact (hb b hbel).2 hbt
  refine ⟨⟨?_, key⟩, ⟨?_, ?_⟩, get_of_not_has showDate c name d⟩
  · rintro ⟨m, hm⟩
    by_contra hne
    have hf : c.has name d = false := by simpa using hne
    rw [get_of_not_has showDate c name d hf] at hm
    simp [qlFail] at hm
  · rintro ⟨f, hf⟩
    by_contra hne
    have ht : c.has name d = true := by simpa using hne
    obtain ⟨m, hm⟩ := key ht
    rw [hm] at hf
    cases hf
  · intro h
    exact ⟨_, get_of_not_has showDate c name d h⟩

theorem listLoader_get_iff_has (data : List MarketDatum) (name : String) (d : Date) :
    (∃ m, (listLoader data).get name d = .ok (some m)) ↔ (listLoader data).has name d = true := by
  simp only [listLoader, List.any_eq_true, decide_eq_true_eq]
  constructor
  · rintro ⟨m, hm⟩
    cases hfind : data.find? (fun m => decide (m.name = name)) with
    | none => simp [hfind, qlFail] at hm
    | some m' =>
      have := List.find?_some hfind
      exact ⟨m', List.mem_of_find?_eq_some hfind, by simpa using this⟩
  · rintro ⟨m, hmem, hname⟩
    cases hfind : data.find? (fun m => decide (m.name = name)) with
    | none =>
      have := List.find?_eq_none.1 hfind m hmem
      simp [hname] at this
    | some m' => exact ⟨m', rfl⟩

/-- Witness of C8: a composite of an empty loader and a loader holding the
recovery rate datum. -/
theorem get_succeeds_iff_has_witness :
    ((∃ m, (CompositeLoader.mk (some (listLoader [])) (some (listLoader [recoveryDatum]))).get
        (fun d => toString d) "RECOVERY_RATE/CDS1" 0 = .ok (some m)) ↔
      (CompositeLoader.mk (some (listLoader [])) (some (listLoader [recoveryDatum]))).has
        "RECOVERY_RATE/CDS1" 0 = true) ∧
    ((∃ f, (CompositeLoader.mk (some (listLoader [])) (some (listLoader [recoveryDatum]))).get
        (fun d => toString d) "RECOVERY_RATE/CDS1" 0 = .error f) ↔
      (CompositeLoader.mk (some (listLoader [])) (some (listLoader [recoveryDatum]))).has
        "RECOVERY_RATE/CDS1" 0 = false) ∧
    ((CompositeLoader.mk (some (listLoader [])) (some (listLoader [recoveryDatum]))).has
        "RECOVERY_RATE/CDS1" 0 = false →
      (CompositeLoader.mk (some (listLoader [])) (some (listLoader [recoveryDatum]))).get
        (fun d => toString d) "RECOVERY_RATE/CDS1" 0 =
        qlFail ("No MarketDatum for name " ++ "RECOVERY_RATE/CDS1" ++ " and date " ++
          toString 0)) :=
  get_succeeds_iff_has (fun d => toString d) ⟨some (listLoader []), some (listLoader [recoveryDatum])⟩
    "RECOVERY_RATE/CDS1" 0
    (fun a h => by
      have : a = listLoader [] := by simpa using h.symm
      subst this
      exact listLoader_get_iff_has [] _ _)
    (fun b h => by
      have : b = listLoader [recoveryDatum] := by simpa using h.symm
      subst this
      exact listLoader_get_iff_has [recoveryDatum] _ _)

end CompositeLoader

/-! ## Properties of `DefaultCurve` -/

namespace DefaultCurve

theorem construct_of_body_error (q : QuantLibEnv) (io : Streams) (asof : Date)
    (spec : DefaultCurveSpec) (loader : Loader) (curveConfigs : CurveConfigurations)
    (conventions : Conventions) (yieldCurves : List (String × YieldCurve)) (what : String)
    (h : constructBody q io asof spec loader curveConfigs conventions yieldCurves =
      .error (.error what)) :
    construct q io asof spec loader curveConfigs conventions yieldCurves =
      qlFail (failureHead spec ++ what) := by
  simp [construct, h]

theorem construct_ok_iff (q : QuantLibEnv) (io : Streams) (asof : Date)
    (spec : DefaultCurveSpec) (loader : Loader) (curveConfigs : CurveConfigurations)
    (conventions : Conventions) (yieldCurves : List (String × YieldCurve)) (c : DefaultCurve) :
    construct q io asof spec loader curveConfigs conventions yieldCurves = .ok c ↔
      constructBody q io asof spec loader curveConfigs conventions yieldCurves = .ok c := by
  unfold construct
  cases hb : constructBody q io asof spec loader curveConfigs conventions yieldCurves with
  | ok c' => simp
  | error f => cases f <;> simp [qlFail]

theorem constructBody_of_config_error (q : QuantLibEnv) (io : Streams) (asof : Date)
    (spec : DefaultCurveSpec) (loader : Loader) (curveConfigs : CurveConfigurations)
    (conventions : Conventions) (yieldCurves : List (String × YieldCurve)) (f : Failure)
    (h : curveConfigs.defaultCurveConfig spec.curveConfigID = .error f) :
    constructBody q io asof spec loader curveConfigs conventions yieldCurves = .error f := by
  simp [constructBody, h, bind, Except.bind]

theorem constructBody_of_recovery_error (q : QuantLibEnv) (io : Streams) (asof : Date)
    (spec : DefaultCurveSpec) (loader : Loader) (curveConfigs : CurveConfigurations)
    (conventions : Conventions) (yieldCurves : List (String × YieldCurve))
    (config : DefaultCurveConfig) (f : Failure)
    (h : curveConfigs.defaultCurveConfig spec.curveConfigID = .ok config)
    (hr : loadRecoveryRate config asof loader = .error f) :
    constructBody q io asof spec loader curveConfigs conventions yieldCurves = .error f := by
  simp [constructBody, h, hr, bind, Except.bind]

theorem constructBody_of_recovery_ok (q : QuantLibEnv) (io : Streams) (asof : Date)
    (spec : DefaultCurveSpec) (loader : Loader) (curveConfigs : CurveConfigurations)
    (conventions : Conventions) (yieldCurves : List (String × YieldCurve))
    (config : DefaultCurveConfig) (r : QuantLib.Real)
    (h : curveConfigs.defaultCurveConfig spec.curveConfigID = .ok config)
    (hr : loadRecoveryRate config asof loader = .ok r) :
    constructBody q io asof spec loader curveConfigs conventions yieldCurves =
      buildRequestedType q io r config asof spec loader conventions yieldCurves := by
  simp [constructBody, h, hr, bind, Except.bind]

theorem loadRecoveryRate_of_not_has (config : DefaultCurveConfig) (asof : Date) (loader : Loader)
    (hq : config.recoveryRateQuote ≠ "")
    (hhas : loader.has config.recoveryRateQuote asof = false) :
    loadRecoveryRate config asof loader =
      qlFail ("There is no market data for the requested recovery rate " ++
        config.recoveryRateQuote) := by
  simp [loadRecoveryRate, hq, hhas, qlRequire, bind, Except.bind, qlFail]

/-- C9: every exception raised while constructing a `DefaultCurve` leaves the
constructor as a failure whose reason is
`default curve building failed for <curveConfigID>: <underlying reason>`
(`unknown error` for an exception without a reason): so it is for a missing
curve configuration, a missing recovery rate quote, an unrecognised curve type
and any failure inside `buildCdsCurve`, `buildHazardRateCurve` or
`buildBenchmarkCurve`, and no exception leaves the constructor in another form. -/
theorem construct_failure_names_curve (q : QuantLibEnv) (io : Streams) (asof : Date)
    (spec : DefaultCurveSpec) (loader : Loader) (curveConfigs : CurveConfigurations)
    (conventions : Conventions) (yieldCurves : List (String × YieldCurve)) :
    (∀ what, constructBody q io asof spec loader curveConfigs conventions yieldCurves =
        .error (.error what) →
      construct q io asof spec loader curveConfigs conventions yieldCurves =
        qlFail ("default curve building failed for " ++ spec.curveConfigID ++ ": " ++ what)) ∧
    (constructBody q io asof spec loader curveConfigs conventions yieldCurves = .error .unknown →
      construct q io asof spec loader curveConfigs conventions yieldCurves =
        qlFail ("default curve building failed for " ++ spec.curveConfigID ++ ": " ++
          "unknown error")) ∧
    (∀ f, construct q io asof spec loader curveConfigs conventions yieldCurves = .error f →
      f ≠ .unknown ∧ ∀ w, f = .error w →
        ∃ reason, w = "default curve building failed for " ++ spec.curveConfigID ++ ": " ++
          reason) ∧
    (∀ what, curveConfigs.defaultCurveConfig spec.curveConfigID = .error (.error what) →
      construct q io asof spec loader curveConfigs conventions yieldCurves =
        qlFail (failureHead spec ++ what)) ∧
    (∀ config, curveConfigs.defaultCurveConfig spec.curveConfigID = .ok config →
      config.recoveryRateQuote ≠ "" → loader.has config.recoveryRateQuote asof = false →
      construct q io asof spec loader curveConfigs conventions yieldCurves =
        qlFail (failureHead spec ++ ("There is no market data for the requested recovery rate " ++
          config.recoveryRateQuote))) ∧
    (∀ config r code, curveConfigs.defaultCurveConfig spec.curveConfigID = .ok config →
      loadRecoveryRate config asof loader = .ok r → config.type = .other code →
      construct q io asof spec loader curveConfigs conventions yieldCurves =
        qlFail (failureHead spec ++ ("The DefaultCurveConfig type " ++ toString code ++
          " was not recognised"))) ∧
    (∀ config r what, curveConfigs.defaultCurveConfig spec.curveConfigID = .ok config →
      loadRecoveryRate config asof loader = .ok r →
      (config.type = .SpreadCDS ∧
          buildCdsCurve q io r config asof spec loader conventions yieldCurves =
            .error (.error what)) ∨
        (config.type = .HazardRate ∧
          buildHazardRateCurve q io r config asof loader conventions = .error (.error what)) ∨
        (config.type = .Benchmark ∧
          buildBenchmarkCurve q r config asof spec yieldCurves = .error (.error what)) →
      construct q io asof spec loader curveConfigs conventions yieldCurves =
        qlFail (failureHead spec ++ what)) := by
  refine ⟨?_, ?_, ?_, ?_, ?_, ?_, ?_⟩
  · intro what h
    simpa [failureHead, String.append_assoc] using
      construct_of_body_error q io asof spec loader curveConfigs conventions yieldCurves what h
  · intro h
    simp [construct, h, failureHead, String.append_assoc]
  · intro f hf
    unfold construct at hf
    cases hb : constructBody q io asof spec loader curveConfigs conventions yieldCurves with
    | ok c => rw [hb] at hf; cases hf
    | error e =>
      rw [hb] at hf
      cases e with
      | error what =>
        simp only [qlFail, Except.error.injEq] at hf
        subst hf
        refine ⟨by simp, fun w hw => ⟨what, ?_⟩⟩
        simp only [Failure.error.injEq] at hw
        rw [← hw, failureHead, String.append_assoc]
      | unknown =>
        simp only [qlFail, Except.error.injEq] at hf
        subst hf
        refine ⟨by simp, fun w hw => ⟨"unknown error", ?_⟩⟩
        simp only [Failure.error.injEq] at hw
        rw [← hw, failureHead, String.append_assoc]
      | undefined =>
        simp only [Except.error.injEq] at hf
        subst hf
        exact ⟨by simp, fun w hw => by cases hw⟩
  · intro what h
    exact construct_of_body_error _ _ _ _ _ _ _ _ _ (constructBody_of_config_error _ _ _ _ _ _ _ _ _ h)
  · intro config h hq hhas
    exact construct_of_body_error _ _ _ _ _ _ _ _ _
      (constructBody_of_recovery_error _ _ _ _ _ _ _ _ config _ h
        (loadRecoveryRate_of_not_has config asof loader hq hhas))
  · intro config r code h hr ht
    apply construct_of_body_error
    rw [constructBody_of_recovery_ok _ _ _ _ _ _ _ _ config r h hr]
    simp [buildRequestedType, ht, DefaultCurveConfig.Type.toInt, qlFail]
  · intro config r what h hr hcase
    apply construct_of_body_error
    rw [constructBody_of_recovery_ok _ _ _ _ _ _ _ _ config r h hr]
    rcases hcase with ⟨ht, hb⟩ | ⟨ht, hb⟩ | ⟨ht, hb⟩ <;> simp [buildRequestedType, ht, hb]

/-- Witness of C9: the configuration `CDS1` asks for a recovery rate quote the
loader does not have. -/
theorem construct_failure_names_curve_witness :
    construct plainEnv plainStreams 0 cdsSpec (listLoader []) (singleConfig cdsConfigWithRecovery)
        cdsConventions [] =
      qlFail (failureHead cdsSpec ++ ("There is no market data for the requested recovery rate " ++
        cdsConfigWithRecovery.recoveryRateQuote)) :=
  (construct_failure_names_curve plainEnv plainStreams 0 cdsSpec (listLoader [])
    (singleConfig cdsConfigWithRecovery) cdsConventions []).2.2.2.2.1 cdsConfigWithRecovery
    rfl (by decide) rfl

theorem findCurve_eq_none_iff (yieldCurves : List (String × YieldCurve)) (id : String) :
    findCurve yieldCurves id = none ↔ id ∉ yieldCurves.map Prod.fst := by
  simp only [findCurve, Option.map_eq_none', List.find?_eq_none, List.mem_map, not_exists,
    not_and, beq_iff_eq, Prod.forall]

theorem buildCdsCurve_not_ok (q : QuantLibEnv) (io : Streams) (r : QuantLib.Real)
    (config : DefaultCurveConfig) (asof : Date) (spec : DefaultCurveSpec) (loader : Loader)
    (conventions : Conventions) (yieldCurves : List (String × YieldCurve))
    (h : findCurve yieldCurves config.discountCurveID = none) (c : DefaultCurve) :
    buildCdsCurve q io r config asof spec loader conventions yieldCurves ≠ .ok c := by
  unfold buildCdsCurve
  simp only [bind, Except.bind, qlRequire, qlFail, h]
  repeat' split
  all_goals simp_all

theorem buildCdsCurve_missing_discount (q : QuantLibEnv) (io : Streams) (r : QuantLib.Real)
    (config : DefaultCurveConfig) (asof : Date) (spec : DefaultCurveSpec) (loader : Loader)
    (conventions : Conventions) (yieldCurves : List (String × YieldCurve)) (conv : CdsConvention)
    (ht : config.type = .SpreadCDS) (hr : r ≠ nullReal)
    (hhas : conventions.has config.conventionID = true)
    (hget : conventions.get config.conventionID = .ok (.cds conv))
    (h : findCurve yieldCurves config.discountCurveID = none) :
    buildCdsCurve q io r config asof spec loader conventions yieldCurves =
      qlFail ("The discount curve, " ++ config.discountCurveID ++
        ", required in the building of the curve, " ++ spec.name ++ ", was not found.") := by
  unfold buildCdsCurve
  simp [bind, Except.bind, qlRequire, qlFail, h, ht, hr, hhas, hget, Convention.asCds]

theorem buildBenchmarkCurve_not_ok (q : QuantLibEnv) (r : QuantLib.Real)
    (config : DefaultCurveConfig) (asof : Date) (spec : DefaultCurveSpec)
    (yieldCurves : List (String × YieldCurve))
    (h : findCurve yieldCurves config.benchmarkCurveID = none ∨
      findCurve yieldCurves config.sourceCurveID = none) (c : DefaultCurve) :
    buildBenchmarkCurve q r config asof spec yieldCurves ≠ .ok c := by
  unfold buildBenchmarkCurve
  simp only [bind, Except.bind, qlRequire, qlFail]
  rcases h with h | h
  · simp only [h]
    repeat' split
    all_goals simp_all
  · cases hb : findCurve yieldCurves config.benchmarkCurveID with
    | none =>
      simp only
      repeat' split
      all_goals simp_all
    | some b =>
      simp only [h]
      repeat' split
      all_goals simp_all

theorem loadRecoveryRate_of_empty (config : DefaultCurveConfig) (asof : Date) (loader : Loader)
    (hq : config.recoveryRateQuote = "") :
    loadRecoveryRate config asof loader = .ok nullReal := by
  simp [loadRecoveryRate, hq, pure, Except.pure]

theorem loadRecoveryRate_of_datum (config : DefaultCurveConfig) (asof : Date) (loader : Loader)
    (md : MarketDatum) (hq : config.recoveryRateQuote ≠ "")
    (hhas : loader.has config.recoveryRateQuote asof = true)
    (hget : loader.get config.recoveryRateQuote asof = .ok (some md)) :
    loadRecoveryRate config asof loader = .ok md.value := by
  simp [loadRecoveryRate, hq, hhas, hget, qlRequire, bind, Except.bind, pure, Except.pure]

theorem construct_not_ok_of_build (q : QuantLibEnv) (io : Streams) (asof : Date)
    (spec : DefaultCurveSpec) (loader : Loader) (curveConfigs : CurveConfigurations)
    (conventions : Conventions) (yieldCurves : List (String × YieldCurve))
    (config : DefaultCurveConfig)
    (hcfg : curveConfigs.defaultCurveConfig spec.curveConfigID = .ok config)
    (h : ∀ r c, buildRequestedType q io r config asof spec loader conventions yieldCurves ≠ .ok c)
    (c : DefaultCurve) :
    construct q io asof spec loader curveConfigs conventions yieldCurves ≠ .ok c := by
  rw [Ne, construct_ok_iff]
  cases hr : loadRecoveryRate config asof loader with
  | error f =>
    rw [constructBody_of_recovery_error _ _ _ _ _ _ _ _ config f hcfg hr]
    simp
  | ok r =>
    rw [constructBody_of_recovery_ok _ _ _ _ _ _ _ _ config r hcfg hr]
    exact h r c

theorem buildBenchmarkCurve_missing_benchmark (q : QuantLibEnv)
    (config : DefaultCurveConfig) (asof : Date) (spec : DefaultCurveSpec)
    (yieldCurves : List (String × YieldCurve)) (ht : config.type = .Benchmark)
    (h : findCurve yieldCurves config.benchmarkCurveID = none) :
    buildBenchmarkCurve q nullReal config asof spec yieldCurves =
      qlFail ("The benchmark curve, " ++ config.benchmarkCurveID ++
        ", required in the building of the curve, " ++ spec.name ++ ", was not found.") := by
  unfold buildBenchmarkCurve
  simp [bind, Except.bind, qlRequire, qlFail, h, ht]

theorem buildBenchmarkCurve_missing_source (q : QuantLibEnv)
    (config : DefaultCurveConfig) (asof : Date) (spec : DefaultCurveSpec)
    (yieldCurves : List (String × YieldCurve)) (ht : config.type = .Benchmark)
    (hb : findCurve yieldCurves config.benchmarkCurveID ≠ none)
    (h : findCurve yieldCurves config.sourceCurveID = none) :
    buildBenchmarkCurve q nullReal config asof spec yieldCurves =
      qlFail ("The source curve, " ++ config.sourceCurveID ++
        ", required in the building of the curve, " ++ spec.name ++ ", was not found.") := by
  unfold buildBenchmarkCurve
  cases hbm : findCurve yieldCurves config.benchmarkCurveID with
  | none => exact absurd hbm hb
  | some b => simp [bind, Except.bind, qlRequire, qlFail, h, ht]

/-- C10, as the code has it: when the configuration of the curve is found, a
SpreadCDS configuration whose `discountCurveID` is not a key of `yieldCurves`,
and a Benchmark configuration whose `benchmarkCurveID` or `sourceCurveID` is
not, never produce a curve. The failure names the missing curve id and the
curve being built when the checks before the lookup pass: for SpreadCDS a
recovery rate quote is configured and loaded with a value other than
`Null<Real>()` and the convention is a CDS convention; for Benchmark no recovery
rate quote is configured, the benchmark curve is named when it is missing and
the source curve when only it is missing. -/
theorem construct_missing_yield_curve (q : QuantLibEnv) (io : Streams) (asof : Date)
    (spec : DefaultCurveSpec) (loader : Loader) (curveConfigs : CurveConfigurations)
    (conventions : Conventions) (yieldCurves : List (String × YieldCurve))
    (config : DefaultCurveConfig)
    (hcfg : curveConfigs.defaultCurveConfig spec.curveConfigID = .ok config) :
    (config.type = .SpreadCDS → config.discountCurveID ∉ yieldCurves.map Prod.fst →
      (∀ c, construct q io asof spec loader curveConfigs conventions yieldCurves ≠ .ok c) ∧
      (∀ md conv, config.recoveryRateQuote ≠ "" →
        loader.has config.recoveryRateQuote asof = true →
        loader.get config.recoveryRateQuote asof = .ok (some md) → md.value ≠ nullReal →
        conventions.has config.conventionID = true →
        conventions.get config.conventionID = .ok (.cds conv) →
        construct q io asof spec loader curveConfigs conventions yieldCurves =
          qlFail ("default curve building failed for " ++ spec.curveConfigID ++ ": " ++
            ("The discount curve, " ++ config.discountCurveID ++
              ", required in the building of the curve, " ++ spec.name ++ ", was not found.")))) ∧
    (config.type = .Benchmark →
      (config.benchmarkCurveID ∉ yieldCurves.map Prod.fst ∨
          config.sourceCurveID ∉ yieldCurves.map Prod.fst →
        ∀ c, construct q io asof spec loader curveConfigs conventions yieldCurves ≠ .ok c) ∧
      (config.recoveryRateQuote = "" → config.benchmarkCurveID ∉ yieldCurves.map Prod.fst →
        construct q io asof spec loader curveConfigs conventions yieldCurves =
          qlFail ("default curve building failed for " ++ spec.curveConfigID ++ ": " ++
            ("The benchmark curve, " ++ config.benchmarkCurveID ++
              ", required in the building of the curve, " ++ spec.name ++ ", was not found."))) ∧
      (config.recoveryRateQuote = "" → config.benchmarkCurveID ∈ yieldCurves.map Prod.fst →
        config.sourceCurveID ∉ yieldCurves.map Prod.fst →
        construct q io asof spec loader curveConfigs conventions yieldCurves =
          qlFail ("default curve building failed for " ++ spec.curveConfigID ++ ": " ++
            ("The source curve, " ++ config.sourceCurveID ++
              ", required in the building of the curve, " ++ spec.name ++ ", was not found.")))) := by
  have head : ∀ what, "default curve building failed for " ++ spec.curveConfigID ++ ": " ++ what =
      failureHead spec ++ what := fun what => by simp [failureHead]
  refine ⟨fun ht hkey => ⟨?_, ?_⟩, fun ht => ⟨?_, ?_, ?_⟩⟩
  · apply construct_not_ok_of_build _ _ _ _ _ _ _ _ config hcfg
    intro r c
    simp only [buildRequestedType, ht]
    exact buildCdsCurve_not_ok _ _ _ _ _ _ _ _ _ ((findCurve_eq_none_iff _ _).2 hkey) c
  · intro md conv hq hhas hget hval hchas hcget
    rw [head]
    apply construct_of_body_error
    rw [constructBody_of_recovery_ok _ _ _ _ _ _ _ _ config md.value hcfg
      (loadRecoveryRate_of_datum config asof loader md hq hhas hget)]
    simp only [buildRequestedType, ht]
    exact buildCdsCurve_missing_discount _ _ _ _ _ _ _ _ _ conv ht hval hchas hcget
      ((findCurve_eq_none_iff _ _).2 hkey)
  · intro hkey
    apply construct_not_ok_of_build _ _ _ _ _ _ _ _ config hcfg
    intro r c
    simp only [buildRequestedType, ht]
    refine buildBenchmarkCurve_not_ok _ _ _ _ _ _ ?_ c
    rcases hkey with h | h
    · exact Or.inl ((findCurve_eq_none_iff _ _).2 h)
    · exact Or.inr ((findCurve_eq_none_iff _ _).2 h)
  · intro hq hkey
    rw [head]
    apply construct_of_body_error
    rw [constructBody_of_recovery_ok _ _ _ _ _ _ _ _ config nullReal hcfg
      (loadRecoveryRate_of_empty config asof loader hq)]
    simp only [buildRequestedType, ht]
    exact buildBenchmarkCurve_missing_benchmark _ _ _ _ _ ht ((findCurve_eq_none_iff _ _).2 hkey)
  · intro hq hb hkey
    rw [head]
    apply construct_of_body_error
    rw [constructBody_of_recovery_ok _ _ _ _ _ _ _ _ config nullReal hcfg
      (loadRecoveryRate_of_empty config asof loader hq)]
    simp only [buildRequestedType, ht]
    refine buildBenchmarkCurve_missing_source _ _ _ _ _ ht ?_ ((findCurve_eq_none_iff _ _).2 hkey)
    intro hnone
    exact (findCurve_eq_none_iff _ _).1 hnone hb

/-- Witness of C10: the Benchmark configuration `BM1` with no yield curve
supplied fails naming the benchmark curve `USD-LIBOR` and the curve `Default/USD/BM1`. -/
theorem construct_missing_yield_curve_witness :
    construct plainEnv plainStreams 0 ⟨"Default/USD/BM1", "BM1"⟩ (listLoader [])
        (singleConfig benchmarkConfig) cdsConventions [] =
      qlFail ("default curve building failed for " ++ "BM1" ++ ": " ++
        ("The benchmark curve, " ++ benchmarkConfig.benchmarkCurveID ++
          ", required in the building of the curve, " ++ "Default/USD/BM1" ++ ", was not found.")) :=
  ((construct_missing_yield_curve plainEnv plainStreams 0 ⟨"Default/USD/BM1", "BM1"⟩
    (listLoader []) (singleConfig benchmarkConfig) cdsConventions [] benchmarkConfig rfl).2
      rfl).2.1 rfl (by simp)

set_option maxRecDepth 100000 in
/-- Counterexample to C10 as stated: the SpreadCDS configuration `CDS1` refers
to the discount curve `EUR-EONIA`, which is not among the (empty) yield curves,
and configures no recovery rate quote; the build fails with the recovery rate
check, and its reason does not name `EUR-EONIA`. -/
theorem construct_missing_discount_counterexample :
    cdsConfig.type = .SpreadCDS ∧
    cdsConfig.discountCurveID ∉ ([] : List (String × YieldCurve)).map Prod.fst ∧
    (singleConfig cdsConfig).defaultCurveConfig cdsSpec.curveConfigID = .ok cdsConfig ∧
    construct plainEnv plainStreams 0 cdsSpec (listLoader []) (singleConfig cdsConfig)
        cdsConventions [] =
      qlFail ("default curve building failed for CDS1: " ++
        "DefaultCurve: recovery rate needed to build SpreadCDS curve") ∧
    ¬ (cdsConfig.discountCurveID.data <:+:
      ("default curve building failed for CDS1: " ++
        "DefaultCurve: recovery rate needed to build SpreadCDS curve").data) := by
  refine ⟨rfl, by simp, rfl, ?_, by decide⟩
  rfl

end DefaultCurve

/-! ## Properties of `TodaysMarket` -/

namespace TodaysMarket

/-! ### Scheduling and cycles -/

theorem mem_dependencies (g : Graph) (p v : ℕ) : p ∈ g.dependencies v ↔ g.Edge p v := by
  simp only [Graph.dependencies, List.mem_map, List.mem_filter, decide_eq_true_eq, Graph.Edge]
  constructor
  · rintro ⟨e, ⟨he, hv⟩, hp⟩
    have : e = (p, v) := Prod.ext hp hv
    rwa [this] at he
  · intro h
    exact ⟨(p, v), ⟨h, rfl⟩, rfl⟩

theorem length_le_of_nodup_lt (l : List ℕ) (n : ℕ) (hnd : l.Nodup) (hlt : ∀ v ∈ l, v < n) :
    l.length ≤ n := by
  have h := (List.subperm_of_subset hnd (fun x hx => List.mem_range.2 (hlt x hx))).length_le
  simpa using h

theorem mem_of_nodup_length (l : List ℕ) (n : ℕ) (hnd : l.Nodup) (hlt : ∀ v ∈ l, v < n)
    (hlen : l.length = n) (v : ℕ) (hv : v < n) : v ∈ l := by
  have hsub := List.subperm_of_subset hnd (fun x hx => List.mem_range.2 (hlt x hx))
  have hperm := hsub.perm_of_length_le (by simp [hlen])
  exact hperm.mem_iff.2 (List.mem_range.2 hv)

theorem exists_unscheduled (l : List ℕ) (n : ℕ) (hlen : l.length < n) :
    ∃ v, v < n ∧ v ∉ l := by
  by_contra hcon
  push_neg at hcon
  have hsub : List.range n ⊆ l := fun x hx => hcon x (List.mem_range.1 hx)
  have h := (List.subperm_of_subset (List.nodup_range n) hsub).length_le
  simp at h
  omega

theorem pickReady_some (g : Graph) (done : List ℕ) (v : ℕ) (h : pickReady g done = some v) :
    v < g.nodes.length ∧ v ∉ done ∧ ∀ p, g.Edge p v → p ∈ done := by
  unfold pickReady at h
  have hmem := List.mem_of_find?_eq_some h
  have hp := List.find?_some h
  simp only [ready, Bool.and_eq_true, decide_eq_true_eq, List.all_eq_true] at hp
  exact ⟨List.mem_range.1 hmem, hp.1, fun p hpv => hp.2 p ((mem_dependencies g p v).2 hpv)⟩

theorem pickReady_none (g : Graph) (done : List ℕ) (h : pickReady g done = none) (v : ℕ)
    (hv : v < g.nodes.length) (hnot : v ∉ done) : ∃ p, g.Edge p v ∧ p ∉ done := by
  unfold pickReady at h
  have hp := List.find?_eq_none.1 h v (List.mem_range.2 hv)
  simp only [ready, Bool.and_eq_true, decide_eq_true_eq, List.all_eq_true, not_and, not_forall,
    Classical.not_imp] at hp
  obtain ⟨p, hpd, hpn⟩ := hp hnot
  exact ⟨p, (mem_dependencies g p v).1 hpd, hpn⟩

theorem blocker_of_stuck (g : Graph) (done : List ℕ) (v : ℕ)
    (h : ∃ p, g.Edge p v ∧ p ∉ done) :
    ∃ p, blocker g done v = some p ∧ g.Edge p v ∧ p ∉ done := by
  obtain ⟨p0, he, hn⟩ := h
  cases hb : blocker g done v with
  | none =>
    unfold blocker at hb
    have := List.find?_eq_none.1 hb p0 ((mem_dependencies g p0 v).2 he)
    simp [hn] at this
  | some p =>
    unfold blocker at hb
    have hmem := List.mem_of_find?_eq_some hb
    have hp := List.find?_some hb
    simp only [decide_eq_true_eq] at hp
    exact ⟨p, rfl, (mem_dependencies g p v).1 hmem, hp⟩

theorem scheduled_append (g : Graph) (done : List ℕ) (v : ℕ) (hs : g.Scheduled done)
    (hv : v < g.nodes.length) (hnot : v ∉ done) (hdeps : ∀ p, g.Edge p v → p ∈ done) :
    g.Scheduled (done ++ [v]) := by
  obtain ⟨hnd, hlt, hord⟩ := hs
  refine ⟨?_, ?_, ?_⟩
  · exact List.nodup_append_comm.1 (List.nodup_cons.2 ⟨hnot, hnd⟩)
  · intro w hw
    rcases List.mem_append.1 hw with h | h
    · exact hlt w h
    · simp only [List.mem_singleton] at h
      rw [h]
      exact hv
  · intro y hy x hxy
    rcases List.mem_append.1 hy with h | h
    · obtain ⟨hx, hlt'⟩ := hord y h x hxy
      refine ⟨List.mem_append_left _ hx, ?_⟩
      rw [List.indexOf_append_of_mem hx, List.indexOf_append_of_mem h]
      exact hlt'
    · simp only [List.mem_singleton] at h
      subst h
      have hx := hdeps x hxy
      refine ⟨List.mem_append_left _ hx, ?_⟩
      rw [List.indexOf_append_of_mem hx, List.indexOf_append_of_not_mem hnot]
      have := List.indexOf_lt_length.2 hx
      omega

theorem scheduled_nil (g : Graph) : g.Scheduled [] := by
  refine ⟨List.nodup_nil, ?_, ?_⟩
  · intro v h
    cases h
  · intro y h
    cases h

theorem schedule_ok (g : Graph) (hwf : g.WellFormed) :
    ∀ (fuel : ℕ) (done order : List ℕ), g.Scheduled done →
      done.length + fuel = g.nodes.length → schedule g fuel done = .ok order →
      g.IsTopological order := by
  intro fuel
  induction fuel with
  | zero =>
    intro done order hs hlen h
    simp only [schedule, Except.ok.injEq] at h
    subst h
    obtain ⟨hnd, hlt, hord⟩ := hs
    have hall : ∀ v, v < g.nodes.length → v ∈ done :=
      mem_of_nodup_length done _ hnd hlt (by omega)
    refine ⟨hnd, fun v => ⟨hlt v, hall v⟩, ?_⟩
    intro x y hxy
    exact (hord y (hall y (hwf _ hxy).2) x hxy).2
  | succ fuel ih =>
    intro done order hs hlen h
    unfold schedule at h
    cases hp : pickReady g done with
    | none => simp [hp] at h
    | some v =>
      simp only [hp] at h
      obtain ⟨hv, hnot, hdeps⟩ := pickReady_some g done v hp
      exact ih (done ++ [v]) order (scheduled_append g done v hs hv hnot hdeps)
        (by simp; omega) h

theorem takeWhile_ne_split (p : ℕ) :
    ∀ l : List ℕ, p ∈ l → ∃ rest, l = l.takeWhile (fun u => decide (u ≠ p)) ++ p :: rest := by
  intro l
  induction l with
  | nil => intro h; cases h
  | cons a l ih =>
    intro h
    by_cases hap : a = p
    · subst hap
      exact ⟨l, by simp⟩
    · have hmem : p ∈ l := by
        rcases List.mem_cons.1 h with h | h
        · exact absurd h.symm hap
        · exact h
      obtain ⟨rest, hrest⟩ := ih hmem
      refine ⟨rest, ?_⟩
      have : List.takeWhile (fun u => decide (u ≠ p)) (a :: l) =
          a :: List.takeWhile (fun u => decide (u ≠ p)) l := by
        simp [List.takeWhile, hap]
      rw [this, List.cons_append, ← hrest]

theorem walkBack_cycle (g : Graph) (done : List ℕ) (hwf : g.WellFormed)
    (stuck : ∀ v, v < g.nodes.length → v ∉ done → ∃ p, g.Edge p v ∧ p ∉ done) :
    ∀ (fuel : ℕ) (path : List ℕ), path ≠ [] → path.Nodup →
      (∀ v ∈ path, v < g.nodes.length ∧ v ∉ done) → List.Chain' g.Edge path →
      path.length + fuel = g.nodes.length + 1 → g.IsCycle (walkBack g done fuel path) := by
  intro fuel
  induction fuel with
  | zero =>
    intro path _ hnd hin _ hlen
    have := length_le_of_nodup_lt path _ hnd (fun v hv => (hin v hv).1)
    omega
  | succ fuel ih =>
    intro path hne hnd hin hch hlen
    cases path with
    | nil => exact absurd rfl hne
    | cons v rest =>
      obtain ⟨hv, hvd⟩ := hin v (List.mem_cons_self _ _)
      obtain ⟨p, hb, hpe, hpd⟩ := blocker_of_stuck g done v (stuck v hv hvd)
      have hp : p < g.nodes.length := (hwf _ hpe).1
      unfold walkBack
      simp only [hb]
      by_cases hmem : p ∈ v :: rest
      · rw [if_pos hmem]
        obtain ⟨tl, htl⟩ := takeWhile_ne_split p (v :: rest) hmem
        have hpre : List.takeWhile (fun u => decide (u ≠ p)) (v :: rest) ++ [p] <+: v :: rest := by
          refine ⟨tl, ?_⟩
          rw [List.append_assoc, List.singleton_append]
          exact htl.symm
        refine ⟨by simp, hnd.sublist hpre.sublist, hch.prefix hpre, ?_⟩
        intro a b ha hlast
        have hb' : b = p := by
          rw [List.getLast?_append] at hlast
          simpa using hlast.symm
        have ha' : a = v := by
          cases htw : List.takeWhile (fun u => decide (u ≠ p)) (v :: rest) with
          | nil =>
            rw [htw] at ha htl
            simp only [List.nil_append, List.head?_cons, Option.some.injEq] at ha
            simp only [List.nil_append, List.cons.injEq] at htl
            rw [← ha, htl.1]
          | cons x xs =>
            rw [htw] at ha htl
            simp only [List.cons_append, List.head?_cons, Option.some.injEq] at ha
            simp only [List.cons_append, List.cons.injEq] at htl
            rw [← ha, htl.1]
        rw [ha', hb']
        exact hpe
      · rw [if_neg hmem]
        apply ih (p :: v :: rest) (by simp) (List.nodup_cons.2 ⟨hmem, hnd⟩)
        · intro w hw
          rcases List.mem_cons.1 hw with h | h
          · rw [h]
            exact ⟨hp, hpd⟩
          · exact hin w h
        · exact List.chain'_cons.2 ⟨hpe, hch⟩
        · simp only [List.length_cons] at hlen ⊢
          omega

theorem findCycle_cycle (g : Graph) (done : List ℕ) (hwf : g.WellFormed)
    (stuck : ∀ v, v < g.nodes.length → v ∉ done → ∃ p, g.Edge p v ∧ p ∉ done)
    (hrem : ∃ v, v < g.nodes.length ∧ v ∉ done) : g.IsCycle (findCycle g done) := by
  unfold findCycle
  cases hf : (List.range g.nodes.length).find? fun v => decide (v ∉ done) with
  | none =>
    obtain ⟨v, hv, hvd⟩ := hrem
    have := List.find?_eq_none.1 hf v (List.mem_range.2 hv)
    simp [hvd] at this
  | some v =>
    have hmem := List.mem_range.1 (List.mem_of_find?_eq_some hf)
    have hp := List.find?_some hf
    simp only [decide_eq_true_eq] at hp
    apply walkBack_cycle g done hwf stuck _ [v] (by simp) (List.nodup_singleton v)
    · intro w hw
      simp only [List.mem_singleton] at hw
      rw [hw]
      exact ⟨hmem, hp⟩
    · exact List.chain'_singleton v
    · simp
      omega

theorem schedule_error (g : Graph) (hwf : g.WellFormed) :
    ∀ (fuel : ℕ) (done c : List ℕ), g.Scheduled done →
      done.length + fuel = g.nodes.length → schedule g fuel done = .error c → g.IsCycle c := by
  intro fuel
  induction fuel with
  | zero =>
    intro done c _ _ h
    simp [schedule] at h
  | succ fuel ih =>
    intro done c hs hlen h
    unfold schedule at h
    cases hp : pickReady g done with
    | none =>
      simp only [hp, Except.error.injEq] at h
      subst h
      exact findCycle_cycle g done hwf (pickReady_none g done hp)
        (exists_unscheduled done _ (by omega))
    | some v =>
      simp only [hp] at h
      obtain ⟨hv, hnot, hdeps⟩ := pickReady_some g done v hp
      exact ih (done ++ [v]) c (scheduled_append g done v hs hv hnot hdeps) (by simp; omega) h

theorem cycle_of_error (g : Graph) (hwf : g.WellFormed) (c : List ℕ)
    (h : topologicalOrder g = .error c) : g.IsCycle c :=
  schedule_error g hwf _ [] c (scheduled_nil g) (by simp) h

theorem topological_of_ok (g : Graph) (hwf : g.WellFormed) (order : List ℕ)
    (h : topologicalOrder g = .ok order) : g.IsTopological order :=
  schedule_ok g hwf _ [] order (scheduled_nil g) (by simp) h

theorem indexOf_lt_of_transGen (g : Graph) (order : List ℕ) (ht : g.IsTopological order)
    (x y : ℕ) (h : Relation.TransGen g.Edge x y) : order.indexOf x < order.indexOf y := by
  induction h with
  | single hxy => exact ht.2.2 _ _ hxy
  | tail _ hbc ih => exact lt_trans ih (ht.2.2 _ _ hbc)

theorem acyclic_of_topological (g : Graph) (order : List ℕ) (ht : g.IsTopological order) :
    g.Acyclic := fun v h => lt_irrefl _ (indexOf_lt_of_transGen g order ht v v h)

theorem reflTransGen_of_chain (g : Graph) :
    ∀ (l : List ℕ) (a b : ℕ), List.Chain g.Edge a l → (a :: l).getLast? = some b →
      Relation.ReflTransGen g.Edge a b := by
  intro l
  induction l with
  | nil =>
    intro a b _ hb
    simp at hb
    subst hb
    exact Relation.ReflTransGen.refl
  | cons c l ih =>
    intro a b hch hb
    rw [List.chain_cons] at hch
    have hb' : (c :: l).getLast? = some b := by
      rw [List.getLast?_cons_cons] at hb
      exact hb
    exact Relation.ReflTransGen.head hch.1 (ih c b hch.2 hb')

theorem not_acyclic_of_cycle (g : Graph) (c : List ℕ) (hc : g.IsCycle c) : ¬ g.Acyclic := by
  obtain ⟨hne, _, hch, hclose⟩ := hc
  intro hacyc
  cases c with
  | nil => exact hne rfl
  | cons a l =>
    obtain ⟨b, hb⟩ : ∃ b, (a :: l).getLast? = some b := by
      cases h : (a :: l).getLast? with
      | none => simp at h
      | some b => exact ⟨b, rfl⟩
    have h1 := reflTransGen_of_chain g l a b hch hb
    have h2 : g.Edge b a := hclose a b rfl hb
    exact hacyc a (Relation.TransGen.trans_right h1 (Relation.TransGen.single h2))

theorem topologicalOrder_ok_iff (g : Graph) (hwf : g.WellFormed) :
    (∃ order, topologicalOrder g = .ok order) ↔ g.Acyclic := by
  constructor
  · rintro ⟨order, h⟩
    exact acyclic_of_topological g order (topological_of_ok g hwf order h)
  · intro hacyc
    cases h : topologicalOrder g with
    | ok order => exact ⟨order, rfl⟩
    | error c => exact absurd hacyc (not_acyclic_of_cycle g c (cycle_of_error g hwf c h))

/-! ### Graph construction -/

theorem findNode_lt (nodes : List Node) (obj : MarketObject) (name : String) (j : ℕ)
    (h : findNode nodes obj name = some j) : j < nodes.length := by
  unfold findNode at h
  simp only at h
  split at h
  · simp only [Option.some.injEq] at h
    omega
  · cases h

theorem resolveReferences_fresh (fallback : List Declaration) (i : ℕ) :
    ∀ (refs : List (MarketObject × String)) (g : Graph), g.Fresh → i < g.nodes.length →
      (resolveReferences fallback i refs g).Fresh ∧
        g.nodes.length ≤ (resolveReferences fallback i refs g).nodes.length := by
  intro refs
  induction refs with
  | nil =>
    intro g hg _
    exact ⟨hg, le_refl _⟩
  | cons r rest ih =>
    intro g hg hi
    unfold resolveReferences
    cases hf : findNode g.nodes r.1 r.2 with
    | some j =>
      simp only
      have hj := findNode_lt _ _ _ _ hf
      apply ih
      · refine ⟨?_, hg.2⟩
        intro e he
        rcases List.mem_append.1 he with h | h
        · exact hg.1 e h
        · simp only [List.mem_singleton] at h
          subst h
          exact ⟨hj, hi⟩
      · exact hi
    | none =>
      simp only
      cases hd : findDeclaration fallback r.1 r.2 with
      | some d =>
        simp only
        have key := ih { nodes := g.nodes ++ [seed d], edges := g.edges ++ [(g.nodes.length, i)] }
          (by
            refine ⟨?_, ?_⟩
            · intro e he
              simp only [List.length_append, List.length_singleton]
              rcases List.mem_append.1 he with h | h
              · have := hg.1 e h
                omega
              · simp only [List.mem_singleton] at h
                subst h
                simp only
                omega
            · intro node hn
              rcases List.mem_append.1 hn with h | h
              · exact hg.2 node h
              · simp only [List.mem_singleton] at h
                subst h
                rfl)
          (by simp only [List.length_append, List.length_singleton]; omega)
        refine ⟨key.1, ?_⟩
        have := key.2
        simp only [List.length_append, List.length_singleton] at this
        omega
      | none =>
        simp only
        exact ih g hg hi

theorem resolveNode_fresh (registry : Registry) (fallback : List Declaration) (g g' : Graph)
    (i : ℕ) (hg : g.Fresh) (h : resolveNode registry fallback g i = .ok g') :
    g'.Fresh ∧ g.nodes.length ≤ g'.nodes.length := by
  unfold resolveNode at h
  cases hn : g.nodes[i]? with
  | none =>
    simp only [hn, Except.ok.injEq] at h
    subst h
    exact ⟨hg, le_refl _⟩
  | some node =>
    simp only [hn] at h
    have hi : i < g.nodes.length := (List.getElem?_eq_some_iff.1 hn).1
    have hmem : node ∈ g.nodes := List.getElem?_mem hn
    cases hr : registry node.obj node.mapping with
    | error message => simp [hr] at h
    | ok spec =>
      cases spec with
      | none =>
        simp only [hr, Except.ok.injEq] at h
        subst h
        exact ⟨hg, le_refl _⟩
      | some spec =>
        simp only [hr, Except.ok.injEq] at h
        subst h
        have key := resolveReferences_fresh fallback i spec.references
          { g with nodes := g.nodes.set i { node with curveSpec := some spec } }
          (by
            refine ⟨?_, ?_⟩
            · intro e he
              simp only [List.length_set]
              exact hg.1 e he
            · intro n hn'
              rcases List.mem_or_eq_of_mem_set hn' with h | h
              · exact hg.2 n h
              · rw [h]
                exact hg.2 node hmem)
          (by simpa using hi)
        refine ⟨key.1, ?_⟩
        have := key.2
        simpa using this

theorem resolveFrom_fresh (registry : Registry) (fallback : List Declaration) :
    ∀ (fuel i : ℕ) (g g' : Graph), g.Fresh →
      resolveFrom registry fallback fuel i g = .ok g' → g'.Fresh := by
  intro fuel
  induction fuel with
  | zero =>
    intro i g g' hg h
    simp only [resolveFrom, Except.ok.injEq] at h
    subst h
    exact hg
  | succ fuel ih =>
    intro i g g' hg h
    unfold resolveFrom at h
    split at h
    · cases hr : resolveNode registry fallback g i with
      | error e => simp [hr] at h
      | ok g1 =>
        simp only [hr] at h
        exact ih (i + 1) g1 g' (resolveNode_fresh registry fallback g g1 i hg hr).1 h
    · simp only [Except.ok.injEq] at h
      subst h
      exact hg

theorem findNode_isSome_iff (nodes : List Node) (obj : MarketObject) (name : String) :
    (findNode nodes obj name).isSome = true ↔ (obj, name) ∈ identities nodes := by
  unfold findNode identities
  simp only
  split
  · rename_i h
    rw [List.findIdx_lt_length] at h
    obtain ⟨x, hx, hp⟩ := h
    simp only [decide_eq_true_eq] at hp
    simp only [Option.isSome_some, List.mem_map, Prod.mk.injEq, true_iff]
    exact ⟨x, hx, hp.1, hp.2⟩
  · rename_i h
    rw [List.findIdx_lt_length] at h
    simp only [Option.isSome_none, Bool.false_eq_true, List.mem_map, Prod.mk.injEq, false_iff]
    rintro ⟨x, hx, h1, h2⟩
    exact h ⟨x, hx, by simp [h1, h2]⟩

theorem findNode_eq_none_iff (nodes : List Node) (obj : MarketObject) (name : String) :
    findNode nodes obj name = none ↔ (obj, name) ∉ identities nodes := by
  rw [← findNode_isSome_iff]
  cases findNode nodes obj name <;> simp

theorem identities_set (nodes : List Node) (i : ℕ) (node : Node) (spec : CurveSpec)
    (h : nodes[i]? = some node) :
    identities (nodes.set i { node with curveSpec := some spec }) = identities nodes := by
  unfold identities
  apply List.ext_getElem?
  intro j
  simp only [List.getElem?_map]
  by_cases hij : i = j
  · subst hij
    have hi : i < nodes.length := (List.getElem?_eq_some_iff.1 h).1
    simp [List.getElem?_set_self hi, h]
  · simp [List.getElem?_set_ne hij]

theorem filter_length_le {α : Type} (p q : α → Bool) (hpq : ∀ a, p a = true → q a = true) :
    ∀ l : List α, (l.filter p).length ≤ (l.filter q).length := by
  intro l
  induction l with
  | nil => simp
  | cons a l ih =>
    simp only [List.filter_cons]
    cases hp : p a with
    | true =>
      rw [hpq a hp]
      simp only [if_true, List.length_cons]
      omega
    | false =>
      simp only [Bool.false_eq_true, if_false]
      split
      · simp only [List.length_cons]
        omega
      · exact ih

theorem filter_length_lt {α : Type} (p q : α → Bool) (hpq : ∀ a, p a = true → q a = true)
    (a0 : α) (hq : q a0 = true) (hp : p a0 = false) :
    ∀ l : List α, a0 ∈ l → (l.filter p).length < (l.filter q).length := by
  intro l
  induction l with
  | nil => intro h; cases h
  | cons a l ih =>
    intro hmem
    have hle := filter_length_le p q hpq l
    simp only [List.filter_cons]
    rcases List.mem_cons.1 hmem with h | h
    · subst h
      rw [hq, hp]
      simp only [if_true, Bool.false_eq_true, if_false, List.length_cons]
      omega
    · have := ih h
      cases hpa : p a with
      | true =>
        rw [hpq a hpa]
        simp only [if_true, List.length_cons]
        omega
      | false =>
        simp only [Bool.false_eq_true, if_false]
        split
        · simp only [List.length_cons]
          omega
        · exact this

theorem available_le (fallback : List Declaration) (nodes : List Node) :
    available fallback nodes ≤ fallback.length :=
  List.length_filter_le _ _

theorem resolveReferences_measure (fallback : List Declaration) (i : ℕ) :
    ∀ (refs : List (MarketObject × String)) (g : Graph),
      (resolveReferences fallback i refs g).nodes.length +
          available fallback (resolveReferences fallback i refs g).nodes ≤
        g.nodes.length + available fallback g.nodes := by
  intro refs
  induction refs with
  | nil =>
    intro g
    exact le_refl _
  | cons r rest ih =>
    intro g
    unfold resolveReferences
    cases hf : findNode g.nodes r.1 r.2 with
    | some j => exact ih _
    | none =>
      simp only
      cases hd : findDeclaration fallback r.1 r.2 with
      | none => exact ih g
      | some d =>
        simp only
        refine le_trans (ih _) ?_
        have hmem : d ∈ fallback := List.mem_of_find?_eq_some hd
        have hpd := List.find?_some hd
        simp only [decide_eq_true_eq] at hpd
        have hnot : (d.obj, d.name) ∉ identities g.nodes := by
          rw [hpd.1, hpd.2]
          exact (findNode_eq_none_iff _ _ _).1 hf
        have hlt : available fallback (g.nodes ++ [seed d]) < available fallback g.nodes := by
          unfold available
          apply filter_length_lt _ _ _ d _ _ fallback hmem
          · intro a ha
            simp only [decide_eq_true_eq, identities, List.map_append, List.mem_append,
              not_or] at ha ⊢
            exact ha.1
          · simpa using hnot
          · simp [identities, seed]
        simp only [List.length_append, List.length_singleton]
        omega

theorem resolveNode_measure (registry : Registry) (fallback : List Declaration) (g g' : Graph)
    (i : ℕ) (h : resolveNode registry fallback g i = .ok g') :
    g'.nodes.length + available fallback g'.nodes ≤
      g.nodes.length + available fallback g.nodes := by
  unfold resolveNode at h
  cases hn : g.nodes[i]? with
  | none =>
    simp only [hn, Except.ok.injEq] at h
    subst h
    exact le_refl _
  | some node =>
    simp only [hn] at h
    cases hr : registry node.obj node.mapping with
    | error message => simp [hr] at h
    | ok spec =>
      cases spec with
      | none =>
        simp only [hr, Except.ok.injEq] at h
        subst h
        exact le_refl _
      | some spec =>
        simp only [hr, Except.ok.injEq] at h
        subst h
        refine le_trans (resolveReferences_measure fallback i spec.references _) ?_
        simp only [List.length_set, available, identities_set g.nodes i node spec hn]
        exact le_refl _

theorem resolveReferences_length (fallback : List Declaration) (i : ℕ) :
    ∀ (refs : List (MarketObject × String)) (g : Graph),
      g.nodes.length ≤ (resolveReferences fallback i refs g).nodes.length := by
  intro refs
  induction refs with
  | nil =>
    intro g
    exact le_refl _
  | cons r rest ih =>
    intro g
    unfold resolveReferences
    cases hf : findNode g.nodes r.1 r.2 with
    | some j =>
      simp only
      exact ih { g with edges := g.edges ++ [(j, i)] }
    | none =>
      simp only
      cases hd : findDeclaration fallback r.1 r.2 with
      | none => exact ih g
      | some d =>
        simp only
        refine le_trans ?_ (ih _)
        simp

theorem resolveNode_length (registry : Registry) (fallback : List Declaration) (g g' : Graph)
    (i : ℕ) (h : resolveNode registry fallback g i = .ok g') :
    g.nodes.length ≤ g'.nodes.length := by
  unfold resolveNode at h
  cases hn : g.nodes[i]? with
  | none =>
    simp only [hn, Except.ok.injEq] at h
    subst h
    exact le_refl _
  | some node =>
    simp only [hn] at h
    cases hr : registry node.obj node.mapping with
    | error message => simp [hr] at h
    | ok spec =>
      cases spec with
      | none =>
        simp only [hr, Except.ok.injEq] at h
        subst h
        exact le_refl _
      | some spec =>
        simp only [hr, Except.ok.injEq] at h
        subst h
        refine le_trans ?_ (resolveReferences_length fallback i spec.references _)
        simp

theorem resolveFrom_fuel (registry : Registry) (fallback : List Declaration) :
    ∀ (fuel i : ℕ) (g : Graph) (k : ℕ),
      (g.nodes.length - i) + available fallback g.nodes ≤ fuel →
      resolveFrom registry fallback (fuel + k) i g = resolveFrom registry fallback fuel i g := by
  intro fuel
  induction fuel with
  | zero =>
    intro i g k hm
    have hi : ¬ i < g.nodes.length := by omega
    cases k with
    | zero => rfl
    | succ k =>
      rw [Nat.zero_add]
      simp [resolveFrom, hi]
  | succ fuel ih =>
    intro i g k hm
    have hk : fuel + 1 + k = (fuel + k) + 1 := by omega
    rw [hk]
    conv_lhs => unfold resolveFrom
    conv_rhs => unfold resolveFrom
    by_cases hi : i < g.nodes.length
    · simp only [hi, if_true]
      cases hr : resolveNode registry fallback g i with
      | error e => rfl
      | ok g' =>
        simp only
        have hmeas := resolveNode_measure registry fallback g g' i hr
        have hlen := resolveNode_length registry fallback g g' i hr
        exact ih (i + 1) g' k (by omega)
    · simp only [hi, if_false]

/-- The fuel of `assemble` suffices: with more fuel the loop of §4.2 yields the
same graph, so every node has been visited. -/
theorem assemble_fuel (registry : Registry) (source : ConfigurationSource)
    (configuration : String) (k : ℕ) :
    resolveFrom registry source.fallback
        ((source.declared configuration).length + source.fallback.length + k) 0
        { nodes := (source.declared configuration).map seed, edges := [] } =
      assemble registry source configuration := by
  unfold assemble
  apply resolveFrom_fuel
  have := available_le source.fallback ((source.declared configuration).map seed)
  simp only [List.length_map, Nat.sub_zero]
  omega

theorem seeded_fresh (declared : List Declaration) :
    Graph.Fresh { nodes := declared.map seed, edges := [] } := by
  refine ⟨?_, ?_⟩
  · intro e he
    cases he
  · intro node hn
    simp only [List.mem_map] at hn
    obtain ⟨d, _, hd⟩ := hn
    rw [← hd]
    rfl

theorem assemble_fresh (registry : Registry) (source : ConfigurationSource)
    (configuration : String) (g : Graph) (h : assemble registry source configuration = .ok g) :
    g.Fresh :=
  resolveFrom_fresh registry source.fallback _ 0 _ g (seeded_fresh _) h

theorem buildDependencyGraph_fresh (registry : Registry) (source : ConfigurationSource)
    (configuration : String) : (buildDependencyGraph registry source configuration).1.Fresh := by
  unfold buildDependencyGraph
  cases ha : assemble registry source configuration with
  | error e => exact seeded_fresh _
  | ok g =>
    simp only
    have := assemble_fresh registry source configuration g ha
    cases topologicalOrder g <;> exact this

/-! ### One node of the pass -/

theorem reason_fail (st : State) (v w : ℕ) (r : String) :
    (st.fail v r).reason w =
      if (st.reason w).isSome then st.reason w else if v = w then some r else none := by
  simp only [State.reason, State.fail, List.find?_append]
  cases hf : st.buildErrors.find? (fun e => decide (e.1 = w)) with
  | some e => simp
  | none =>
    by_cases hvw : v = w <;> simp [hvw]

theorem isBuilt_fail (st : State) (v w : ℕ) (r : String) :
    (st.fail v r).isBuilt w = st.isBuilt w := rfl

theorem status_eq_pending_iff (st : State) (v : ℕ) :
    st.status v = .Pending ↔ st.isBuilt v = false ∧ st.reason v = none := by
  unfold State.status
  cases hb : st.isBuilt v <;> cases hr : st.reason v <;> simp

theorem status_eq_built_iff (st : State) (v : ℕ) :
    st.status v = .Built ↔ st.isBuilt v = true := by
  unfold State.status
  cases hb : st.isBuilt v <;> cases hr : st.reason v <;> simp

theorem status_eq_failed_iff (st : State) (v : ℕ) :
    st.status v = .Failed ↔ st.isBuilt v = false ∧ ∃ r, st.reason v = some r := by
  unfold State.status
  cases hb : st.isBuilt v <;> cases hr : st.reason v <;> simp

theorem processNode_treated (builder : Builder) (continueOnError : Bool)
    (configuration : String) (st : State) (v : ℕ) :
    ∃ failed, Treated builder configuration st v
        (processNode builder continueOnError configuration st v).1 failed ∧
      (processNode builder continueOnError configuration st v).2 =
        if failed && !continueOnError then some v else none := by
  unfold processNode
  cases hs : st.status v with
  | Built => exact ⟨false, Treated.skipped (Or.inl hs), by simp⟩
  | Failed =>
    refine ⟨true, Treated.wasFailed hs, ?_⟩
    cases continueOnError <;> simp
  | Pending =>
    simp only
    cases hn : st.graph.nodes[v]? with
    | none => exact ⟨false, Treated.skipped (Or.inr ⟨hs, hn⟩), by simp⟩
    | some node =>
      simp only
      by_cases hf : failedDependencies st v ≠ []
      · rw [if_pos hf]
        refine ⟨true, Treated.upstream node hs hn hf, ?_⟩
        cases continueOnError <;> simp
      · rw [if_neg hf]
        have hf' : failedDependencies st v = [] := by simpa using hf
        by_cases hc : (st.cache.lookup configuration node).isSome = true
        · rw [if_pos hc]
          exact ⟨false, Treated.cached node hs hn hf' hc, by simp⟩
        · rw [if_neg hc]
          have hc' : st.cache.lookup configuration node = none := by simpa using hc
          by_cases hu : unresolvedReferences st.graph v ≠ []
          · rw [if_pos hu]
            refine ⟨true, Treated.unresolved node hs hn hf' hc' hu, ?_⟩
            cases continueOnError <;> simp
          · rw [if_neg hu]
            have hu' : unresolvedReferences st.graph v = [] := by simpa using hu
            unfold buildNode
            cases hb : builder configuration node st.cache with
            | ok o => exact ⟨false, Treated.built node o hs hn hf' hc' hu' hb, by simp⟩
            | error reason =>
              refine ⟨true, Treated.buildFailed node reason hs hn hf' hc' hu' hb, ?_⟩
              cases continueOnError <;> simp

theorem changes_refl (S : ℕ → Prop) (st : State) : Changes S st st :=
  ⟨rfl, rfl, fun _ => rfl, fun _ _ => ⟨rfl, rfl, Iff.rfl⟩, fun _ h => h, fun _ _ h => h,
    fun _ _ => rfl, fun _ h => h⟩

theorem changes_trans (S : ℕ → Prop) (st st1 st2 : State) (h1 : Changes S st st1)
    (h2 : Changes S st1 st2) : Changes S st st2 := by
  obtain ⟨a1, b1, c1, d1, e1, f1, g1, i1⟩ := h1
  obtain ⟨a2, b2, c2, d2, e2, f2, g2, i2⟩ := h2
  refine ⟨a2.trans a1, b2.trans b1, fun w => (c2 w).trans (c1 w), ?_, fun w h => e2 w (e1 w h),
    fun w r h => f2 w r (f1 w r h), ?_, fun w h => i2 w (i1 w h)⟩
  · intro w hw
    obtain ⟨x1, y1, z1⟩ := d1 w hw
    obtain ⟨x2, y2, z2⟩ := d2 w hw
    exact ⟨x2.trans x1, y2.trans y1, z2.trans z1⟩
  · intro w hw
    have h := g1 w hw
    rw [g2 w (by rw [h]; exact hw), h]

theorem changes_mono (S T : ℕ → Prop) (st st' : State) (hST : ∀ w, S w → T w)
    (h : Changes S st st') : Changes T st st' := by
  obtain ⟨a, b, c, d, e, f, g, i⟩ := h
  exact ⟨a, b, c, fun w hw => d w (fun hs => hw (hST w hs)), e, f, g, i⟩

theorem status_congr (st st' : State) (w : ℕ) (hb : st'.isBuilt w = st.isBuilt w)
    (hr : st'.reason w = st.reason w) : st'.status w = st.status w := by
  unfold State.status
  rw [hb, hr]

theorem changes_fail (st : State) (v : ℕ) (r : String) (extra : List ℕ)
    (hs : st.status v = .Pending) (hextra : ∀ w ∈ extra, w = v) :
    Changes (fun w => w = v) st { st.fail v r with invoked := st.invoked ++ extra } := by
  have hreason : ∀ w, w ≠ v →
      State.reason { st.fail v r with invoked := st.invoked ++ extra } w = st.reason w := by
    intro w hw
    have h := reason_fail st v w r
    have hvw : ¬ v = w := fun h => hw h.symm
    simp only [hvw, if_false] at h
    show (st.fail v r).reason w = st.reason w
    rw [h]
    cases st.reason w <;> simp
  refine ⟨rfl, rfl, fun _ => rfl, ?_, fun _ h => h, ?_, ?_, ?_⟩
  · intro w hw
    refine ⟨rfl, hreason w hw, ?_⟩
    simp only [List.mem_append]
    constructor
    · rintro (h | h)
      · exact h
      · exact absurd (hextra w h) hw
    · exact fun h => Or.inl h
  · intro w r' h
    show (st.fail v r).reason w = some r'
    rw [reason_fail, h]
    simp
  · intro w hw
    have hne : w ≠ v := fun h => hw (h ▸ hs)
    exact status_congr _ _ w rfl (hreason w hne)
  · intro w hw
    exact List.mem_append_left _ hw

theorem changes_built (st : State) (v : ℕ) (node : Node) (cache : ObjectCache)
    (extra : List ℕ) (hs : st.status v = .Pending) (hn : st.graph.nodes[v]? = some node)
    (hextra : ∀ w ∈ extra, w = v) :
    Changes (fun w => w = v) st
      { st with
        graph := { st.graph with nodes := st.graph.nodes.set v { node with built := true } }
        cache := cache
        invoked := st.invoked ++ extra } := by
  have hv : v < st.graph.nodes.length := (List.getElem?_eq_some_iff.1 hn).1
  refine ⟨rfl, by simp, ?_, ?_, ?_, fun _ _ h => h, ?_, ?_⟩
  · intro w
    by_cases hw : v = w
    · subst hw
      simp [hn, hv, Node.declaration]
    · simp [List.getElem?_set_ne hw]
  · intro w hw
    have hvw : v ≠ w := fun h => hw h.symm
    refine ⟨by simp [List.getElem?_set_ne hvw], rfl, ?_⟩
    simp only [List.mem_append]
    constructor
    · rintro (h | h)
      · exact h
      · exact absurd (hextra w h) hw
    · exact fun h => Or.inl h
  · intro w hw
    by_cases hvw : v = w
    · subst hvw
      simp [State.isBuilt, hv]
    · simpa [State.isBuilt, List.getElem?_set_ne hvw] using hw
  · intro w hw
    have hne : v ≠ w := fun h => hw (h ▸ hs)
    apply status_congr
    · simp [State.isBuilt, List.getElem?_set_ne hne]
    · rfl
  · intro w hw
    exact List.mem_append_left _ hw

theorem treated_changes (builder : Builder) (configuration : String) (st st' : State) (v : ℕ)
    (failed : Bool) (h : Treated builder configuration st v st' failed) :
    Changes (fun w => w = v) st st' := by
  cases h with
  | skipped _ => exact changes_refl _ _
  | wasFailed _ => exact changes_refl _ _
  | upstream node hs hn hf =>
    have := changes_fail st v (upstreamReason st (failedDependencies st v)) [] hs
      (fun w hw => by cases hw)
    simpa using this
  | cached node hs hn hf hc =>
    have := changes_built st v node st.cache [] hs hn (fun w hw => by cases hw)
    simpa using this
  | unresolved node hs hn hf hc hu =>
    have := changes_fail st v (unresolvedReason (unresolvedReferences st.graph v)) [] hs
      (fun w hw => by cases hw)
    simpa using this
  | built node o hs hn hf hc hu hb =>
    exact changes_built st v node _ [v] hs hn (fun w hw => by simpa using hw)
  | buildFailed node reason hs hn hf hc hu hb =>
    exact changes_fail st v reason [v] hs (fun w hw => by simpa using hw)

theorem processNode_changes (builder : Builder) (continueOnError : Bool)
    (configuration : String) (st : State) (v : ℕ) :
    Changes (fun w => w = v) st (processNode builder continueOnError configuration st v).1 := by
  obtain ⟨failed, ht, _⟩ := processNode_treated builder continueOnError configuration st v
  exact treated_changes builder configuration st _ v failed ht

theorem runPass_changes (builder : Builder) (continueOnError : Bool) (configuration : String) :
    ∀ (order : List ℕ) (st : State),
      Changes (fun w => w ∈ order) st
        (runPass builder continueOnError configuration order st).1 := by
  intro order
  induction order with
  | nil => intro st; exact changes_refl _ _
  | cons v rest ih =>
    intro st
    have h1 := changes_mono _ (fun w => w ∈ v :: rest) _ _
      (fun w hw => by rw [hw]; exact List.mem_cons_self _ _)
      (processNode_changes builder continueOnError configuration st v)
    unfold runPass
    cases hp : processNode builder continueOnError configuration st v with
    | mk st1 res =>
      rw [hp] at h1
      cases res with
      | some f => exact h1
      | none =>
        simp only
        exact changes_trans _ _ _ _ h1
          (changes_mono _ _ _ _ (fun w hw => List.mem_cons_of_mem _ hw) (ih st1))

theorem treated_failed (builder : Builder) (configuration : String) (st st' : State) (v : ℕ)
    (h : Treated builder configuration st v st' true) :
    st'.status v = .Failed ∧ st'.cache = st.cache ∧ st'.graph = st.graph := by
  have key : ∀ (r : String) (extra : List ℕ), st.status v = .Pending →
      State.status { st.fail v r with invoked := st.invoked ++ extra } v = .Failed := by
    intro r extra hs
    obtain ⟨hb, hr⟩ := (status_eq_pending_iff st v).1 hs
    rw [status_eq_failed_iff]
    refine ⟨hb, r, ?_⟩
    show (st.fail v r).reason v = some r
    rw [reason_fail, hr]
    simp
  cases h with
  | wasFailed hs => exact ⟨hs, rfl, rfl⟩
  | upstream node hs hn hf =>
    exact ⟨by simpa using key _ [] hs, rfl, rfl⟩
  | unresolved node hs hn hf hc hu =>
    exact ⟨by simpa using key _ [] hs, rfl, rfl⟩
  | buildFailed node reason hs hn hf hc hu hb => exact ⟨key _ [v] hs, rfl, rfl⟩

theorem treated_done (builder : Builder) (configuration : String) (st st' : State) (v : ℕ)
    (h : Treated builder configuration st v st' false) (hv : v < st.graph.nodes.length) :
    st'.status v = .Built := by
  cases h with
  | skipped hs =>
    rcases hs with hs | ⟨_, hn⟩
    · exact hs
    · rw [List.getElem?_eq_none_iff] at hn
      omega
  | cached node hs hn hf hc =>
    rw [status_eq_built_iff]
    simp [State.isBuilt, hv]
  | built node o hs hn hf hc hu hb =>
    rw [status_eq_built_iff]
    simp [State.isBuilt, hv]

theorem processNode_abort (builder : Builder) (continueOnError : Bool) (configuration : String)
    (st st' : State) (v f : ℕ)
    (h : processNode builder continueOnError configuration st v = (st', some f)) :
    f = v ∧ continueOnError = false ∧ Treated builder configuration st v st' true := by
  obtain ⟨failed, ht, hres⟩ := processNode_treated builder continueOnError configuration st v
  rw [h] at ht hres
  simp only at ht hres
  cases failed <;> cases continueOnError <;> simp at hres
  exact ⟨hres, rfl, ht⟩

theorem processNode_continue (builder : Builder) (continueOnError : Bool)
    (configuration : String) (st st' : State) (v : ℕ)
    (h : processNode builder continueOnError configuration st v = (st', none)) :
    ∃ failed, Treated builder configuration st v st' failed ∧
      (failed = true → continueOnError = true) := by
  obtain ⟨failed, ht, hres⟩ := processNode_treated builder continueOnError configuration st v
  rw [h] at ht hres
  refine ⟨failed, ht, ?_⟩
  intro hf
  subst hf
  cases continueOnError <;> simp at hres ⊢

theorem runPass_abort_split (builder : Builder) (continueOnError : Bool)
    (configuration : String) :
    ∀ (order : List ℕ) (st st' : State) (f : ℕ),
      runPass builder continueOnError configuration order st = (st', some f) →
      ∃ pre post st1, order = pre ++ f :: post ∧
        runPass builder continueOnError configuration pre st = (st1, none) ∧
        processNode builder continueOnError configuration st1 f = (st', some f) := by
  intro order
  induction order with
  | nil =>
    intro st st' f h
    simp [runPass] at h
  | cons v rest ih =>
    intro st st' f h
    unfold runPass at h
    cases hp : processNode builder continueOnError configuration st v with
    | mk st1 res =>
      rw [hp] at h
      cases res with
      | some x =>
        simp only [Prod.mk.injEq, Option.some.injEq] at h
        obtain ⟨h1, h2⟩ := h
        subst h1 h2
        have hx := (processNode_abort _ _ _ _ _ _ _ hp).1
        subst hx
        exact ⟨[], rest, st, rfl, rfl, hp⟩
      | none =>
        simp only at h
        obtain ⟨pre, post, st2, ho, hr, hpn⟩ := ih st1 st' f h
        refine ⟨v :: pre, post, st2, by rw [ho]; rfl, ?_, hpn⟩
        unfold runPass
        rw [hp]
        exact hr

theorem runPass_all_done (builder : Builder) (configuration : String) :
    ∀ (order : List ℕ) (st st' : State),
      runPass builder false configuration order st = (st', none) →
      ∀ v ∈ order, v < st.graph.nodes.length → st'.status v = .Built := by
  intro order
  induction order with
  | nil =>
    intro st st' _ v hv
    cases hv
  | cons u rest ih =>
    intro st st' h v hv hlt
    unfold runPass at h
    cases hp : processNode builder false configuration st u with
    | mk st1 res =>
      rw [hp] at h
      cases res with
      | some x => simp at h
      | none =>
        simp only at h
        obtain ⟨failed, ht, hf⟩ := processNode_continue _ _ _ _ _ _ hp
        have hfalse : failed = false := by
          cases failed
          · rfl
          · exact absurd (hf rfl) (by simp)
        subst hfalse
        have hch := treated_changes _ _ _ _ _ _ ht
        rcases List.mem_cons.1 hv with hvu | hvr
        · subst hvu
          have hb := treated_done _ _ _ _ _ ht hlt
          have hrest := runPass_changes builder false configuration rest st1
          rw [h] at hrest
          rw [hrest.2.2.2.2.2.2.1 v (by rw [hb]; simp), hb]
        · exact ih st1 st' h v hvr (by rw [hch.2.1]; exact hlt)

/-! ### What a pass leaves unchanged -/

theorem findIdx_congr (p : Node → Bool) :
    ∀ l l' : List Node, l.map Node.declaration = l'.map Node.declaration →
      (∀ a b : Node, a.declaration = b.declaration → p a = p b) →
      l.findIdx p = l'.findIdx p := by
  intro l
  induction l with
  | nil =>
    intro l' h _
    have : l' = [] := by simpa using h.symm
    rw [this]
  | cons a l ih =>
    intro l' h hp
    cases l' with
    | nil => simp at h
    | cons a' l' =>
      simp only [List.map_cons, List.cons.injEq] at h
      rw [List.findIdx_cons, List.findIdx_cons, hp a a' h.1, ih l' h.2 hp]

theorem findNode_congr (l l' : List Node) (h : l.map Node.declaration = l'.map Node.declaration)
    (obj : MarketObject) (name : String) : findNode l obj name = findNode l' obj name := by
  have hlen : l.length = l'.length := by
    have := congrArg List.length h
    simpa using this
  unfold findNode
  simp only
  rw [findIdx_congr _ l l' h, hlen]
  intro a b hab
  simp only [Node.declaration, Prod.mk.injEq] at hab
  simp [hab.1, hab.2.1]

theorem declarations_eq (g g' : Graph)
    (h : ∀ w : ℕ, (g'.nodes[w]?).map Node.declaration = (g.nodes[w]?).map Node.declaration) :
    g'.nodes.map Node.declaration = g.nodes.map Node.declaration := by
  apply List.ext_getElem?
  intro w
  simp only [List.getElem?_map]
  exact h w

theorem unresolvedReferences_congr (g g' : Graph)
    (h : ∀ w : ℕ, (g'.nodes[w]?).map Node.declaration = (g.nodes[w]?).map Node.declaration)
    (v : ℕ) : unresolvedReferences g' v = unresolvedReferences g v := by
  have hmap := declarations_eq g g' h
  have hv := h v
  unfold unresolvedReferences
  cases hn : g.nodes[v]? with
  | none =>
    rw [hn] at hv
    simp only [Option.map_none', Option.map_eq_none'] at hv
    rw [hv]
  | some node =>
    rw [hn] at hv
    cases hn' : g'.nodes[v]? with
    | none => rw [hn'] at hv; simp at hv
    | some node' =>
      rw [hn'] at hv
      simp only [Option.map_some', Option.some.injEq, Node.declaration, Prod.mk.injEq] at hv
      simp only [hv.2.2.2]
      cases node.curveSpec with
      | none => rfl
      | some spec =>
        simp only
        congr 1
        funext r
        rw [findNode_congr g'.nodes g.nodes hmap]

theorem identity_congr (g g' : Graph)
    (h : ∀ w : ℕ, (g'.nodes[w]?).map Node.declaration = (g.nodes[w]?).map Node.declaration)
    (v : ℕ) : g'.identity v = g.identity v := by
  have hv := h v
  unfold Graph.identity
  cases hn : g.nodes[v]? with
  | none =>
    rw [hn] at hv
    simp only [Option.map_none', Option.map_eq_none'] at hv
    rw [hv]
  | some node =>
    rw [hn] at hv
    cases hn' : g'.nodes[v]? with
    | none => rw [hn'] at hv; simp at hv
    | some node' =>
      rw [hn'] at hv
      simp only [Option.map_some', Option.some.injEq, Node.declaration, Prod.mk.injEq] at hv
      simp [Node.identity, hv.1, hv.2.1]

theorem edge_congr (g g' : Graph) (h : g'.edges = g.edges) : g'.Edge = g.Edge := by
  funext x y
  simp only [Graph.Edge, h]

theorem dependencies_congr (g g' : Graph) (h : g'.edges = g.edges) (v : ℕ) :
    g'.dependencies v = g.dependencies v := by
  simp only [Graph.dependencies, h]

theorem lookup_congr (c : ObjectCache) (configuration : String) (n n' : Node)
    (h : n.declaration = n'.declaration) :
    c.lookup configuration n = c.lookup configuration n' := by
  simp only [Node.declaration, Prod.mk.injEq] at h
  simp only [ObjectCache.lookup, Node.cacheKey, h.1, h.2.1, h.2.2.2]

theorem lookup_store_self (c : ObjectCache) (configuration : String) (n : Node)
    (o : ObjectHandle) : (c.store configuration n o).lookup configuration n = some o := by
  unfold ObjectCache.store ObjectCache.lookup
  cases h : cacheMap n.obj <;> simp

theorem lookup_store_isSome (c : ObjectCache) (configuration : String) (n n' : Node)
    (o : ObjectHandle) (h : (c.lookup configuration n').isSome = true) :
    ((c.store configuration n o).lookup configuration n').isSome = true := by
  unfold ObjectCache.store ObjectCache.lookup at *
  cases hn : cacheMap n.obj <;> cases hn' : cacheMap n'.obj <;> simp only [hn'] at h ⊢
  · by_cases hk : n'.name = n.name <;> simp [hk, h]
  · exact h
  · exact h
  · rename_i m m'
    by_cases hk : m' = m ∧ n'.cacheKey = n.cacheKey <;> simp [hk, h]

theorem lookup_store_preserved (c : ObjectCache) (configuration : String) (n n' : Node)
    (o o' : ObjectHandle) (hn : c.lookup configuration n = none)
    (h : c.lookup configuration n' = some o') :
    (c.store configuration n o).lookup configuration n' = some o' := by
  unfold ObjectCache.store ObjectCache.lookup at *
  cases hm : cacheMap n.obj <;> cases hm' : cacheMap n'.obj <;> simp only [hm, hm'] at hn h ⊢
  · by_cases hk : n'.name = n.name
    · rw [hk, hn] at h
      cases h
    · simp [hk, h]
  · exact h
  · exact h
  · rename_i m m'
    by_cases hk : m' = m ∧ n'.cacheKey = n.cacheKey
    · rw [hk.1, hk.2, hn] at h
      cases h
    · simp [hk, h]

/-! ### The pass as a whole -/

theorem initial_pending (g : Graph) (cache : ObjectCache) (hg : g.Fresh) (v : ℕ) :
    (State.initial g cache).status v = .Pending := by
  rw [status_eq_pending_iff]
  refine ⟨?_, rfl⟩
  simp only [State.isBuilt, State.initial]
  cases hn : g.nodes[v]? with
  | none => rfl
  | some node => exact hg.2 node (List.getElem?_mem hn)

theorem changes_outside (S : ℕ → Prop) (st st' : State) (h : Changes S st st') (w : ℕ)
    (hw : ¬ S w) :
    st'.status w = st.status w ∧ st'.isBuilt w = st.isBuilt w ∧
      (w ∈ st'.invoked ↔ w ∈ st.invoked) := by
  obtain ⟨hn, hr, hi⟩ := h.2.2.2.1 w hw
  have hb : st'.isBuilt w = st.isBuilt w := by
    simp only [State.isBuilt, hn]
  exact ⟨status_congr _ _ w hb hr, hb, hi⟩

theorem buildDependencyGraph_ok (registry : Registry) (source : ConfigurationSource)
    (configuration : String)
    (h : (buildDependencyGraph registry source configuration).2 = none) :
    ∃ order, assemble registry source configuration =
        .ok (buildDependencyGraph registry source configuration).1 ∧
      topologicalOrder (buildDependencyGraph registry source configuration).1 = .ok order ∧
      buildOrder (buildDependencyGraph registry source configuration).1 = order ∧
      (buildDependencyGraph registry source configuration).1.IsTopological order := by
  have hfresh := buildDependencyGraph_fresh registry source configuration
  revert h hfresh
  unfold buildDependencyGraph
  cases ha : assemble registry source configuration with
  | error e => simp
  | ok g =>
    simp only
    cases ht : topologicalOrder g with
    | error c => simp
    | ok order =>
      intro _ hfresh
      refine ⟨order, rfl, ht, ?_, topological_of_ok g hfresh.1 order ht⟩
      simp [buildOrder, ht]

theorem initialise_eager (registry : Registry) (source : ConfigurationSource)
    (builder : Builder) (flags : Flags) (configuration : String) (cache : ObjectCache)
    (hlazy : flags.lazyBuild_ = false)
    (hgraph : (buildDependencyGraph registry source configuration).2 = none) :
    initialise registry source builder flags configuration cache =
      ((runPass builder flags.continueOnError_ configuration
          (buildOrder (buildDependencyGraph registry source configuration).1)
          (State.initial (buildDependencyGraph registry source configuration).1 cache)).1,
        (runPass builder flags.continueOnError_ configuration
          (buildOrder (buildDependencyGraph registry source configuration).1)
          (State.initial (buildDependencyGraph registry source configuration).1 cache)).2.map
          PassFailure.node) := by
  unfold initialise
  cases hb : buildDependencyGraph registry source configuration with
  | mk g e =>
    rw [hb] at hgraph
    simp only at hgraph
    subst hgraph
    simp [hlazy]

/-- C3: with `continueOnError = false` and a dependency graph that was built,
the eager pass either builds every node, or fails reporting one node `f` of the
build order: `f` is `Failed`, every node scheduled before `f` is `Built` (so `f`
is the first failure), every node scheduled after `f` is still `Pending` and was
never handed to `buildNode`, and the object cache is the one left by the nodes
before `f`. -/
theorem abort_on_first_failure (registry : Registry) (source : ConfigurationSource)
    (builder : Builder) (flags : Flags) (configuration : String) (cache : ObjectCache)
    (hcoe : flags.continueOnError_ = false) (hlazy : flags.lazyBuild_ = false)
    (hgraph : (buildDependencyGraph registry source configuration).2 = none) :
    ((initialise registry source builder flags configuration cache).2 = none ∨
      ∃ f, (initialise registry source builder flags configuration cache).2 =
        some (.node f)) ∧
    (∀ f, (initialise registry source builder flags configuration cache).2 = some (.node f) →
      ∃ pre post,
        buildOrder (buildDependencyGraph registry source configuration).1 = pre ++ f :: post ∧
        (initialise registry source builder flags configuration cache).1.status f = .Failed ∧
        (∀ v ∈ pre,
          (initialise registry source builder flags configuration cache).1.status v = .Built) ∧
        (∀ w ∈ post,
          (initialise registry source builder flags configuration cache).1.status w = .Pending ∧
          w ∉ (initialise registry source builder flags configuration cache).1.invoked) ∧
        (initialise registry source builder flags configuration cache).1.cache =
          (runPass builder false configuration pre
            (State.initial (buildDependencyGraph registry source configuration).1 cache)).1.cache) ∧
    ((initialise registry source builder flags configuration cache).2 = none →
      ∀ v, v < (buildDependencyGraph registry source configuration).1.nodes.length →
        (initialise registry source builder flags configuration cache).1.status v = .Built) := by
  obtain ⟨order, _, _, hbo, htopo⟩ := buildDependencyGraph_ok registry source configuration hgraph
  have hfresh := buildDependencyGraph_fresh registry source configuration
  rw [initialise_eager registry source builder flags configuration cache hlazy hgraph, hcoe, hbo]
  generalize hg : (buildDependencyGraph registry source configuration).1 = g at *
  cases hr : runPass builder false configuration order (State.initial g cache) with
  | mk st' res =>
    simp only
    cases res with
    | none =>
      refine ⟨Or.inl rfl, ?_, ?_⟩
      · intro f hf
        simp at hf
      · intro _ v hv
        exact runPass_all_done builder configuration order _ st' hr v
          ((htopo.2.1 v).2 hv) hv
    | some f =>
      refine ⟨Or.inr ⟨f, rfl⟩, ?_, ?_⟩
      · intro f' hf'
        simp only [Option.map_some', Option.some.injEq, PassFailure.node.injEq] at hf'
        subst hf'
        obtain ⟨pre, post, st1, ho, hpre, hproc⟩ :=
          runPass_abort_split builder false configuration order _ st' f hr
        obtain ⟨_, _, ht⟩ := processNode_abort _ _ _ _ _ _ _ hproc
        obtain ⟨hfailed, hcache, hgraph'⟩ := treated_failed _ _ _ _ _ ht
        have hnd : (pre ++ f :: post).Nodup := ho ▸ htopo.1
        have hch1 := runPass_changes builder false configuration pre (State.initial g cache)
        rw [hpre] at hch1
        have hch2 := treated_changes _ _ _ _ _ _ ht
        refine ⟨pre, post, ho, hfailed, ?_, ?_, ?_⟩
        · intro v hv
          have hvlt : v < g.nodes.length :=
            (htopo.2.1 v).1 (ho ▸ List.mem_append_left _ hv)
          have hb := runPass_all_done builder configuration pre _ st1 hpre v hv hvlt
          rw [hch2.2.2.2.2.2.2.1 v (by rw [hb]; simp), hb]
        · intro w hw
          have hwpre : ¬ w ∈ pre := by
            intro hin
            have := (List.nodup_append.1 hnd).2.2
            exact this hin (List.mem_cons_of_mem _ hw)
          have hwf : ¬ w = f := by
            intro heq
            subst heq
            exact (List.nodup_cons.1 (List.nodup_append.1 hnd).2.1).1 hw
          obtain ⟨hs1, _, hi1⟩ := changes_outside _ _ _ hch1 w hwpre
          obtain ⟨hs2, _, hi2⟩ := changes_outside _ _ _ hch2 w hwf
          refine ⟨?_, ?_⟩
          · rw [hs2, hs1]
            exact initial_pending g cache hfresh w
          · intro hin
            have := hi1.1 (hi2.1 hin)
            simp [State.initial] at this
        · rw [hcache, hpre]
      · intro h
        simp at h

/-- Witness of C3: in `A -> f(B)`, `B -> f(C)`, `C -> leaf` the builder fails on
`B`; the pass reports `B` (vertex 1), with `C` before it and `A` after it. -/
theorem abort_on_first_failure_witness :
    (initialise exampleRegistry chainSource failOnB (Flags.construct none none none none)
      "default" ObjectCache.empty).2 = some (.node 1) ∧
    ∃ pre post,
      buildOrder (buildDependencyGraph exampleRegistry chainSource "default").1 =
        pre ++ 1 :: post ∧
      (initialise exampleRegistry chainSource failOnB (Flags.construct none none none none)
        "default" ObjectCache.empty).1.status 1 = .Failed ∧
      (∀ v ∈ pre,
        (initialise exampleRegistry chainSource failOnB (Flags.construct none none none none)
          "default" ObjectCache.empty).1.status v = .Built) ∧
      (∀ w ∈ post,
        (initialise exampleRegistry chainSource failOnB (Flags.construct none none none none)
          "default" ObjectCache.empty).1.status w = .Pending ∧
        w ∉ (initialise exampleRegistry chainSource failOnB (Flags.construct none none none none)
          "default" ObjectCache.empty).1.invoked) ∧
      (initialise exampleRegistry chainSource failOnB (Flags.construct none none none none)
        "default" ObjectCache.empty).1.cache =
        (runPass failOnB false "default" pre
          (State.initial (buildDependencyGraph exampleRegistry chainSource "default").1
            ObjectCache.empty)).1.cache :=
  ⟨by decide,
    (abort_on_first_failure exampleRegistry chainSource failOnB
      (Flags.construct none none none none) "default" ObjectCache.empty rfl rfl
      (by decide)).2.1 1 (by decide)⟩

/-- C4: when the dependency graph assembled for a configuration has a cycle,
graph construction fails with `CyclicDependency` naming the nodes of a cycle of
the graph, one after the other along its edges; nothing is executed, so every
node is still `Pending`, no node was handed to `buildNode`, and the object cache
is untouched. For `A -> f(B)`, `B -> f(A)` the failure lists `B` and `A`, and the
cache of a new market holds no entry for either. -/
theorem cyclic_configuration_rejected (registry : Registry) (source : ConfigurationSource)
    (builder : Builder) (flags : Flags) (configuration : String) (cache : ObjectCache)
    (g : Graph) (hg : assemble registry source configuration = .ok g) (hcyc : ¬ g.Acyclic) :
    (∃ c, g.IsCycle c ∧
      buildDependencyGraph registry source configuration =
        (g, some (.cyclicDependency (c.map g.identity))) ∧
      initialise registry source builder flags configuration cache =
        (State.initial g cache, some (.graph (.cyclicDependency (c.map g.identity))))) ∧
    (∀ v, (initialise registry source builder flags configuration cache).1.status v =
      .Pending) ∧
    (initialise registry source builder flags configuration cache).1.invoked = [] ∧
    (initialise registry source builder flags configuration cache).1.cache = cache ∧
    ((initialise exampleRegistry cycleSource builder flags "default" ObjectCache.empty).2 =
        some (.graph (.cyclicDependency ["DiscountCurve/B", "DiscountCurve/A"])) ∧
      (initialise exampleRegistry cycleSource builder flags "default"
        ObjectCache.empty).1.graph.nodes.map Node.name = ["A", "B"] ∧
      ∀ node ∈ (initialise exampleRegistry cycleSource builder flags "default"
          ObjectCache.empty).1.graph.nodes,
        (initialise exampleRegistry cycleSource builder flags "default"
          ObjectCache.empty).1.cache.lookup "default" node = none) := by
  have hfresh := assemble_fresh registry source configuration g hg
  have herr : ∃ c, topologicalOrder g = .error c := by
    cases ht : topologicalOrder g with
    | error c => exact ⟨c, rfl⟩
    | ok order =>
      exact absurd ((topologicalOrder_ok_iff g hfresh.1).1 ⟨order, ht⟩) hcyc
  obtain ⟨c, hc⟩ := herr
  have hb : buildDependencyGraph registry source configuration =
      (g, some (.cyclicDependency (c.map g.identity))) := by
    simp [buildDependencyGraph, hg, hc]
  have hi : initialise registry source builder flags configuration cache =
      (State.initial g cache, some (.graph (.cyclicDependency (c.map g.identity)))) := by
    simp [initialise, hb]
  refine ⟨⟨c, cycle_of_error g hfresh.1 c hc, hb, hi⟩, ?_, ?_, ?_, ?_⟩
  · intro v
    rw [hi]
    exact initial_pending g cache hfresh v
  · rw [hi]
    rfl
  · rw [hi]
    rfl
  · have he : initialise exampleRegistry cycleSource builder flags "default" ObjectCache.empty =
        (State.initial (buildDependencyGraph exampleRegistry cycleSource "default").1
            ObjectCache.empty,
          some (.graph (.cyclicDependency ["DiscountCurve/B", "DiscountCurve/A"]))) := by
      have hbx : buildDependencyGraph exampleRegistry cycleSource "default" =
          ((buildDependencyGraph exampleRegistry cycleSource "default").1,
            some (.cyclicDependency ["DiscountCurve/B", "DiscountCurve/A"])) := by decide
      unfold initialise
      rw [hbx]
    rw [he]
    refine ⟨rfl, by decide, ?_⟩
    intro node _
    simp only [State.initial, ObjectCache.lookup, ObjectCache.empty]
    cases cacheMap node.obj <;> rfl

/-- Witness of C4: the configuration `A -> f(B)`, `B -> f(A)`. -/
theorem cyclic_configuration_rejected_witness :
    ∃ c, (buildDependencyGraph exampleRegistry cycleSource "default").1.IsCycle c ∧
      buildDependencyGraph exampleRegistry cycleSource "default" =
        ((buildDependencyGraph exampleRegistry cycleSource "default").1,
          some (.cyclicDependency
            (c.map (buildDependencyGraph exampleRegistry cycleSource "default").1.identity))) ∧
      initialise exampleRegistry cycleSource okBuilder (Flags.construct none none none none)
          "default" ObjectCache.empty =
        (State.initial (buildDependencyGraph exampleRegistry cycleSource "default").1
            ObjectCache.empty,
          some (.graph (.cyclicDependency
            (c.map (buildDependencyGraph exampleRegistry cycleSource "default").1.identity)))) :=
  (cyclic_configuration_rejected exampleRegistry cycleSource okBuilder
    (Flags.construct none none none none) "default" ObjectCache.empty
    (buildDependencyGraph exampleRegistry cycleSource "default").1 rfl
    (fun h => h 0 (Relation.TransGen.tail
      (Relation.TransGen.single
        (show (buildDependencyGraph exampleRegistry cycleSource "default").1.Edge 0 1 by decide))
      (show (buildDependencyGraph exampleRegistry cycleSource "default").1.Edge 1 0
        by decide)))).1

theorem failedDependencies_of_empty_ledger (st : State) (v : ℕ) (h : st.buildErrors = []) :
    failedDependencies st v = [] := by
  unfold failedDependencies
  rw [List.filter_eq_nil_iff]
  intro u _
  simp only [decide_eq_true_eq]
  rw [status_eq_failed_iff]
  rintro ⟨_, r, hr⟩
  simp [State.reason, h] at hr

theorem slot_congr (n n' : Node) (h : n.declaration = n'.declaration) : n.slot = n'.slot := by
  simp only [Node.declaration, Prod.mk.injEq] at h
  simp only [Node.slot, Node.cacheKey, h.1, h.2.1, h.2.2.2]

theorem lookup_eq_of_slot (c : ObjectCache) (configuration : String) (n n' : Node)
    (h : n.slot = n'.slot) : c.lookup configuration n = c.lookup configuration n' := by
  unfold Node.slot at h
  unfold ObjectCache.lookup
  cases hm : cacheMap n.obj <;> cases hm' : cacheMap n'.obj <;>
    simp only [hm, hm', Prod.mk.injEq, Option.some.injEq] at h ⊢
  · rw [h.2]
  · exact absurd h.1 (by simp)
  · exact absurd h.1 (by simp)
  · rw [h.1, h.2]

theorem lookup_store_origin (c : ObjectCache) (configuration : String) (n n' : Node)
    (o : ObjectHandle) (h : ((c.store configuration n o).lookup configuration n').isSome = true) :
    (c.lookup configuration n').isSome = true ∨ n.slot = n'.slot := by
  unfold ObjectCache.store ObjectCache.lookup at h
  unfold ObjectCache.lookup Node.slot
  cases hm : cacheMap n.obj <;> cases hm' : cacheMap n'.obj <;> simp only [hm, hm'] at h ⊢
  · by_cases hk : n'.name = n.name
    · exact Or.inr (by rw [hk])
    · left
      simpa [hk] using h
  · exact Or.inl h
  · exact Or.inl h
  · rename_i m m'
    by_cases hk : m' = m ∧ n'.cacheKey = n.cacheKey
    · exact Or.inr (by rw [hk.1, hk.2])
    · left
      simpa [hk] using h

/-- One node of a pass in which nothing has failed: when the cache holds the
object of the node, or its builder succeeds, the node is built and its object
is in the cache. -/
theorem processNode_builds (builder : Builder) (continueOnError : Bool) (configuration : String)
    (st : State) (v : ℕ) (node : Node) (hl : st.buildErrors = [])
    (hn : st.graph.nodes[v]? = some node) (hb : st.isBuilt v = false)
    (hres : unresolvedReferences st.graph v = [])
    (hok : st.cache.lookup configuration node = none →
      ∃ o, builder configuration node st.cache = .ok o) :
    (processNode builder continueOnError configuration st v).2 = none ∧
      (processNode builder continueOnError configuration st v).1.buildErrors = [] ∧
      (processNode builder continueOnError configuration st v).1.isBuilt v = true ∧
      ((processNode builder continueOnError configuration st v).1.cache.lookup configuration
        node).isSome = true ∧
      ∀ n, (st.cache.lookup configuration n).isSome = true →
        ((processNode builder continueOnError configuration st v).1.cache.lookup configuration
          n).isSome = true := by
  have hvlt : v < st.graph.nodes.length := (List.getElem?_eq_some_iff.1 hn).1
  have hpend : st.status v = .Pending := by
    rw [status_eq_pending_iff]
    exact ⟨hb, by simp [State.reason, hl]⟩
  obtain ⟨failed, ht, hresult⟩ :=
    processNode_treated builder continueOnError configuration st v
  rw [hresult]
  generalize (processNode builder continueOnError configuration st v).1 = st1 at ht ⊢
  cases ht with
  | skipped hs =>
    rcases hs with hs | ⟨_, hn'⟩
    · rw [hpend] at hs
      cases hs
    · rw [hn] at hn'
      cases hn'
  | wasFailed hs =>
    rw [hpend] at hs
    cases hs
  | upstream node' hs hn' hf =>
    exact absurd (failedDependencies_of_empty_ledger st v hl) hf
  | cached node' hs hn' hf hc =>
    rw [hn] at hn'
    cases hn'
    exact ⟨by simp, hl, by simp [State.isBuilt, hvlt], hc, fun n h => h⟩
  | unresolved node' hs hn' hf hc hu => exact absurd hres hu
  | built node' o hs hn' hf hc hu hb' =>
    rw [hn] at hn'
    cases hn'
    refine ⟨by simp, hl, by simp [State.isBuilt, hvlt], ?_, ?_⟩
    · show ((st.cache.store configuration node o).lookup configuration node).isSome = true
      rw [lookup_store_self]
      rfl
    · intro n h
      exact lookup_store_isSome _ _ _ _ _ h
  | buildFailed node' reason hs hn' hf hc hu hb' =>
    rw [hn] at hn'
    cases hn'
    obtain ⟨o, ho⟩ := hok hc
    rw [ho] at hb'
    cases hb'

/-- A pass in which every reference resolves and the builder of a node
succeeds whenever the cache holds the objects of the nodes it depends on: the
pass completes, the ledger stays empty, and every node of the order is built,
its object in the cache. -/
theorem runPass_builds (builder : Builder) (continueOnError : Bool) (configuration : String)
    (g : Graph)
    (hbuild : ∀ v node c, g.nodes[v]? = some node →
      (∀ u nu, g.Edge u v → g.nodes[u]? = some nu →
        (ObjectCache.lookup c configuration nu).isSome = true) →
      ∃ o, builder configuration node c = .ok o)
    (hres : ∀ v, unresolvedReferences g v = []) :
    ∀ (order : List ℕ) (seen : ℕ → Prop) (st : State), order.Nodup → st.buildErrors = [] →
      (∀ w : ℕ, (st.graph.nodes[w]?).map Node.declaration =
        (g.nodes[w]?).map Node.declaration) →
      (∀ v ∈ order, st.graph.nodes[v]? = g.nodes[v]? ∧ v < g.nodes.length ∧
        st.isBuilt v = false) →
      (∀ u, seen u → ∀ nu, g.nodes[u]? = some nu →
        (st.cache.lookup configuration nu).isSome = true) →
      (∀ v ∈ order, ∀ u, g.Edge u v →
        seen u ∨ (u ∈ order ∧ order.indexOf u < order.indexOf v)) →
      ∃ st', runPass builder continueOnError configuration order st = (st', none) ∧
        st'.buildErrors = [] ∧ (∀ v ∈ order, st'.isBuilt v = true) ∧
        (∀ u, u ∈ order ∨ seen u → ∀ nu, g.nodes[u]? = some nu →
          (st'.cache.lookup configuration nu).isSome = true) := by
  intro order
  induction order with
  | nil =>
    intro seen st _ hl _ _ hseen _
    refine ⟨st, rfl, hl, ?_, ?_⟩
    · intro v hv
      cases hv
    · intro u hu
      rcases hu with hu | hu
      · cases hu
      · exact hseen u hu
  | cons v rest ih =>
    intro seen st hnd hl hdecl hin hseen hord
    obtain ⟨hvn, hvlt, hvb⟩ := hin v (List.mem_cons_self _ _)
    obtain ⟨hvrest, hndrest⟩ := List.nodup_cons.1 hnd
    obtain ⟨node, hnode⟩ : ∃ node, g.nodes[v]? = some node :=
      ⟨g.nodes[v], List.getElem?_eq_getElem hvlt⟩
    have hdeps : ∀ u nu, g.Edge u v → g.nodes[u]? = some nu →
        (st.cache.lookup configuration nu).isSome = true := by
      intro u nu he hnu
      rcases hord v (List.mem_cons_self _ _) u he with h | ⟨_, h⟩
      · exact hseen u h nu hnu
      · simp at h
    obtain ⟨hnone, hled1, hb1, hc1, hmono1⟩ :=
      processNode_builds builder continueOnError configuration st v node hl
        (by rw [hvn]; exact hnode) hvb
        (by rw [unresolvedReferences_congr g st.graph hdecl v]; exact hres v)
        (fun _ => hbuild v node st.cache hnode hdeps)
    have hch := processNode_changes builder continueOnError configuration st v
    have hproc : processNode builder continueOnError configuration st v =
        ((processNode builder continueOnError configuration st v).1, none) :=
      Prod.ext rfl hnone
    generalize (processNode builder continueOnError configuration st v).1 = st1 at *
    obtain ⟨st', hrun, hled, hb', hc'⟩ := ih (fun w => w = v ∨ seen w) st1 hndrest hled1
      (fun w => (hch.2.2.1 w).trans (hdecl w))
      (by
        intro w hw
        have hwv : ¬ w = v := fun h => hvrest (h ▸ hw)
        obtain ⟨_, hbw, _⟩ := changes_outside _ _ _ hch w hwv
        obtain ⟨hwn, hwlt, hwb⟩ := hin w (List.mem_cons_of_mem _ hw)
        exact ⟨(hch.2.2.2.1 w hwv).1.trans hwn, hwlt, by rw [hbw]; exact hwb⟩)
      (by
        intro u hu nu hnu
        rcases hu with hu | hu
        · subst hu
          rw [hnode] at hnu
          cases hnu
          exact hc1
        · exact hmono1 nu (hseen u hu nu hnu))
      (by
        intro w hw u he
        have hwv : v ≠ w := fun h => hvrest (h ▸ hw)
        rcases hord w (List.mem_cons_of_mem _ hw) u he with h | ⟨hmem, hlt⟩
        · exact Or.inl (Or.inr h)
        · by_cases huv : v = u
          · exact Or.inl (Or.inl huv.symm)
          · right
            have hur : u ∈ rest := by
              rcases List.mem_cons.1 hmem with h | h
              · exact absurd h.symm huv
              · exact h
            refine ⟨hur, ?_⟩
            rw [List.indexOf_cons_ne _ huv, List.indexOf_cons_ne _ hwv] at hlt
            omega)
    refine ⟨st', ?_, hled, ?_, ?_⟩
    · unfold runPass
      rw [hproc]
      exact hrun
    · intro w hw
      rcases List.mem_cons.1 hw with h | h
      · subst h
        have hrest := runPass_changes builder continueOnError configuration rest st1
        rw [hrun] at hrest
        exact hrest.2.2.2.2.1 w hb1
      · exact hb' w h
    · intro u hu nu hnu
      apply hc' u _ nu hnu
      rcases hu with hu | hu
      · rcases List.mem_cons.1 hu with h | h
        · exact Or.inr (Or.inl h)
        · exact Or.inl h
      · exact Or.inr (Or.inr hu)

theorem treated_invoked (builder : Builder) (configuration : String) (st st' : State) (v : ℕ)
    (failed : Bool) (h : Treated builder configuration st v st' failed) :
    st'.invoked = st.invoked ∨ st'.invoked = st.invoked ++ [v] := by
  cases h with
  | skipped _ => exact Or.inl rfl
  | wasFailed _ => exact Or.inl rfl
  | upstream node hs hn hf => exact Or.inl rfl
  | cached node hs hn hf hc => exact Or.inl rfl
  | unresolved node hs hn hf hc hu => exact Or.inl rfl
  | built node o hs hn hf hc hu hb => exact Or.inr rfl
  | buildFailed node reason hs hn hf hc hu hb => exact Or.inr rfl

theorem runPass_invoked (builder : Builder) (continueOnError : Bool) (configuration : String) :
    ∀ (order : List ℕ) (st : State), ∃ l, l.Sublist order ∧
      (runPass builder continueOnError configuration order st).1.invoked = st.invoked ++ l := by
  intro order
  induction order with
  | nil =>
    intro st
    exact ⟨[], List.Sublist.refl _, by simp [runPass]⟩
  | cons v rest ih =>
    intro st
    obtain ⟨failed, ht, _⟩ := processNode_treated builder continueOnError configuration st v
    have hone := treated_invoked _ _ _ _ _ _ ht
    unfold runPass
    cases hp : processNode builder continueOnError configuration st v with
    | mk st1 res =>
      rw [hp] at hone
      simp only at hone
      cases res with
      | some f =>
        simp only
        rcases hone with h | h
        · exact ⟨[], List.nil_sublist _, by simp [h]⟩
        · exact ⟨[v], by simp, h⟩
      | none =>
        simp only
        obtain ⟨l, hl, hinv⟩ := ih st1
        rcases hone with h | h
        · exact ⟨l, List.Sublist.cons _ hl, by rw [hinv, h]⟩
        · exact ⟨v :: l, List.Sublist.cons₂ _ hl, by rw [hinv, h]; simp⟩

theorem cacheInv_initial (g : Graph) (cache : ObjectCache) (configuration : String) :
    CacheInv g cache configuration (State.initial g cache) := by
  refine ⟨fun _ => rfl, fun _ _ h => h, ?_, fun n h => Or.inl h, ?_, ?_, ?_⟩
  · intro v hv
    simp [State.initial] at hv
  · intro v hv
    simp [State.initial] at hv
  · intro v hv
    simp [State.initial] at hv
  · intro u v nu nv hu
    simp [State.initial] at hu

/-- What treating one node does to the cache and to the record of the nodes
handed to `buildNode`: nothing; or, for a `Pending` node, nothing; or the node,
whose object the cache did not hold, is handed to `buildNode`, and either this
fails and the cache stays, or the object built is stored. -/
theorem treated_cache (builder : Builder) (configuration : String) (st st' : State) (v : ℕ)
    (failed : Bool) (h : Treated builder configuration st v st' failed) :
    st' = st ∨
    (st.status v = .Pending ∧ st'.cache = st.cache ∧ st'.invoked = st.invoked) ∨
    ∃ node, st.graph.nodes[v]? = some node ∧ st.status v = .Pending ∧
      st.cache.lookup configuration node = none ∧ st'.invoked = st.invoked ++ [v] ∧
      st'.status v ≠ .Pending ∧
      ((st'.cache = st.cache ∧ st'.isBuilt v = false) ∨
        ∃ o, st'.cache = st.cache.store configuration node o) := by
  cases h with
  | skipped _ => exact Or.inl rfl
  | wasFailed _ => exact Or.inl rfl
  | upstream node hs hn hf => exact Or.inr (Or.inl ⟨hs, rfl, rfl⟩)
  | cached node hs hn hf hc => exact Or.inr (Or.inl ⟨hs, rfl, rfl⟩)
  | unresolved node hs hn hf hc hu => exact Or.inr (Or.inl ⟨hs, rfl, rfl⟩)
  | built node o hs hn hf hc hu hb =>
    have hv : v < st.graph.nodes.length := (List.getElem?_eq_some_iff.1 hn).1
    refine Or.inr (Or.inr ⟨node, hn, hs, hc, rfl, ?_, Or.inr ⟨o, rfl⟩⟩)
    rw [treated_done builder configuration st _ v (Treated.built node o hs hn hf hc hu hb) hv]
    simp
  | buildFailed node reason hs hn hf hc hu hb =>
    have hf' := (treated_failed builder configuration st _ v
      (Treated.buildFailed node reason hs hn hf hc hu hb)).1
    refine Or.inr (Or.inr ⟨node, hn, hs, hc, rfl, ?_, Or.inl ⟨rfl, ?_⟩⟩)
    · rw [hf']
      simp
    · exact ((status_eq_failed_iff _ v).1 hf').1

theorem cacheInv_step (builder : Builder) (continueOnError : Bool) (configuration : String)
    (g : Graph) (cache : ObjectCache) (st : State) (v : ℕ)
    (hinv : CacheInv g cache configuration st) :
    CacheInv g cache configuration
      (processNode builder continueOnError configuration st v).1 := by
  obtain ⟨hdecl, hkeep, hfresh, horigin, hdone, hstored, hone⟩ := hinv
  obtain ⟨failed, ht, _⟩ := processNode_treated builder continueOnError configuration st v
  have hch := treated_changes _ _ _ _ _ _ ht
  have hsum := treated_cache _ _ _ _ _ _ ht
  generalize (processNode builder continueOnError configuration st v).1 = st' at ht hch hsum
  have hdecl' : ∀ w : ℕ, (st'.graph.nodes[w]?).map Node.declaration =
      (g.nodes[w]?).map Node.declaration := fun w => (hch.2.2.1 w).trans (hdecl w)
  have hother : ∀ w, w ≠ v → st'.isBuilt w = st.isBuilt w := fun w hw =>
    (changes_outside _ _ _ hch w hw).2.1
  have hstat : ∀ w ∈ st.invoked, st'.status w ≠ .Pending := by
    intro w hw
    rw [hch.2.2.2.2.2.2.1 w (hdone w hw)]
    exact hdone w hw
  rcases hsum with h | ⟨hs, hcache, hinvk⟩ | ⟨node, hn, hs, hc, hinvk, hnp, hcache⟩
  · subst h
    exact ⟨hdecl, hkeep, hfresh, horigin, hdone, hstored, hone⟩
  · have hvnot : ∀ w ∈ st.invoked, w ≠ v := fun w hw h => hdone w hw (h ▸ hs)
    refine ⟨hdecl', ?_, ?_, ?_, ?_, ?_, ?_⟩
    · rw [hcache]
      exact hkeep
    · rw [hinvk]
      exact hfresh
    · rw [hcache, hinvk]
      exact horigin
    · rw [hinvk]
      exact hstat
    · rw [hcache, hinvk]
      intro w hw hb
      exact hstored w hw (by rw [← hother w (hvnot w hw)]; exact hb)
    · rw [hinvk]
      intro u w nu nw hu hw hbu hbw
      exact hone u w nu nw hu hw (by rw [← hother u (hvnot u hu)]; exact hbu)
        (by rw [← hother w (hvnot w hw)]; exact hbw)
  · have hvnot : ∀ w ∈ st.invoked, w ≠ v := fun w hw h => hdone w hw (h ▸ hs)
    obtain ⟨gnode, hgn, hgd⟩ : ∃ gnode, g.nodes[v]? = some gnode ∧
        gnode.declaration = node.declaration := by
      have h := hdecl v
      rw [hn] at h
      cases hg : g.nodes[v]? with
      | none => rw [hg] at h; simp at h
      | some gnode =>
        rw [hg] at h
        simp only [Option.map_some', Option.some.injEq] at h
        exact ⟨gnode, rfl, h.symm⟩
    have hcg : st.cache.lookup configuration gnode = none := by
      rw [lookup_congr _ _ gnode node hgd]
      exact hc
    have hkeep' : ∀ n o, st.cache.lookup configuration n = some o →
        st'.cache.lookup configuration n = some o := by
      intro n o h
      rcases hcache with ⟨hcache, _⟩ | ⟨o', hcache⟩
      · rw [hcache]
        exact h
      · rw [hcache]
        exact lookup_store_preserved _ _ _ _ _ _ hc h
    have hsome' : ∀ n, (st.cache.lookup configuration n).isSome = true →
        (st'.cache.lookup configuration n).isSome = true := by
      intro n h
      obtain ⟨o, ho⟩ := Option.isSome_iff_exists.1 h
      rw [hkeep' n o ho]
      rfl
    have hnew : st'.isBuilt v = true → (st'.cache.lookup configuration gnode).isSome = true := by
      intro hb
      rcases hcache with ⟨_, hnb⟩ | ⟨o', hcache⟩
      · rw [hnb] at hb
        cases hb
      · rw [hcache, lookup_congr _ _ gnode node hgd, lookup_store_self]
        rfl
    have hclash : ∀ w nw, w ∈ st.invoked → st'.isBuilt w = true → g.nodes[w]? = some nw →
        ¬ nw.slot = gnode.slot := by
      intro w nw hw hbw hnw hslot
      have h := hstored w hw (by rw [← hother w (hvnot w hw)]; exact hbw) nw hnw
      rw [lookup_eq_of_slot _ _ nw gnode hslot, hcg] at h
      cases h
    refine ⟨hdecl', fun n o h => hkeep' n o (hkeep n o h), ?_, ?_, ?_, ?_, ?_⟩
    · rw [hinvk]
      intro w hw nw hnw
      rcases List.mem_append.1 hw with h | h
      · exact hfresh w h nw hnw
      · simp only [List.mem_singleton] at h
        subst h
        rw [hgn] at hnw
        cases hnw
        cases hk : cache.lookup configuration gnode with
        | none => rfl
        | some o =>
          rw [hkeep gnode o hk] at hcg
          cases hcg
    · rw [hinvk]
      intro n h
      have hor : (st.cache.lookup configuration n).isSome = true ∨ node.slot = n.slot := by
        rcases hcache with ⟨hcache, _⟩ | ⟨o', hcache⟩
        · rw [hcache] at h
          exact Or.inl h
        · rw [hcache] at h
          exact lookup_store_origin _ _ _ _ _ h
      rcases hor with h1 | h1
      · rcases horigin n h1 with h2 | ⟨u, nu, hu, hnu, hslot⟩
        · exact Or.inl h2
        · exact Or.inr ⟨u, nu, List.mem_append_left _ hu, hnu, hslot⟩
      · exact Or.inr ⟨v, gnode, by simp, hgn, (slot_congr gnode node hgd).trans h1⟩
    · rw [hinvk]
      intro w hw
      rcases List.mem_append.1 hw with h | h
      · exact hstat w h
      · simp only [List.mem_singleton] at h
        subst h
        exact hnp
    · rw [hinvk]
      intro w hw hbw nw hnw
      rcases List.mem_append.1 hw with h | h
      · exact hsome' nw (hstored w h (by rw [← hother w (hvnot w h)]; exact hbw) nw hnw)
      · simp only [List.mem_singleton] at h
        subst h
        rw [hgn] at hnw
        cases hnw
        exact hnew hbw
    · rw [hinvk]
      intro u w nu nw hu hw hbu hbw hnu hnw hslot
      rcases List.mem_append.1 hu with h1 | h1 <;> rcases List.mem_append.1 hw with h2 | h2
      · exact hone u w nu nw h1 h2 (by rw [← hother u (hvnot u h1)]; exact hbu)
          (by rw [← hother w (hvnot w h2)]; exact hbw) hnu hnw hslot
      · simp only [List.mem_singleton] at h2
        subst h2
        rw [hgn] at hnw
        cases hnw
        exact absurd hslot (hclash u nu h1 hbu hnu)
      · simp only [List.mem_singleton] at h1
        subst h1
        rw [hgn] at hnu
        cases hnu
        exact absurd hslot.symm (hclash w nw h2 hbw hnw)
      · simp only [List.mem_singleton] at h1 h2
        rw [h1, h2]

theorem runPass_cacheInv (builder : Builder) (continueOnError : Bool) (configuration : String)
    (g : Graph) (cache : ObjectCache) :
    ∀ (order : List ℕ) (st : State), CacheInv g cache configuration st →
      CacheInv g cache configuration
        (runPass builder continueOnError configuration order st).1 := by
  intro order
  induction order with
  | nil =>
    intro st h
    exact h
  | cons v rest ih =>
    intro st h
    have hstep := cacheInv_step builder continueOnError configuration g cache st v h
    unfold runPass
    cases hp : processNode builder continueOnError configuration st v with
    | mk st1 res =>
      rw [hp] at hstep
      cases res with
      | some f => exact hstep
      | none => exact ih st1 hstep

/-- C1: for a configuration whose assembled dependency graph is acyclic, graph
construction succeeds and the build order of the eager pass is a topological
ordering of the graph: every vertex occurs in it exactly once, and for every
edge `x -> y`, `x` occurs before `y`. The nodes handed to `buildNode` are taken
from this order, each at most once; none of them had its object in the cache
when the pass began, what the cache held then it still holds afterwards, and no
two of them that are `Built` share an entry of the cache, so that no object is
built twice. When all references resolve and the builder of a node succeeds
whenever the cache holds the objects of the nodes it depends on, the pass
completes, every node is `Built` and cached, the ledger is empty, and the
object of every node was in the cache when the pass began or was built by the
pass for a node of its entry; when the cache held none of them and no two nodes
share an entry, the nodes handed to `buildNode` are the whole order. For
`A -> f(B)`, `B -> f(C)`, `C -> leaf` and a builder that builds `A` from the
object of `B` and `B` from the object of `C`, the nodes are built in the order
`C`, `B`, `A`, all three are in the object cache and the ledger is empty;
started with an object for `C` in the cache, the pass builds `B` and `A` only
and the object of `C` stays. For `A -> f(B)`, `B -> leaf`, `C -> leaf`, where
`B` and `C` share the entry of the curve spec `leaf`, the pass builds `B` and
`A`, and `C` is `Built` by the object built for `B`. -/
theorem eager_build_topological (registry : Registry) (source : ConfigurationSource)
    (builder : Builder) (flags : Flags) (configuration : String) (cache : ObjectCache)
    (g : Graph) (hg : assemble registry source configuration = .ok g) (hacyc : g.Acyclic)
    (hlazy : flags.lazyBuild_ = false) :
    buildDependencyGraph registry source configuration = (g, none) ∧
    g.IsTopological (buildOrder g) ∧
    (initialise registry source builder flags configuration cache).1.invoked.Sublist
      (buildOrder g) ∧
    (∀ v ∈ (initialise registry source builder flags configuration cache).1.invoked,
      ∀ node, g.nodes[v]? = some node → cache.lookup configuration node = none) ∧
    (∀ node o, cache.lookup configuration node = some o →
      (initialise registry source builder flags configuration cache).1.cache.lookup
        configuration node = some o) ∧
    (∀ (u v : ℕ) (nu nv : Node),
      u ∈ (initialise registry source builder flags configuration cache).1.invoked →
      v ∈ (initialise registry source builder flags configuration cache).1.invoked →
      (initialise registry source builder flags configuration cache).1.status u = .Built →
      (initialise registry source builder flags configuration cache).1.status v = .Built →
      g.nodes[u]? = some nu → g.nodes[v]? = some nv → nu.slot = nv.slot → u = v) ∧
    ((∀ v, unresolvedReferences g v = []) →
      (∀ (v : ℕ) (node : Node) (c : ObjectCache), g.nodes[v]? = some node →
        (∀ (u : ℕ) (nu : Node), g.Edge u v → g.nodes[u]? = some nu →
          (c.lookup configuration nu).isSome = true) →
        ∃ o, builder configuration node c = .ok o) →
      (initialise registry source builder flags configuration cache).2 = none ∧
      (∀ v, v < g.nodes.length →
        (initialise registry source builder flags configuration cache).1.status v = .Built ∧
        (initialise registry source builder flags configuration cache).1.cached
          configuration v) ∧
      (initialise registry source builder flags configuration cache).1.buildErrors = [] ∧
      (∀ (v : ℕ) (node : Node), g.nodes[v]? = some node →
        (cache.lookup configuration node).isSome = true ∨
        ∃ (u : ℕ) (nu : Node),
          u ∈ (initialise registry source builder flags configuration cache).1.invoked ∧
          g.nodes[u]? = some nu ∧ nu.slot = node.slot) ∧
      ((∀ node ∈ g.nodes, cache.lookup configuration node = none) →
        (∀ (u v : ℕ) (nu nv : Node), g.nodes[u]? = some nu → g.nodes[v]? = some nv →
          nu.slot = nv.slot → u = v) →
        (initialise registry source builder flags configuration cache).1.invoked =
          buildOrder g)) ∧
    ((initialise exampleRegistry chainSource chainBuilder (Flags.construct none none none none)
        "default" ObjectCache.empty).1.graph.nodes.map Node.name = ["A", "B", "C"] ∧
      (initialise exampleRegistry chainSource chainBuilder (Flags.construct none none none none)
        "default" ObjectCache.empty).1.invoked = [2, 1, 0] ∧
      (∀ node ∈ (initialise exampleRegistry chainSource chainBuilder
          (Flags.construct none none none none) "default" ObjectCache.empty).1.graph.nodes,
        node.built = true ∧
        ((initialise exampleRegistry chainSource chainBuilder
          (Flags.construct none none none none)
          "default" ObjectCache.empty).1.cache.lookup "default" node).isSome = true) ∧
      (initialise exampleRegistry chainSource chainBuilder (Flags.construct none none none none)
        "default" ObjectCache.empty).1.buildErrors = [] ∧
      (initialise exampleRegistry chainSource chainBuilder (Flags.construct none none none none)
        "default" ObjectCache.empty).2 = none) ∧
    ((initialise exampleRegistry chainSource chainBuilder (Flags.construct none none none none)
        "default" (ObjectCache.empty.store "default" chainC 99)).1.invoked = [1, 0] ∧
      (∀ node ∈ (initialise exampleRegistry chainSource chainBuilder
          (Flags.construct none none none none) "default"
          (ObjectCache.empty.store "default" chainC 99)).1.graph.nodes, node.built = true) ∧
      (initialise exampleRegistry chainSource chainBuilder (Flags.construct none none none none)
        "default" (ObjectCache.empty.store "default" chainC 99)).1.cache.lookup "default"
          chainC = some 99 ∧
      (initialise exampleRegistry chainSource chainBuilder (Flags.construct none none none none)
        "default" (ObjectCache.empty.store "default" chainC 99)).2 = none) ∧
    ((initialise exampleRegistry pairSource okBuilder (Flags.construct none none none none)
        "default" ObjectCache.empty).1.invoked = [1, 0] ∧
      (∀ node ∈ (initialise exampleRegistry pairSource okBuilder
          (Flags.construct none none none none) "default" ObjectCache.empty).1.graph.nodes,
        node.built = true ∧
        (initialise exampleRegistry pairSource okBuilder (Flags.construct none none none none)
          "default" ObjectCache.empty).1.cache.lookup "default" node = some 1)) := by
  have hfresh := assemble_fresh registry source configuration g hg
  obtain ⟨order, hord⟩ := (topologicalOrder_ok_iff g hfresh.1).2 hacyc
  have hb : buildDependencyGraph registry source configuration = (g, none) := by
    simp [buildDependencyGraph, hg, hord]
  have htopo := topological_of_ok g hfresh.1 order hord
  have hbo : buildOrder g = order := by simp [buildOrder, hord]
  have hinit := initialise_eager registry source builder flags configuration cache hlazy
    (by rw [hb])
  rw [hb] at hinit
  simp only [hbo] at hinit
  rw [hinit, hbo]
  have hsub : (runPass builder flags.continueOnError_ configuration order
      (State.initial g cache)).1.invoked.Sublist order := by
    obtain ⟨l, hl, hinv⟩ := runPass_invoked builder flags.continueOnError_ configuration order
      (State.initial g cache)
    rw [hinv]
    exact hl
  obtain ⟨hdecl, hkeep, hnew, horigin, _, _, hone⟩ :=
    runPass_cacheInv builder flags.continueOnError_ configuration g cache order
      (State.initial g cache) (cacheInv_initial g cache configuration)
  refine ⟨hb, htopo, hsub, hnew, hkeep, ?_, ?_, ?_, ?_, ?_⟩
  · intro u v nu nv hu hv hbu hbv
    exact hone u v nu nv hu hv ((status_eq_built_iff _ u).1 hbu) ((status_eq_built_iff _ v).1 hbv)
  · intro hres hbuild
    obtain ⟨st', hrun, hled, hbuilt, hcached⟩ :=
      runPass_builds builder flags.continueOnError_ configuration g hbuild hres order
        (fun _ => False) (State.initial g cache) htopo.1 rfl (fun _ => rfl)
        (by
          intro v hv
          exact ⟨rfl, (htopo.2.1 v).1 hv,
            ((status_eq_pending_iff _ v).1 (initial_pending g cache hfresh v)).1⟩)
        (fun _ h => h.elim)
        (fun v _ u he => Or.inr ⟨(htopo.2.1 u).2 (hfresh.1 _ he).1, htopo.2.2 u v he⟩)
    rw [hrun] at hdecl horigin hsub ⊢
    simp only at hdecl horigin hsub ⊢
    have hall : ∀ (v : ℕ) (node : Node), g.nodes[v]? = some node →
        (st'.cache.lookup configuration node).isSome = true := by
      intro v node hn
      exact hcached v (Or.inl ((htopo.2.1 v).2 (List.getElem?_eq_some_iff.1 hn).1)) node hn
    refine ⟨rfl, ?_, hled, fun v node hn => horigin node (hall v node hn), ?_⟩
    · intro v hv
      have hmem := (htopo.2.1 v).2 hv
      refine ⟨(status_eq_built_iff _ v).2 (hbuilt v hmem), ?_⟩
      intro node hn
      have h := hdecl v
      rw [hn, List.getElem?_eq_getElem hv] at h
      simp only [Option.map_some', Option.some.injEq] at h
      rw [lookup_congr _ _ node g.nodes[v] h]
      exact hall v _ (List.getElem?_eq_getElem hv)
    · intro hmiss hdistinct
      apply hsub.eq_of_length_le
      apply (List.Nodup.subperm htopo.1 _).length_le
      intro v hv
      have hvlt := (htopo.2.1 v).1 hv
      have hn : g.nodes[v]? = some g.nodes[v] := List.getElem?_eq_getElem hvlt
      rcases horigin _ (hall v _ hn) with h | ⟨u, nu, hu, hnu, hslot⟩
      · rw [hmiss _ (List.getElem_mem hvlt)] at h
        cases h
      · rw [← hdistinct u v nu _ hnu hn hslot]
        exact hu
  · refine ⟨by decide, by decide, by decide, by decide, by decide⟩
  · refine ⟨by decide, by decide, by decide, by decide⟩
  · refine ⟨by decide, by decide⟩

/-- Witness of C1: the configuration `A -> f(B)`, `B -> f(C)`, `C -> leaf`, with
a builder that builds `A` from the object of `B` and `B` from the object of `C`. -/
theorem eager_build_topological_witness :
    (initialise exampleRegistry chainSource chainBuilder (Flags.construct none none none none)
      "default" ObjectCache.empty).2 = none ∧
    (buildDependencyGraph exampleRegistry chainSource "default").1.IsTopological
      (initialise exampleRegistry chainSource chainBuilder (Flags.construct none none none none)
        "default" ObjectCache.empty).1.invoked := by
  have hacyc : (buildDependencyGraph exampleRegistry chainSource "default").1.Acyclic :=
    (topologicalOrder_ok_iff _
      (buildDependencyGraph_fresh exampleRegistry chainSource "default").1).1
      ⟨[2, 1, 0], rfl⟩
  have hlen : (buildDependencyGraph exampleRegistry chainSource "default").1.nodes.length =
      3 := by decide
  have hres : ∀ v,
      unresolvedReferences (buildDependencyGraph exampleRegistry chainSource "default").1 v =
        [] := by
    intro v
    by_cases hv : v < 3
    · interval_cases v <;> decide
    · have hn : (buildDependencyGraph exampleRegistry chainSource "default").1.nodes[v]? =
          none := by
        rw [List.getElem?_eq_none_iff]
        omega
      simp [unresolvedReferences, hn]
  have hbuild : ∀ (v : ℕ) (node : Node) (c : ObjectCache),
      (buildDependencyGraph exampleRegistry chainSource "default").1.nodes[v]? = some node →
      (∀ (u : ℕ) (nu : Node),
        (buildDependencyGraph exampleRegistry chainSource "default").1.Edge u v →
        (buildDependencyGraph exampleRegistry chainSource "default").1.nodes[u]? = some nu →
        (c.lookup "default" nu).isSome = true) →
      ∃ o, chainBuilder "default" node c = .ok o := by
    intro v node c hn hdeps
    have hv : v < 3 := by
      rw [← hlen]
      exact (List.getElem?_eq_some_iff.1 hn).1
    interval_cases v
    · have hnode : (buildDependencyGraph exampleRegistry chainSource "default").1.nodes[0]? =
          some ⟨.DiscountCurve, "A", "f(B)", some ⟨"f(B)", [(.DiscountCurve, "B")]⟩, false⟩ := by
        decide
      rw [hnode] at hn
      cases hn
      have hdep := hdeps 1 chainB (by decide) (by decide)
      refine ⟨3, ?_⟩
      show buildFrom c "default" chainB 3 = .ok 3
      unfold buildFrom
      rw [if_pos hdep]
    · have hnode : (buildDependencyGraph exampleRegistry chainSource "default").1.nodes[1]? =
          some chainB := by decide
      rw [hnode] at hn
      cases hn
      have hdep := hdeps 2 chainC (by decide) (by decide)
      refine ⟨2, ?_⟩
      show buildFrom c "default" chainC 2 = .ok 2
      unfold buildFrom
      rw [if_pos hdep]
    · have hnode : (buildDependencyGraph exampleRegistry chainSource "default").1.nodes[2]? =
          some chainC := by decide
      rw [hnode] at hn
      cases hn
      exact ⟨1, rfl⟩
  have hmiss : ∀ node ∈ (buildDependencyGraph exampleRegistry chainSource "default").1.nodes,
      ObjectCache.empty.lookup "default" node = none := by
    intro node _
    simp only [ObjectCache.lookup, ObjectCache.empty]
    cases cacheMap node.obj <;> rfl
  have hslots : ∀ u < 3, ∀ v < 3,
      ((buildDependencyGraph exampleRegistry chainSource "default").1.nodes[u]?).map Node.slot =
        ((buildDependencyGraph exampleRegistry chainSource "default").1.nodes[v]?).map
          Node.slot → u = v := by
    decide
  have hdistinct : ∀ (u v : ℕ) (nu nv : Node),
      (buildDependencyGraph exampleRegistry chainSource "default").1.nodes[u]? = some nu →
      (buildDependencyGraph exampleRegistry chainSource "default").1.nodes[v]? = some nv →
      nu.slot = nv.slot → u = v := by
    intro u v nu nv hnu hnv hslot
    apply hslots u (by rw [← hlen]; exact (List.getElem?_eq_some_iff.1 hnu).1) v
      (by rw [← hlen]; exact (List.getElem?_eq_some_iff.1 hnv).1)
    rw [hnu, hnv]
    simp [hslot]
  have h := eager_build_topological exampleRegistry chainSource chainBuilder
    (Flags.construct none none none none) "default" ObjectCache.empty
    (buildDependencyGraph exampleRegistry chainSource "default").1 rfl hacyc rfl
  have h' := h.2.2.2.2.2.2.1 hres hbuild
  refine ⟨h'.1, ?_⟩
  rw [h'.2.2.2.2 hmiss hdistinct]
  exact h.2.1

/-! ### Failure propagation -/

theorem concat_infix (s : String) : ∀ l : List String, s ∈ l → s.data <:+: (concat l).data := by
  intro l
  induction l with
  | nil => intro h; cases h
  | cons a l ih =>
    intro h
    simp only [concat, String.data_append]
    rcases List.mem_cons.1 h with h | h
    · subst h
      exact List.infix_append' [] _ _
    · exact (ih h).trans (List.suffix_append _ _).isInfix

theorem upstreamReason_infix (st : State) (failed : List ℕ) (u : ℕ) (hu : u ∈ failed) :
    (st.graph.identity u).data <:+: (upstreamReason st failed).data ∧
      ((st.reason u).getD "").data <:+: (upstreamReason st failed).data := by
  have hmem : " [" ++ st.graph.identity u ++ ": " ++ (st.reason u).getD "" ++ "]" ∈
      failed.map fun u => " [" ++ st.graph.identity u ++ ": " ++ (st.reason u).getD "" ++ "]" :=
    List.mem_map.2 ⟨u, hu, rfl⟩
  have h1 := concat_infix _ _ hmem
  have h2 : (concat (failed.map fun u =>
      " [" ++ st.graph.identity u ++ ": " ++ (st.reason u).getD "" ++ "]")).data <:+:
      (upstreamReason st failed).data := by
    simp only [upstreamReason, String.data_append]
    exact (List.suffix_append _ _).isInfix
  have h3 := h1.trans h2
  constructor
  · refine List.IsInfix.trans ?_ h3
    simp only [String.data_append]
    refine ⟨" [".data, ": ".data ++ ((st.reason u).getD "").data ++ "]".data, ?_⟩
    simp [List.append_assoc]
  · refine List.IsInfix.trans ?_ h3
    simp only [String.data_append]
    refine ⟨" [".data ++ (st.graph.identity u).data ++ ": ".data, "]".data, ?_⟩
    simp [List.append_assoc]

theorem mem_failedDependencies (st : State) (u v : ℕ) :
    u ∈ failedDependencies st v ↔ st.graph.Edge u v ∧ st.status u = .Failed := by
  simp only [failedDependencies, List.mem_filter, mem_dependencies, decide_eq_true_eq]

theorem passInv_initial (g : Graph) (cache : ObjectCache) (hg : g.Fresh) :
    PassInv g (fun _ => False) (State.initial g cache) := by
  refine ⟨rfl, fun _ => rfl, fun _ h => h.elim, ?_, fun _ _ _ h => h, fun _ _ _ h => h.elim⟩
  intro v _
  exact ⟨initial_pending g cache hg v, by simp [State.initial]⟩

theorem passInv_step (builder : Builder) (configuration : String) (g : Graph)
    (seen : ℕ → Prop) (st : State) (v : ℕ) (hinv : PassInv g seen st) (hv : ¬ seen v)
    (hlt : v < st.graph.nodes.length) (hdeps : ∀ u, g.Edge u v → seen u) :
    PassInv g (fun w => w = v ∨ seen w)
      (processNode builder true configuration st v).1 := by
  obtain ⟨hedges, hident, ha, hb, hd, hc⟩ := hinv
  obtain ⟨failed, ht, _⟩ := processNode_treated builder true configuration st v
  have hch := treated_changes _ _ _ _ _ _ ht
  generalize (processNode builder true configuration st v).1 = st' at ht hch
  have hpend := (hb v hv).1
  have hclosed : ∀ u w, g.Edge u w → (w = v ∨ seen w) → seen u := by
    intro u w he hw
    rcases hw with hw | hw
    · exact hdeps u (hw ▸ he)
    · exact hd u w he hw
  refine ⟨hch.1.trans hedges, ?_, ?_, ?_, ?_, ?_⟩
  · intro w
    rw [identity_congr st.graph st'.graph hch.2.2.1 w]
    exact hident w
  · intro w hw
    rcases hw with hw | hw
    · subst hw
      cases failed with
      | true =>
        rw [(treated_failed _ _ _ _ _ ht).1]
        simp
      | false =>
        rw [treated_done _ _ _ _ _ ht hlt]
        simp
    · rw [hch.2.2.2.2.2.2.1 w (ha w hw)]
      exact ha w hw
  · intro w hw
    have hwv : ¬ w = v := fun h => hw (Or.inl h)
    have hws : ¬ seen w := fun h => hw (Or.inr h)
    obtain ⟨hs, _, hi⟩ := changes_outside _ _ _ hch w hwv
    exact ⟨by rw [hs]; exact (hb w hws).1, fun h => (hb w hws).2 (hi.1 h)⟩
  · intro u w he hw
    exact Or.inr (hclosed u w he hw)
  · intro u w he hw hfail
    have hu : seen u := hclosed u w he hw
    have huv : ¬ u = v := fun h => hv (h ▸ hu)
    obtain ⟨hsu, _, _⟩ := changes_outside _ _ _ hch u huv
    have hfu : st.status u = .Failed := by rw [← hsu]; exact hfail
    obtain ⟨_, ru, hru⟩ := (status_eq_failed_iff st u).1 hfu
    rcases hw with hw | hw
    · subst hw
      have hmem : u ∈ failedDependencies st w :=
        (mem_failedDependencies st u w).2 ⟨by rw [edge_congr g st.graph hedges]; exact he, hfu⟩
      have hne : failedDependencies st w ≠ [] := List.ne_nil_of_mem hmem
      cases ht with
      | skipped hs =>
        rcases hs with hs | ⟨_, hn⟩
        · rw [hpend] at hs
          cases hs
        · rw [List.getElem?_eq_none_iff] at hn
          omega
      | wasFailed hs =>
        rw [hpend] at hs
        cases hs
      | upstream node hs hn hf =>
        obtain ⟨hi1, hi2⟩ := upstreamReason_infix st (failedDependencies st w) u hmem
        have hrw : (st.fail w (upstreamReason st (failedDependencies st w))).reason w =
            some (upstreamReason st (failedDependencies st w)) := by
          rw [reason_fail, ((status_eq_pending_iff st w).1 hs).2]
          simp
        refine ⟨?_, (hb w hv).2, ru, _, hch.2.2.2.2.2.1 u ru hru, hrw, ?_, ?_⟩
        · rw [status_eq_failed_iff]
          exact ⟨((status_eq_pending_iff st w).1 hs).1, _, hrw⟩
        · unfold Graph.References
          rw [← hident u]
          exact hi1
        · rw [hru] at hi2
          exact hi2
      | cached node hs hn hf hc => exact absurd hf hne
      | unresolved node hs hn hf hc hu => exact absurd hf hne
      | built node o hs hn hf hc hu hb => exact absurd hf hne
      | buildFailed node reason hs hn hf hc hu hb => exact absurd hf hne
    · obtain ⟨hsw, hiw, ru', rv, hru', hrv, href, hinf⟩ := hc u w he hw hfu
      have hwv : ¬ w = v := fun h => hv (h ▸ hw)
      obtain ⟨hs', _, hi'⟩ := changes_outside _ _ _ hch w hwv
      exact ⟨by rw [hs']; exact hsw, fun h => hiw (hi'.1 h), ru', rv,
        hch.2.2.2.2.2.1 u ru' hru', hch.2.2.2.2.2.1 w rv hrv, href, hinf⟩

theorem processNode_tolerant (builder : Builder) (configuration : String) (st : State)
    (v : ℕ) : (processNode builder true configuration st v).2 = none := by
  obtain ⟨failed, _, h⟩ := processNode_treated builder true configuration st v
  rw [h]
  simp

theorem runPass_inv (builder : Builder) (configuration : String) (g : Graph) :
    ∀ (rest : List ℕ) (seen : ℕ → Prop) (st : State), PassInv g seen st →
      st.graph.nodes.length = g.nodes.length → rest.Nodup →
      (∀ v ∈ rest, ¬ seen v ∧ v < g.nodes.length) →
      (∀ v ∈ rest, ∀ u, g.Edge u v →
        seen u ∨ (u ∈ rest ∧ rest.indexOf u < rest.indexOf v)) →
      (runPass builder true configuration rest st).2 = none ∧
        PassInv g (fun w => w ∈ rest ∨ seen w)
          (runPass builder true configuration rest st).1 := by
  intro rest
  induction rest with
  | nil =>
    intro seen st hinv _ _ _ _
    refine ⟨rfl, ?_⟩
    have : (fun w => w ∈ ([] : List ℕ) ∨ seen w) = seen := by
      funext w
      simp
    rw [this]
    exact hinv
  | cons v rest ih =>
    intro seen st hinv hlen hnd hin hord
    obtain ⟨hvrest, hndrest⟩ := List.nodup_cons.1 hnd
    obtain ⟨hvs, hvlt⟩ := hin v (List.mem_cons_self _ _)
    have hdeps : ∀ u, g.Edge u v → seen u := by
      intro u he
      rcases hord v (List.mem_cons_self _ _) u he with h | ⟨_, h⟩
      · exact h
      · simp at h
    have hstep := passInv_step builder configuration g seen st v hinv hvs
      (by rw [hlen]; exact hvlt) hdeps
    have hch := processNode_changes builder true configuration st v
    have hnone := processNode_tolerant builder configuration st v
    have hrun : runPass builder true configuration (v :: rest) st =
        runPass builder true configuration rest
          (processNode builder true configuration st v).1 := by
      conv_lhs => unfold runPass
      cases hp : processNode builder true configuration st v with
      | mk st1 res =>
        rw [hp] at hnone
        simp only at hnone
        subst hnone
        rfl
    rw [hrun]
    generalize (processNode builder true configuration st v).1 = st1 at hstep hch
    have key := ih (fun w => w = v ∨ seen w) st1 hstep (hch.2.1.trans hlen) hndrest
      (by
        intro w hw
        obtain ⟨hws, hwlt⟩ := hin w (List.mem_cons_of_mem _ hw)
        refine ⟨?_, hwlt⟩
        rintro (h | h)
        · exact hvrest (h ▸ hw)
        · exact hws h)
      (by
        intro w hw u he
        have hwv : v ≠ w := fun h => hvrest (h ▸ hw)
        rcases hord w (List.mem_cons_of_mem _ hw) u he with h | ⟨hmem, hlt⟩
        · exact Or.inl (Or.inr h)
        · by_cases huv : v = u
          · exact Or.inl (Or.inl huv.symm)
          · right
            have hur : u ∈ rest := by
              rcases List.mem_cons.1 hmem with h | h
              · exact absurd h.symm huv
              · exact h
            refine ⟨hur, ?_⟩
            rw [List.indexOf_cons_ne _ huv, List.indexOf_cons_ne _ hwv] at hlt
            omega)
    refine ⟨key.1, ?_⟩
    have : (fun w => w ∈ v :: rest ∨ seen w) = (fun w => w ∈ rest ∨ (w = v ∨ seen w)) := by
      funext w
      simp only [List.mem_cons, eq_iff_iff]
      tauto
    rw [this]
    exact key.2

theorem tolerant_pass_inv (registry : Registry) (source : ConfigurationSource)
    (builder : Builder) (flags : Flags) (configuration : String) (cache : ObjectCache)
    (hcoe : flags.continueOnError_ = true) (hlazy : flags.lazyBuild_ = false)
    (hgraph : (buildDependencyGraph registry source configuration).2 = none) :
    (initialise registry source builder flags configuration cache).2 = none ∧
      PassInv (buildDependencyGraph registry source configuration).1
        (fun w => w < (buildDependencyGraph registry source configuration).1.nodes.length)
        (initialise registry source builder flags configuration cache).1 := by
  obtain ⟨order, _, _, hbo, htopo⟩ := buildDependencyGraph_ok registry source configuration hgraph
  have hfresh := buildDependencyGraph_fresh registry source configuration
  rw [initialise_eager registry source builder flags configuration cache hlazy hgraph, hcoe, hbo]
  generalize (buildDependencyGraph registry source configuration).1 = g at *
  have key := runPass_inv builder configuration g order (fun _ => False)
    (State.initial g cache) (passInv_initial g cache hfresh) rfl htopo.1
    (fun v hv => ⟨fun h => h, (htopo.2.1 v).1 hv⟩)
    (fun v _ u he => Or.inr ⟨(htopo.2.1 u).2 (hfresh.1 _ he).1, htopo.2.2 u v he⟩)
  refine ⟨by simp [key.1], ?_⟩
  have : (fun w => w < g.nodes.length) = (fun w => w ∈ order ∨ False) := by
    funext w
    simp only [or_false, eq_iff_iff]
    exact (htopo.2.1 w).symm
  rw [this]
  exact key.2

/-- C2: with `continueOnError = true`, after the eager pass over a dependency
graph that was built, for all nodes `A`, `B` such that `B` depends directly or
transitively on `A`: if `A` is `Failed`, then `B` is `Failed`, the ledger's
reason for `B` contains the identity of `A`, and `B` was never handed to
`buildNode`; the pass itself completes. -/
theorem failure_propagates (registry : Registry) (source : ConfigurationSource)
    (builder : Builder) (flags : Flags) (configuration : String) (cache : ObjectCache)
    (hcoe : flags.continueOnError_ = true) (hlazy : flags.lazyBuild_ = false)
    (hgraph : (buildDependencyGraph registry source configuration).2 = none) (A B : ℕ)
    (hdep : Relation.TransGen (buildDependencyGraph registry source configuration).1.Edge A B)
    (hfail : (initialise registry source builder flags configuration cache).1.status A =
      .Failed) :
    (initialise registry source builder flags configuration cache).2 = none ∧
    (initialise registry source builder flags configuration cache).1.status B = .Failed ∧
    B ∉ (initialise registry source builder flags configuration cache).1.invoked ∧
    ∃ r, (initialise registry source builder flags configuration cache).1.reason B = some r ∧
      (buildDependencyGraph registry source configuration).1.References r A := by
  obtain ⟨hnone, hinv⟩ := tolerant_pass_inv registry source builder flags configuration cache
    hcoe hlazy hgraph
  have hwf := (buildDependencyGraph_fresh registry source configuration).1
  generalize (buildDependencyGraph registry source configuration).1 = g at *
  generalize (initialise registry source builder flags configuration cache).1 = st at *
  refine ⟨hnone, ?_⟩
  obtain ⟨_, _, _, _, _, hc⟩ := hinv
  induction hdep with
  | single he =>
    obtain ⟨hs, hi, ru, rv, _, hrv, href, _⟩ := hc A _ he (hwf _ he).2 hfail
    exact ⟨hs, hi, rv, hrv, href⟩
  | tail _ he ih =>
    obtain ⟨hsc, _, rc, hrc, hrefc⟩ := ih
    obtain ⟨hs, hi, ru, rv, hru, hrv, _, hinf⟩ := hc _ _ he (hwf _ he).2 hsc
    rw [hrc] at hru
    simp only [Option.some.injEq] at hru
    subst hru
    exact ⟨hs, hi, rv, hrv, List.IsInfix.trans hrefc hinf⟩

/-- Witness of C2: in `A -> f(B)`, `B -> leaf`, `C -> leaf` the builder fails on `B`
(vertex 1); `A` (vertex 0) depends on it. -/
theorem failure_propagates_witness :
    (initialise exampleRegistry pairSource failOnB (Flags.construct (some true) none none none)
      "default" ObjectCache.empty).2 = none ∧
    (initialise exampleRegistry pairSource failOnB (Flags.construct (some true) none none none)
      "default" ObjectCache.empty).1.status 0 = .Failed ∧
    0 ∉ (initialise exampleRegistry pairSource failOnB (Flags.construct (some true) none none none)
      "default" ObjectCache.empty).1.invoked ∧
    ∃ r, (initialise exampleRegistry pairSource failOnB
        (Flags.construct (some true) none none none) "default" ObjectCache.empty).1.reason 0 =
        some r ∧
      (buildDependencyGraph exampleRegistry pairSource "default").1.References r 1 :=
  failure_propagates exampleRegistry pairSource failOnB
    (Flags.construct (some true) none none none) "default" ObjectCache.empty rfl rfl
    (by decide) 1 0
    (Relation.TransGen.single
      (show (buildDependencyGraph exampleRegistry pairSource "default").1.Edge 1 0 by decide))
    (by decide)

/-! ### Lazy construction -/

theorem ensureAll_changes (S : ℕ → Prop) (g : Graph) (ensure : State → ℕ → State × Option ℕ)
    (deps : List ℕ)
    (h : ∀ st u, u ∈ deps → st.graph.edges = g.edges → Changes S st (ensure st u).1) :
    ∀ (l : List ℕ), (∀ u ∈ l, u ∈ deps) → ∀ st : State, st.graph.edges = g.edges →
      Changes S st (ensureAll ensure l st).1 := by
  intro l
  induction l with
  | nil =>
    intro _ st _
    exact changes_refl _ _
  | cons u rest ih =>
    intro hl st hst
    have h1 := h st u (hl u (List.mem_cons_self _ _)) hst
    unfold ensureAll
    cases he : ensure st u with
    | mk st1 res =>
      rw [he] at h1
      cases res with
      | some f => exact h1
      | none =>
        exact changes_trans _ _ _ _ h1
          (ih (fun w hw => hl w (List.mem_cons_of_mem _ hw)) st1 (h1.1.trans hst))

theorem requireNode_changes (builder : Builder) (continueOnError : Bool)
    (configuration : String) (g : Graph) :
    ∀ (fuel : ℕ) (st : State) (v : ℕ), st.graph.edges = g.edges →
      Changes (fun w => Relation.ReflTransGen g.Edge w v) st
        (requireNode builder continueOnError configuration fuel st v).1 := by
  intro fuel
  induction fuel with
  | zero =>
    intro st v _
    exact changes_refl _ _
  | succ fuel ih =>
    intro st v hst
    have hself : ∀ st1 : State, Changes (fun w => Relation.ReflTransGen g.Edge w v) st1
        (processNode builder continueOnError configuration st1 v).1 := fun st1 =>
      changes_mono _ _ _ _ (fun w hw => by rw [hw])
        (processNode_changes builder continueOnError configuration st1 v)
    unfold requireNode
    cases hs : st.status v with
    | Built => exact hself st
    | Failed => exact hself st
    | Pending =>
      simp only
      have hdeps := ensureAll_changes (fun w => Relation.ReflTransGen g.Edge w v) g
        (requireNode builder continueOnError configuration fuel) (st.graph.dependencies v)
        (by
          intro st1 u hu hst1
          have he : g.Edge u v := by
            rw [← edge_congr g st.graph hst]
            exact (mem_dependencies st.graph u v).1 hu
          exact changes_mono _ _ _ _
            (fun w hw => Relation.ReflTransGen.tail hw he) (ih st1 u hst1))
        (st.graph.dependencies v) (fun _ h => h) st hst
      cases he : ensureAll (requireNode builder continueOnError configuration fuel)
          (st.graph.dependencies v) st with
      | mk st1 res =>
        rw [he] at hdeps
        cases res with
        | some f => exact hdeps
        | none => exact changes_trans _ _ _ _ hdeps (hself st1)

theorem initialise_lazy (registry : Registry) (source : ConfigurationSource)
    (builder : Builder) (flags : Flags) (configuration : String) (cache : ObjectCache)
    (hlazy : flags.lazyBuild_ = true) :
    (initialise registry source builder flags configuration cache).1 =
      State.initial (buildDependencyGraph registry source configuration).1 cache := by
  unfold initialise
  cases hb : buildDependencyGraph registry source configuration with
  | mk g e =>
    cases e with
    | some e => rfl
    | none => simp [hlazy]

theorem processNode_sound (builder : Builder) (continueOnError : Bool)
    (configuration : String) (g : Graph)
    (hok : ∀ c node cache, ∃ o, builder c node cache = .ok o) (st : State) (v : ℕ)
    (hs : Sound g st) (hv : v < g.nodes.length) :
    (processNode builder continueOnError configuration st v).2 = none ∧
      Sound g (processNode builder continueOnError configuration st v).1 ∧
      (processNode builder continueOnError configuration st v).1.isBuilt v = true := by
  obtain ⟨hl, he, hn, hu⟩ := hs
  cases hb : st.isBuilt v with
  | true =>
    have hst : st.status v = .Built := (status_eq_built_iff st v).2 hb
    have : processNode builder continueOnError configuration st v = (st, none) := by
      unfold processNode
      simp [hst]
    rw [this]
    exact ⟨rfl, ⟨hl, he, hn, hu⟩, hb⟩
  | false =>
    have hvlt : v < st.graph.nodes.length := by rw [hn]; exact hv
    obtain ⟨hnone, hled, hbuilt, _, _⟩ :=
      processNode_builds builder continueOnError configuration st v st.graph.nodes[v] hl
        (List.getElem?_eq_getElem hvlt) hb (hu v) (fun _ => hok configuration _ st.cache)
    have hch := processNode_changes builder continueOnError configuration st v
    refine ⟨hnone, ⟨hled, hch.1.trans he, hch.2.1.trans hn, ?_⟩, hbuilt⟩
    intro w
    rw [unresolvedReferences_congr st.graph _ hch.2.2.1 w]
    exact hu w

theorem ensureAll_sound (g : Graph) (ensure : State → ℕ → State × Option ℕ)
    (P : ℕ → Prop)
    (h : ∀ st u, P u → Sound g st →
      (ensure st u).2 = none ∧ Sound g (ensure st u).1 ∧ (ensure st u).1.isBuilt u = true ∧
        ∀ w, st.isBuilt w = true → (ensure st u).1.isBuilt w = true) :
    ∀ (l : List ℕ) (st : State), (∀ u ∈ l, P u) → Sound g st →
      (ensureAll ensure l st).2 = none ∧ Sound g (ensureAll ensure l st).1 ∧
        (∀ u ∈ l, (ensureAll ensure l st).1.isBuilt u = true) ∧
        ∀ w, st.isBuilt w = true → (ensureAll ensure l st).1.isBuilt w = true := by
  intro l
  induction l with
  | nil =>
    intro st _ hs
    refine ⟨rfl, hs, ?_, fun _ h => h⟩
    intro u hu
    cases hu
  | cons u rest ih =>
    intro st hl hs
    obtain ⟨h1, h2, h3, h4⟩ := h st u (hl u (List.mem_cons_self _ _)) hs
    unfold ensureAll
    cases he : ensure st u with
    | mk st1 res =>
      rw [he] at h1 h2 h3 h4
      simp only at h1 h2 h3 h4
      subst h1
      simp only
      obtain ⟨k1, k2, k3, k4⟩ := ih st1 (fun w hw => hl w (List.mem_cons_of_mem _ hw)) h2
      refine ⟨k1, k2, ?_, fun w hw => k4 w (h4 w hw)⟩
      intro w hw
      rcases List.mem_cons.1 hw with hw | hw
      · rw [hw]
        exact k4 u h3
      · exact k3 w hw

theorem requireNode_sound (builder : Builder) (continueOnError : Bool)
    (configuration : String) (g : Graph) (order : List ℕ) (htopo : g.IsTopological order)
    (hwf : g.WellFormed) (hok : ∀ c node cache, ∃ o, builder c node cache = .ok o) :
    ∀ (fuel : ℕ) (st : State) (v : ℕ), Sound g st → v < g.nodes.length →
      order.indexOf v < fuel →
      (requireNode builder continueOnError configuration fuel st v).2 = none ∧
        Sound g (requireNode builder continueOnError configuration fuel st v).1 ∧
        (requireNode builder continueOnError configuration fuel st v).1.isBuilt v = true ∧
        ∀ w, st.isBuilt w = true →
          (requireNode builder continueOnError configuration fuel st v).1.isBuilt w = true := by
  intro fuel
  induction fuel with
  | zero =>
    intro st v _ _ h
    omega
  | succ fuel ih =>
    intro st v hs hv hrank
    have hmono := (requireNode_changes builder continueOnError configuration g (fuel + 1) st v
      hs.2.1).2.2.2.2.1
    refine ⟨?_, ?_, ?_, hmono⟩
    all_goals
      unfold requireNode
      cases hst : st.status v with
      | Built =>
        simp only
        first
          | exact (processNode_sound builder continueOnError configuration g hok st v hs hv).1
          | exact (processNode_sound builder continueOnError configuration g hok st v hs hv).2.1
          | exact (processNode_sound builder continueOnError configuration g hok st v hs hv).2.2
      | Failed =>
        simp only
        first
          | exact (processNode_sound builder continueOnError configuration g hok st v hs hv).1
          | exact (processNode_sound builder continueOnError configuration g hok st v hs hv).2.1
          | exact (processNode_sound builder continueOnError configuration g hok st v hs hv).2.2
      | Pending =>
        simp only
        obtain ⟨k1, k2, _, _⟩ := ensureAll_sound g
          (requireNode builder continueOnError configuration fuel)
          (fun u => g.Edge u v)
          (by
            intro st1 u hu hs1
            have hlt := htopo.2.2 u v hu
            exact ih st1 u hs1 (hwf _ hu).1 (by omega))
          (st.graph.dependencies v) st
          (by
            intro u hu
            rw [← edge_congr g st.graph hs.2.1]
            exact (mem_dependencies st.graph u v).1 hu)
          hs
        cases he : ensureAll (requireNode builder continueOnError configuration fuel)
            (st.graph.dependencies v) st with
        | mk st1 res =>
          rw [he] at k1 k2
          simp only at k1 k2
          subst k1
          simp only
          first
            | exact (processNode_sound builder continueOnError configuration g hok st1 v k2 hv).1
            | exact (processNode_sound builder continueOnError configuration g hok st1 v k2 hv).2.1
            | exact (processNode_sound builder continueOnError configuration g hok st1 v k2 hv).2.2

theorem ensureAll_congr (g : Graph) (e1 e2 : State → ℕ → State × Option ℕ) (deps : List ℕ)
    (h : ∀ st u, u ∈ deps → st.graph.edges = g.edges → e1 st u = e2 st u)
    (hedges : ∀ st u, u ∈ deps → st.graph.edges = g.edges →
      (e2 st u).1.graph.edges = g.edges) :
    ∀ (l : List ℕ), (∀ u ∈ l, u ∈ deps) → ∀ st : State, st.graph.edges = g.edges →
      ensureAll e1 l st = ensureAll e2 l st := by
  intro l
  induction l with
  | nil =>
    intro _ st _
    rfl
  | cons u rest ih =>
    intro hl st hst
    have hu := hl u (List.mem_cons_self _ _)
    unfold ensureAll
    rw [h st u hu hst]
    have he := hedges st u hu hst
    cases hr : e2 st u with
    | mk st1 res =>
      rw [hr] at he
      cases res with
      | some f => rfl
      | none =>
        exact ih (fun w hw => hl w (List.mem_cons_of_mem _ hw)) st1 he

theorem requireNode_fuel (builder : Builder) (continueOnError : Bool)
    (configuration : String) (g : Graph) (order : List ℕ) (htopo : g.IsTopological order) :
    ∀ (fuel : ℕ) (st : State) (v k : ℕ), st.graph.edges = g.edges →
      order.indexOf v < fuel →
      requireNode builder continueOnError configuration (fuel + k) st v =
        requireNode builder continueOnError configuration fuel st v := by
  intro fuel
  induction fuel with
  | zero =>
    intro st v k _ h
    omega
  | succ fuel ih =>
    intro st v k hst hrank
    have hk : fuel + 1 + k = (fuel + k) + 1 := by omega
    rw [hk]
    conv_lhs => unfold requireNode
    conv_rhs => unfold requireNode
    cases hs : st.status v with
    | Built => rfl
    | Failed => rfl
    | Pending =>
      simp only
      rw [ensureAll_congr g (requireNode builder continueOnError configuration (fuel + k))
        (requireNode builder continueOnError configuration fuel) (st.graph.dependencies v)
        (by
          intro st1 u hu hst1
          have he : g.Edge u v := by
            rw [← edge_congr g st.graph hst]
            exact (mem_dependencies st.graph u v).1 hu
          have := htopo.2.2 u v he
          exact ih st1 u k hst1 (by omega))
        (by
          intro st1 u _ hst1
          exact (requireNode_changes builder continueOnError configuration g fuel st1 u
            hst1).1.trans hst1)
        (st.graph.dependencies v) (fun _ h => h) st hst]

/-- C5: in lazy-build mode nothing is built by `initialise`, and a call
`require(kind, X, configuration)` for a declared object `X` touches only the
transitive dependency closure of `X`: a node outside the closure keeps its
status, its flag `built` and its place in the record of invocations, so a node
that was unbuilt stays unbuilt; every node the call hands to `buildNode` or
marks built is `X` or a node `X` depends on, directly or transitively. On a
market initialised lazily whose graph was built, whose references resolve and
whose builders succeed, the call does build `X`; and over a graph that was
built, the recursion never needs more fuel than the number of vertices. -/
theorem lazy_require_closure (registry : Registry) (source : ConfigurationSource)
    (builder : Builder) (flags : Flags) (configuration : String) (cache : ObjectCache)
    (st : State) (o : MarketObject) (name : String) (v : ℕ) (hlazy : flags.lazyBuild_ = true)
    (hfind : findNode st.graph.nodes o name = some v) :
    ((initialise registry source builder flags configuration cache).1.invoked = [] ∧
      ∀ w, (initialise registry source builder flags configuration cache).1.status w =
        .Pending) ∧
    (∀ w, ¬ Relation.ReflTransGen st.graph.Edge w v →
      (require builder flags configuration st o name).1.status w = st.status w ∧
      (require builder flags configuration st o name).1.isBuilt w = st.isBuilt w ∧
      (w ∈ (require builder flags configuration st o name).1.invoked ↔ w ∈ st.invoked)) ∧
    (∀ w, w ∈ (require builder flags configuration st o name).1.invoked → w ∉ st.invoked →
      Relation.ReflTransGen st.graph.Edge w v) ∧
    (∀ w, (require builder flags configuration st o name).1.isBuilt w = true →
      st.isBuilt w = false → Relation.ReflTransGen st.graph.Edge w v) ∧
    (st = (initialise registry source builder flags configuration cache).1 →
      (buildDependencyGraph registry source configuration).2 = none →
      (∀ w, unresolvedReferences (buildDependencyGraph registry source configuration).1 w =
        []) →
      (∀ c node cache, ∃ h, builder c node cache = .ok h) →
      (require builder flags configuration st o name).2 = none ∧
        (require builder flags configuration st o name).1.isBuilt v = true) ∧
    (st.graph.edges = (buildDependencyGraph registry source configuration).1.edges →
      st.graph.nodes.length =
        (buildDependencyGraph registry source configuration).1.nodes.length →
      (buildDependencyGraph registry source configuration).2 = none →
      ∀ k, requireNode builder flags.continueOnError_ configuration
          (st.graph.nodes.length + k) st v =
        requireNode builder flags.continueOnError_ configuration st.graph.nodes.length
          st v) := by
  have hreq : (require builder flags configuration st o name).1 =
      (requireNode builder flags.continueOnError_ configuration st.graph.nodes.length
        st v).1 := by
    simp [require, hfind, hlazy]
  have hres : (require builder flags configuration st o name).2 =
      if (require builder flags configuration st o name).1.isBuilt v then none
      else some (.node v) := by
    simp [require, hfind, hlazy]
  have hch := requireNode_changes builder flags.continueOnError_ configuration st.graph
    st.graph.nodes.length st v rfl
  rw [hres, hreq]
  refine ⟨⟨?_, ?_⟩, fun w hw => changes_outside _ _ _ hch w hw, ?_, ?_, ?_, ?_⟩
  · rw [initialise_lazy registry source builder flags configuration cache hlazy]
    rfl
  · intro w
    rw [initialise_lazy registry source builder flags configuration cache hlazy]
    exact initial_pending _ cache (buildDependencyGraph_fresh registry source configuration) w
  · intro w hw hnot
    by_contra hout
    exact hnot ((changes_outside _ _ _ hch w hout).2.2.1 hw)
  · intro w hw hnot
    by_contra hout
    rw [(changes_outside _ _ _ hch w hout).2.1, hnot] at hw
    cases hw
  · intro hst hgraph hunres hok
    obtain ⟨order, _, _, _, htopo⟩ :=
      buildDependencyGraph_ok registry source configuration hgraph
    have hfresh := buildDependencyGraph_fresh registry source configuration
    rw [initialise_lazy registry source builder flags configuration cache hlazy] at hst
    have hg : st.graph = (buildDependencyGraph registry source configuration).1 := by
      rw [hst]
      rfl
    have hsound : Sound (buildDependencyGraph registry source configuration).1 st := by
      refine ⟨by rw [hst]; rfl, by rw [hg], by rw [hg], ?_⟩
      intro w
      rw [hg]
      exact hunres w
    have hv : v < (buildDependencyGraph registry source configuration).1.nodes.length := by
      rw [← hg]
      exact findNode_lt _ _ _ _ hfind
    have hrank : order.indexOf v < st.graph.nodes.length := by
      have h1 := List.indexOf_lt_length.2 ((htopo.2.1 v).2 hv)
      have h2 : order.length = (buildDependencyGraph registry source configuration).1.nodes.length := by
        have hle := length_le_of_nodup_lt order _ htopo.1 (fun w hw => (htopo.2.1 w).1 hw)
        have hsub : List.range (buildDependencyGraph registry source configuration).1.nodes.length ⊆
            order := fun w hw => (htopo.2.1 w).2 (List.mem_range.1 hw)
        have hge := (List.subperm_of_subset (List.nodup_range _) hsub).length_le
        simp only [List.length_range] at hge
        omega
      rw [hg]
      omega
    obtain ⟨_, _, hb, _⟩ := requireNode_sound builder flags.continueOnError_ configuration
      (buildDependencyGraph registry source configuration).1 order htopo hfresh.1 hok
      st.graph.nodes.length st v hsound hv hrank
    rw [hb]
    exact ⟨rfl, rfl⟩
  · intro hedges hlen hgraph k
    obtain ⟨order, _, _, _, htopo⟩ :=
      buildDependencyGraph_ok registry source configuration hgraph
    apply requireNode_fuel builder flags.continueOnError_ configuration
      (buildDependencyGraph registry source configuration).1 order htopo _ st v k hedges
    have hv : v < (buildDependencyGraph registry source configuration).1.nodes.length := by
      rw [← hlen]
      exact findNode_lt _ _ _ _ hfind
    have h1 := List.indexOf_lt_length.2 ((htopo.2.1 v).2 hv)
    have hle := length_le_of_nodup_lt order _ htopo.1 (fun w hw => (htopo.2.1 w).1 hw)
    omega

/-- Witness of C5: in `A -> f(B)`, `B -> leaf`, `C -> leaf`, built lazily, requiring
`A` hands `B` and `A` to `buildNode`, both in the closure of `A`, and leaves `C`
`Pending`. -/
theorem lazy_require_closure_witness :
    (require okBuilder (Flags.construct none none (some true) none) "default"
      (initialise exampleRegistry pairSource okBuilder (Flags.construct none none (some true) none)
        "default" ObjectCache.empty).1 .DiscountCurve "A").1.invoked = [1, 0] ∧
    (require okBuilder (Flags.construct none none (some true) none) "default"
      (initialise exampleRegistry pairSource okBuilder (Flags.construct none none (some true) none)
        "default" ObjectCache.empty).1 .DiscountCurve "A").1.status 2 = .Pending ∧
    Relation.ReflTransGen
      (initialise exampleRegistry pairSource okBuilder (Flags.construct none none (some true) none)
        "default" ObjectCache.empty).1.graph.Edge 1 0 :=
  ⟨by decide, by decide,
    (lazy_require_closure exampleRegistry pairSource okBuilder
      (Flags.construct none none (some true) none) "default" ObjectCache.empty
      (initialise exampleRegistry pairSource okBuilder (Flags.construct none none (some true) none)
        "default" ObjectCache.empty).1 .DiscountCurve "A" 0 rfl (by decide)).2.2.1 1
      (by decide) (by decide)⟩

/-! ### The status of a node -/

theorem processNode_failed_node (builder : Builder) (continueOnError : Bool)
    (configuration : String) (st : State) (v : ℕ)
    (h : (processNode builder continueOnError configuration st v).1.status v = .Failed) :
    (processNode builder continueOnError configuration st v).1.graph = st.graph := by
  obtain ⟨failed, ht, _⟩ := processNode_treated builder continueOnError configuration st v
  generalize (processNode builder continueOnError configuration st v).1 = st' at h ht
  cases ht with
  | skipped _ => rfl
  | wasFailed _ => rfl
  | upstream node hs hn hf => rfl
  | cached node hs hn hf hc =>
    have hv : v < st.graph.nodes.length := (List.getElem?_eq_some_iff.1 hn).1
    rw [status_eq_failed_iff] at h
    simp [State.isBuilt, hv] at h
  | unresolved node hs hn hf hc hu => rfl
  | built node o hs hn hf hc hu hb =>
    have hv : v < st.graph.nodes.length := (List.getElem?_eq_some_iff.1 hn).1
    rw [status_eq_failed_iff] at h
    simp [State.isBuilt, hv] at h
  | buildFailed node reason hs hn hf hc hu hb => rfl

/-- Counterexample to C6 as stated: a `Node` records its state in the single
flag `built`, and no reading of that flag yields the three statuses `Pending`,
`Built` and `Failed`; in the pass over `A -> f(B)`, `B -> leaf`, `C -> leaf` in
which `B` fails, the node of `B` after the pass is the node it was before,
although its status went from `Pending` to `Failed`. -/
theorem node_status_counterexample :
    (¬ ∃ status : Node → Status,
      (∀ a b : Node, a.built = b.built → status a = status b) ∧ Function.Surjective status) ∧
    (initialise exampleRegistry pairSource failOnB (Flags.construct (some true) none none none)
      "default" ObjectCache.empty).1.status 1 = .Failed ∧
    (State.initial (buildDependencyGraph exampleRegistry pairSource "default").1
      ObjectCache.empty).status 1 = .Pending ∧
    (initialise exampleRegistry pairSource failOnB (Flags.construct (some true) none none none)
      "default" ObjectCache.empty).1.graph.nodes[1]? =
      (buildDependencyGraph exampleRegistry pairSource "default").1.nodes[1]? := by
  refine ⟨?_, by decide, by decide, by decide⟩
  rintro ⟨status, hflag, hsurj⟩
  obtain ⟨a, ha⟩ := hsurj .Pending
  obtain ⟨b, hb⟩ := hsurj .Built
  obtain ⟨c, hc⟩ := hsurj .Failed
  have hab : a.built ≠ b.built := fun h => by
    have := hflag a b h
    rw [ha, hb] at this
    cases this
  have hac : a.built ≠ c.built := fun h => by
    have := hflag a c h
    rw [ha, hc] at this
    cases this
  have hbc : b.built ≠ c.built := fun h => by
    have := hflag b c h
    rw [hb, hc] at this
    cases this
  revert hab hac hbc
  cases a.built <;> cases b.built <;> cases c.built <;> simp

/-- C6, as the code has it: a node records the boolean flag `built`, which is
false when graph construction leaves the node; the status read from the flag
and the ledger is `Built` exactly when the flag is set, `Failed` exactly when it
is not set and the ledger has a reason for the node, `Pending` otherwise, and it
starts as `Pending`; a node that ends `Failed` keeps the node record it had, the
failure being recorded in the ledger only; and a node in a terminal status
(`Built` or `Failed`) keeps its status through a node's treatment, through an
eager pass and through a lazy query. -/
theorem node_status_from_flag_and_ledger (registry : Registry) (source : ConfigurationSource)
    (builder : Builder) (continueOnError : Bool) (configuration : String)
    (cache : ObjectCache) :
    (∀ node ∈ (buildDependencyGraph registry source configuration).1.nodes,
      node.built = false) ∧
    (∀ v, (State.initial (buildDependencyGraph registry source configuration).1
      cache).status v = .Pending) ∧
    (∀ (st : State) (v : ℕ),
      (st.status v = .Built ↔ st.isBuilt v = true) ∧
      (st.status v = .Failed ↔ st.isBuilt v = false ∧ ∃ r, st.reason v = some r) ∧
      (st.status v = .Pending ↔ st.isBuilt v = false ∧ st.reason v = none)) ∧
    (∀ (st : State) (v : ℕ),
      (processNode builder continueOnError configuration st v).1.status v = .Failed →
      (processNode builder continueOnError configuration st v).1.graph = st.graph) ∧
    (∀ (st : State) (v w : ℕ), st.status w ≠ .Pending →
      (processNode builder continueOnError configuration st v).1.status w = st.status w) ∧
    (∀ (st : State) (order : List ℕ) (w : ℕ), st.status w ≠ .Pending →
      (runPass builder continueOnError configuration order st).1.status w = st.status w) ∧
    (∀ (st : State) (fuel v w : ℕ), st.status w ≠ .Pending →
      (requireNode builder continueOnError configuration fuel st v).1.status w =
        st.status w) := by
  have hfresh := buildDependencyGraph_fresh registry source configuration
  refine ⟨hfresh.2, fun v => initial_pending _ cache hfresh v, ?_, ?_, ?_, ?_, ?_⟩
  · intro st v
    exact ⟨status_eq_built_iff st v, status_eq_failed_iff st v, status_eq_pending_iff st v⟩
  · intro st v h
    exact processNode_failed_node builder continueOnError configuration st v h
  · intro st v w h
    exact (processNode_changes builder continueOnError configuration st v).2.2.2.2.2.2.1 w h
  · intro st order w h
    exact (runPass_changes builder continueOnError configuration order st).2.2.2.2.2.2.1 w h
  · intro st fuel v w h
    exact (requireNode_changes builder continueOnError configuration st.graph fuel st v
      rfl).2.2.2.2.2.2.1 w h

/-- Witness of C6: in `A -> f(B)`, `B -> leaf`, `C -> leaf` with a builder failing
on `B`, the failed node `B` keeps its status when `A` is treated after it. -/
theorem node_status_from_flag_and_ledger_witness :
    (processNode failOnB true "default"
      (processNode failOnB true "default"
        (State.initial (buildDependencyGraph exampleRegistry pairSource "default").1
          ObjectCache.empty) 1).1 0).1.status 1 = .Failed :=
  ((node_status_from_flag_and_ledger exampleRegistry pairSource failOnB true "default"
    ObjectCache.empty).2.2.2.2.1
    (processNode failOnB true "default"
      (State.initial (buildDependencyGraph exampleRegistry pairSource "default").1
        ObjectCache.empty) 1).1 0 1 (by decide)).trans (by decide)

/-- C7: a `TodaysMarket` constructed without the optional flags has
`preserveQuoteLinkage_ = false`, `lazyBuild_ = false` and
`continueOnError_ = false` (and `loadFixings_ = true`); each of the three is
false whenever its own argument is left out, and `preserveQuoteLinkage_` is
true exactly when the caller passes `true` for it. -/
theorem construct_default_flags :
    Flags.construct none none none none = ⟨false, true, false, false⟩ ∧
    (∀ f l p, (Flags.construct none f l p).continueOnError_ = false) ∧
    (∀ c f p, (Flags.construct c f none p).lazyBuild_ = false) ∧
    (∀ c f l, (Flags.construct c f l none).preserveQuoteLinkage_ = false) ∧
    (∀ c f l p, (Flags.construct c f l p).preserveQuoteLinkage_ = true ↔ p = some true) := by
  refine ⟨rfl, fun _ _ _ => rfl, fun _ _ _ => rfl, fun _ _ _ => rfl, ?_⟩
  intro c f l p
  cases p with
  | none => simp [Flags.construct]
  | some b => simp [Flags.construct]

end TodaysMarket

/-! ## A composite of one loader -/

namespace CompositeLoader

/-- C13 (as stated) fails: a composite of the one loader `nullDatumLoader`, whose
`get` returns a null datum, is constructed, and its `get` fails where the `get`
of that loader returns. -/
theorem get_not_delegated_counterexample :
    create (some nullDatumLoader) none = .ok ⟨some nullDatumLoader, none⟩ ∧
    nullDatumLoader.get "CDS/CREDIT_SPREAD/CDS1/5Y" 0 = .ok none ∧
    get (fun d => toString d) ⟨some nullDatumLoader, none⟩ "CDS/CREDIT_SPREAD/CDS1/5Y" 0 =
      qlFail "No MarketDatum for name CDS/CREDIT_SPREAD/CDS1/5Y and date 0" ∧
    get (fun d => toString d) ⟨some nullDatumLoader, none⟩ "CDS/CREDIT_SPREAD/CDS1/5Y" 0 ≠
      nullDatumLoader.get "CDS/CREDIT_SPREAD/CDS1/5Y" 0 := by
  refine ⟨rfl, rfl, ?_, ?_⟩
  · simp only [get, hasIn, nullDatumLoader, Bool.false_eq_true, if_false]
    rfl
  · simp [get, hasIn, nullDatumLoader, qlFail]

/-- C13 (as amended): the constructor fails, with
`CompositeLoader(): at least one loader must be not null`, if and only if both
loaders are null. With exactly one loader `l` not null it succeeds, and
`loadQuotes`, `loadFixings`, `loadDividends` and `has` are those of `l`, while
`get(name, d)` is `l.get(name, d)` when `l.has(name, d)` and fails with
`No MarketDatum for name <name> and date <d>` otherwise, whatever `l.get`
does there. -/
theorem create_with_one_loader (showDate : Date → String) (a b : Option Loader) :
    (create a b = qlFail "CompositeLoader(): at least one loader must be not null" ↔
      a = none ∧ b = none) ∧
    ((∃ f, create a b = .error f) ↔ a = none ∧ b = none) ∧
    (∀ l : Loader, (a = some l ∧ b = none) ∨ (a = none ∧ b = some l) →
      create a b = .ok ⟨a, b⟩ ∧
      loadQuotes ⟨a, b⟩ = l.loadQuotes ∧
      loadFixings ⟨a, b⟩ = l.loadFixings ∧
      loadDividends ⟨a, b⟩ = l.loadDividends ∧
      has ⟨a, b⟩ = l.has ∧
      ∀ name d, get showDate ⟨a, b⟩ name d =
        if l.has name d then l.get name d
        else qlFail ("No MarketDatum for name " ++ name ++ " and date " ++ showDate d)) := by
  refine ⟨?_, ?_, ?_⟩
  · cases a <;> cases b <;> simp [create, qlFail]
  · cases a <;> cases b <;> simp [create, qlFail]
  · rintro l (⟨rfl, rfl⟩ | ⟨rfl, rfl⟩)
    · refine ⟨rfl, ?_, rfl, rfl, ?_, ?_⟩
      · funext d
        simp [loadQuotes]
      · funext name d
        simp [has, hasIn]
      · intro name d
        by_cases h : l.has name d = true <;> simp [get, hasIn, h]
    · refine ⟨rfl, ?_, rfl, rfl, ?_, ?_⟩
      · funext d
        simp [loadQuotes]
      · funext name d
        simp [has, hasIn]
      · intro name d
        by_cases h : l.has name d = true <;> simp [get, hasIn, h]

/-- Witness of C13: the composite of the loader holding the recovery rate datum
and a null loader. -/
theorem create_with_one_loader_witness :
    create (some (listLoader [recoveryDatum])) none =
        .ok ⟨some (listLoader [recoveryDatum]), none⟩ ∧
      loadQuotes ⟨some (listLoader [recoveryDatum]), none⟩ =
        (listLoader [recoveryDatum]).loadQuotes ∧
      loadFixings ⟨some (listLoader [recoveryDatum]), none⟩ =
        (listLoader [recoveryDatum]).loadFixings ∧
      loadDividends ⟨some (listLoader [recoveryDatum]), none⟩ =
        (listLoader [recoveryDatum]).loadDividends ∧
      has ⟨some (listLoader [recoveryDatum]), none⟩ = (listLoader [recoveryDatum]).has ∧
      ∀ name d, get (fun d => toString d) ⟨some (listLoader [recoveryDatum]), none⟩ name d =
        if (listLoader [recoveryDatum]).has name d then (listLoader [recoveryDatum]).get name d
        else qlFail ("No MarketDatum for name " ++ name ++ " and date " ++ toString d) :=
  (create_with_one_loader (fun d => toString d) (some (listLoader [recoveryDatum])) none).2.2
    (listLoader [recoveryDatum]) (Or.inl ⟨rfl, rfl⟩)

end CompositeLoader

/-! ## The keys of the object cache -/

namespace TodaysMarket

/-- C11: in the object cache a swap index is keyed by configuration name and
swap index name, every other kind by its curve spec name alone. Storing a
swap index under the name of `n` for configuration `c1` leaves the swap
indices of every other configuration `c2` and the maps of the other kinds
unchanged, so that storing another index for `c2` makes the same name hold
different swap indices in the two configurations; an object of another kind
stored under `c1` is the entry of its curve spec name in the map of its kind,
under every configuration and for every node of that map and key. -/
theorem swap_index_cache_per_configuration (c : ObjectCache) (c1 c2 : String) (n : Node)
    (o : ObjectHandle) :
    (n.obj = .SwapIndexCurve → c1 ≠ c2 →
      (∀ name, (c.store c1 n o).requiredSwapIndices_ c2 name = c.requiredSwapIndices_ c2 name) ∧
      (c.store c1 n o).lookup c2 n = c.lookup c2 n ∧
      (c.store c1 n o).required = c.required ∧
      (c.store c1 n o).requiredSwapIndices_ c1 n.name = some o ∧
      ∀ o2, ((c.store c1 n o).store c2 n o2).lookup c1 n = some o ∧
        ((c.store c1 n o).store c2 n o2).lookup c2 n = some o2) ∧
    (n.obj ≠ .SwapIndexCurve →
      ∃ m, cacheMap n.obj = some m ∧
      (c.store c1 n o).requiredSwapIndices_ = c.requiredSwapIndices_ ∧
      (c.store c1 n o).required m n.cacheKey = some o ∧
      ∀ n2 : Node, cacheMap n2.obj = some m → n2.cacheKey = n.cacheKey →
        (c.store c1 n o).lookup c2 n2 = some o) := by
  constructor
  · intro hn hc
    have hm : cacheMap n.obj = none := by rw [hn]; rfl
    have hc2 : ¬ c2 = c1 := fun h => hc h.symm
    refine ⟨?_, ?_, ?_, ?_, ?_⟩
    · intro name
      simp [ObjectCache.store, hm, hc2]
    · simp [ObjectCache.store, ObjectCache.lookup, hm, hc2]
    · simp [ObjectCache.store, hm]
    · simp [ObjectCache.store, hm]
    · intro o2
      simp [ObjectCache.store, ObjectCache.lookup, hm, hc]
  · intro hn
    cases hm : cacheMap n.obj with
    | none =>
      exfalso
      revert hm hn
      cases n.obj <;> simp [cacheMap]
    | some m =>
      refine ⟨m, rfl, ?_, ?_, ?_⟩
      · simp [ObjectCache.store, hm]
      · simp [ObjectCache.store, hm]
      · intro n2 hobj hkey
        simp [ObjectCache.store, ObjectCache.lookup, hm, hobj, hkey]

/-- Witness of C11: a swap index `EUR-CMS-2Y` stored for the configurations
`default` and `collateral_inccy`, and a discount curve stored for `default`. -/
theorem swap_index_cache_per_configuration_witness :
    ((∀ name, (ObjectCache.empty.store "default"
          ⟨.SwapIndexCurve, "EUR-CMS-2Y", "EUR-EONIA", none, false⟩ 7).requiredSwapIndices_
        "collateral_inccy" name = ObjectCache.empty.requiredSwapIndices_ "collateral_inccy" name) ∧
      (ObjectCache.empty.store "default"
          ⟨.SwapIndexCurve, "EUR-CMS-2Y", "EUR-EONIA", none, false⟩ 7).lookup "collateral_inccy"
        ⟨.SwapIndexCurve, "EUR-CMS-2Y", "EUR-EONIA", none, false⟩ =
        ObjectCache.empty.lookup "collateral_inccy"
          ⟨.SwapIndexCurve, "EUR-CMS-2Y", "EUR-EONIA", none, false⟩ ∧
      (ObjectCache.empty.store "default"
          ⟨.SwapIndexCurve, "EUR-CMS-2Y", "EUR-EONIA", none, false⟩ 7).required =
        ObjectCache.empty.required ∧
      (ObjectCache.empty.store "default"
          ⟨.SwapIndexCurve, "EUR-CMS-2Y", "EUR-EONIA", none, false⟩ 7).requiredSwapIndices_
        "default" "EUR-CMS-2Y" = some 7 ∧
      ∀ o2, (((ObjectCache.empty.store "default"
            ⟨.SwapIndexCurve, "EUR-CMS-2Y", "EUR-EONIA", none, false⟩ 7).store "collateral_inccy"
            ⟨.SwapIndexCurve, "EUR-CMS-2Y", "EUR-EONIA", none, false⟩ o2).lookup "default"
          ⟨.SwapIndexCurve, "EUR-CMS-2Y", "EUR-EONIA", none, false⟩ = some 7) ∧
        (((ObjectCache.empty.store "default"
            ⟨.SwapIndexCurve, "EUR-CMS-2Y", "EUR-EONIA", none, false⟩ 7).store "collateral_inccy"
            ⟨.SwapIndexCurve, "EUR-CMS-2Y", "EUR-EONIA", none, false⟩ o2).lookup "collateral_inccy"
          ⟨.SwapIndexCurve, "EUR-CMS-2Y", "EUR-EONIA", none, false⟩ = some o2)) ∧
    ((ObjectCache.empty.store "default"
        ⟨.DiscountCurve, "EUR", "Yield/EUR/EUR-EONIA", some ⟨"Yield/EUR/EUR-EONIA", []⟩, false⟩
        3).requiredSwapIndices_ = ObjectCache.empty.requiredSwapIndices_ ∧
      (ObjectCache.empty.store "default"
        ⟨.DiscountCurve, "EUR", "Yield/EUR/EUR-EONIA", some ⟨"Yield/EUR/EUR-EONIA", []⟩, false⟩
        3).required .requiredYieldCurves_ "Yield/EUR/EUR-EONIA" = some 3 ∧
      ∀ n2 : Node, cacheMap n2.obj = some .requiredYieldCurves_ →
        n2.cacheKey = "Yield/EUR/EUR-EONIA" →
        (ObjectCache.empty.store "default"
          ⟨.DiscountCurve, "EUR", "Yield/EUR/EUR-EONIA", some ⟨"Yield/EUR/EUR-EONIA", []⟩, false⟩
          3).lookup "collateral_inccy" n2 = some 3) := by
  refine ⟨(swap_index_cache_per_configuration ObjectCache.empty "default" "collateral_inccy"
      ⟨.SwapIndexCurve, "EUR-CMS-2Y", "EUR-EONIA", none, false⟩ 7).1 rfl (by decide), ?_⟩
  obtain ⟨m, hm, h⟩ := (swap_index_cache_per_configuration ObjectCache.empty "default"
    "collateral_inccy"
    ⟨.DiscountCurve, "EUR", "Yield/EUR/EUR-EONIA", some ⟨"Yield/EUR/EUR-EONIA", []⟩, false⟩
    3).2 (by decide)
  cases hm
  exact h

end TodaysMarket

/-! ## The recovery rate of a default curve -/

namespace DefaultCurve

theorem finishCurve_recovery (q : QuantLibEnv) (config : DefaultCurveConfig)
    (curve : DefaultTermStructure) (r : QuantLib.Real) (c : DefaultCurve)
    (h : finishCurve q config curve r = .ok c) : c.recoveryRate_ = r := by
  unfold finishCurve at h
  simp only [bind, Except.bind, pure, Except.pure] at h
  repeat' split at h
  all_goals simp_all
  all_goals (cases h; rfl)

theorem buildCdsCurve_recovery (q : QuantLibEnv) (io : Streams) (r : QuantLib.Real)
    (config : DefaultCurveConfig) (asof : Date) (spec : DefaultCurveSpec) (loader : Loader)
    (conventions : Conventions) (yieldCurves : List (String × YieldCurve)) (c : DefaultCurve)
    (h : buildCdsCurve q io r config asof spec loader conventions yieldCurves = .ok c) :
    r ≠ nullReal ∧ c.recoveryRate_ = r := by
  unfold buildCdsCurve at h
  simp only [bind, Except.bind, qlRequire, qlFail] at h
  repeat' split at h
  all_goals first
    | cases h
    | exact ⟨by simp_all, finishCurve_recovery _ _ _ _ _ h⟩

theorem buildHazardRateCurve_recovery (q : QuantLibEnv) (io : Streams) (r : QuantLib.Real)
    (config : DefaultCurveConfig) (asof : Date) (loader : Loader)
    (conventions : Conventions) (c : DefaultCurve)
    (h : buildHazardRateCurve q io r config asof loader conventions = .ok c) :
    c.recoveryRate_ = if r = nullReal then 0 else r := by
  unfold buildHazardRateCurve at h
  simp only [bind, Except.bind, qlRequire, qlFail, pure, Except.pure] at h
  repeat' split at h
  all_goals first
    | (cases h; done)
    | (simp only [Except.ok.injEq] at h
       subst h
       have hr := finishCurve_recovery _ _ _ _ _ (by assumption)
       simp_all)

theorem buildBenchmarkCurve_recovery (q : QuantLibEnv) (r : QuantLib.Real)
    (config : DefaultCurveConfig) (asof : Date) (spec : DefaultCurveSpec)
    (yieldCurves : List (String × YieldCurve)) (c : DefaultCurve)
    (h : buildBenchmarkCurve q r config asof spec yieldCurves = .ok c) :
    r = nullReal ∧ c.recoveryRate_ = 0 := by
  unfold buildBenchmarkCurve at h
  simp only [bind, Except.bind, qlRequire, qlFail] at h
  repeat' split at h
  all_goals first
    | cases h
    | exact ⟨by simp_all, finishCurve_recovery _ _ _ _ _ h⟩

theorem loadRecoveryRate_ok (config : DefaultCurveConfig) (asof : Date) (loader : Loader)
    (r : QuantLib.Real) (h : loadRecoveryRate config asof loader = .ok r) :
    (config.recoveryRateQuote = "" ∧ r = nullReal) ∨
    (config.recoveryRateQuote ≠ "" ∧ loader.has config.recoveryRateQuote asof = true ∧
      ∃ md, loader.get config.recoveryRateQuote asof = .ok (some md) ∧ r = md.value) := by
  unfold loadRecoveryRate at h
  by_cases hq : config.recoveryRateQuote = ""
  · left
    simp [hq, pure, Except.pure] at h
    exact ⟨hq, h.symm⟩
  · right
    simp only [hq, ne_eq, not_false_eq_true, if_true, bind, Except.bind, qlRequire, qlFail,
      pure, Except.pure] at h
    cases hh : loader.has config.recoveryRateQuote asof with
    | false => simp [hh] at h
    | true =>
      simp only [hh, if_true] at h
      cases hg : loader.get config.recoveryRateQuote asof with
      | error f => simp [hg] at h
      | ok omd =>
        cases omd with
        | none => simp [hg] at h
        | some md =>
          simp only [hg, Except.ok.injEq] at h
          exact ⟨hq, rfl, md, rfl, h.symm⟩

/-- C12 (as stated) fails: the Benchmark configuration `BM1` configures the
recovery rate quote `RECOVERY_RATE/BM1`, the loader has it with the value
`Null<Real>()`, and the build succeeds. -/
theorem recovery_rate_sentinel_counterexample :
    benchmarkConfigWithRecovery.type = .Benchmark ∧
    benchmarkConfigWithRecovery.recoveryRateQuote ≠ "" ∧
    (listLoader [sentinelDatum]).has benchmarkConfigWithRecovery.recoveryRateQuote 0 = true ∧
    (singleConfig benchmarkConfigWithRecovery).defaultCurveConfig "BM1" =
      .ok benchmarkConfigWithRecovery ∧
    construct plainEnv plainStreams 0 ⟨"Default/USD/BM1", "BM1"⟩ (listLoader [sentinelDatum])
        (singleConfig benchmarkConfigWithRecovery) cdsConventions
        [("USD-LIBOR", flatCurve), ("USD-GOVT", flatCurve)] =
      .ok ⟨some (.survivalProbabilityCurve [0, 1] [1, 1] "A365" true), 0⟩ := by
  refine ⟨rfl, by decide, rfl, rfl, ?_⟩
  rw [construct_ok_iff, constructBody_of_recovery_ok _ _ _ _ _ _ _ _ benchmarkConfigWithRecovery
    nullReal rfl (loadRecoveryRate_of_datum _ _ _ sentinelDatum (by decide) rfl rfl)]
  simp [buildRequestedType, buildBenchmarkCurve, benchmarkConfigWithRecovery, benchmarkConfig,
    cdsConfig, findCurve, qlRequire, bind, Except.bind, plainEnv, plainCalendar, flatCurve,
    impliedSurvival, finishCurve, pure, Except.pure, DefaultTermStructure.enableExtrapolation,
    List.mapM, List.mapM.loop]

/-- C12 (as amended): when the configuration of the curve is found, the
recovery rate of a built `DefaultCurve` follows from the type and from the
loaded quote value, a loaded value equal to `Null<Real>()` counting as no
value. A SpreadCDS curve has a configured quote whose loaded value is not
`Null<Real>()` and is its recovery rate, and the build fails when no quote is
configured. A Benchmark curve has recovery rate 0, with no quote configured or
a loaded value equal to `Null<Real>()`, and the build fails when a quote is
loaded with another value. A HazardRate curve has recovery rate 0 when no quote
is configured, and otherwise the loaded value, or 0 when that is `Null<Real>()`.
When a quote is configured and the loader does not have it on the as-of date,
the build fails for every type. -/
theorem recovery_rate_by_type (q : QuantLibEnv) (io : Streams) (asof : Date)
    (spec : DefaultCurveSpec) (loader : Loader) (curveConfigs : CurveConfigurations)
    (conventions : Conventions) (yieldCurves : List (String × YieldCurve))
    (config : DefaultCurveConfig)
    (hcfg : curveConfigs.defaultCurveConfig spec.curveConfigID = .ok config) :
    (∀ c, construct q io asof spec loader curveConfigs conventions yieldCurves = .ok c →
      (config.type = .SpreadCDS → config.recoveryRateQuote ≠ "" ∧
        ∃ md, loader.get config.recoveryRateQuote asof = .ok (some md) ∧
          md.value ≠ nullReal ∧ c.recoveryRate_ = md.value) ∧
      (config.type = .Benchmark → c.recoveryRate_ = 0 ∧
        (config.recoveryRateQuote = "" ∨
          ∃ md, loader.get config.recoveryRateQuote asof = .ok (some md) ∧
            md.value = nullReal)) ∧
      (config.type = .HazardRate →
        (config.recoveryRateQuote = "" → c.recoveryRate_ = 0) ∧
        (config.recoveryRateQuote ≠ "" →
          ∃ md, loader.get config.recoveryRateQuote asof = .ok (some md) ∧
            c.recoveryRate_ = if md.value = nullReal then 0 else md.value))) ∧
    (config.type = .SpreadCDS → config.recoveryRateQuote = "" →
      construct q io asof spec loader curveConfigs conventions yieldCurves =
        qlFail ("default curve building failed for " ++ spec.curveConfigID ++ ": " ++
          "DefaultCurve: recovery rate needed to build SpreadCDS curve")) ∧
    (config.type = .Benchmark → ∀ md, config.recoveryRateQuote ≠ "" →
      loader.has config.recoveryRateQuote asof = true →
      loader.get config.recoveryRateQuote asof = .ok (some md) → md.value ≠ nullReal →
      construct q io asof spec loader curveConfigs conventions yieldCurves =
        qlFail ("default curve building failed for " ++ spec.curveConfigID ++ ": " ++
          ("DefaultCurve: recovery rate must not be given " ++
            "for benchmark implied curve type, it is assumed to be 0.0"))) ∧
    (config.recoveryRateQuote ≠ "" → loader.has config.recoveryRateQuote asof = false →
      construct q io asof spec loader curveConfigs conventions yieldCurves =
        qlFail ("default curve building failed for " ++ spec.curveConfigID ++ ": " ++
          ("There is no market data for the requested recovery rate " ++
            config.recoveryRateQuote))) := by
  have head : ∀ what, "default curve building failed for " ++ spec.curveConfigID ++ ": " ++ what =
      failureHead spec ++ what := fun what => by simp [failureHead]
  refine ⟨?_, ?_, ?_, ?_⟩
  · intro c hc
    rw [construct_ok_iff] at hc
    cases hr : loadRecoveryRate config asof loader with
    | error f =>
      rw [constructBody_of_recovery_error _ _ _ _ _ _ _ _ config f hcfg hr] at hc
      cases hc
    | ok r =>
      rw [constructBody_of_recovery_ok _ _ _ _ _ _ _ _ config r hcfg hr] at hc
      have hload := loadRecoveryRate_ok config asof loader r hr
      refine ⟨fun ht => ?_, fun ht => ?_, fun ht => ?_⟩
      · simp only [buildRequestedType, ht] at hc
        obtain ⟨hne, hrec⟩ := buildCdsCurve_recovery _ _ _ _ _ _ _ _ _ _ hc
        rcases hload with ⟨_, hnull⟩ | ⟨hq, _, md, hget, hval⟩
        · exact absurd hnull hne
        · exact ⟨hq, md, hget, hval ▸ hne, hrec.trans hval⟩
      · simp only [buildRequestedType, ht] at hc
        obtain ⟨hnull, hrec⟩ := buildBenchmarkCurve_recovery _ _ _ _ _ _ _ hc
        refine ⟨hrec, ?_⟩
        rcases hload with ⟨hq, _⟩ | ⟨_, _, md, hget, hval⟩
        · exact Or.inl hq
        · exact Or.inr ⟨md, hget, hval ▸ hnull⟩
      · simp only [buildRequestedType, ht] at hc
        have hrec := buildHazardRateCurve_recovery _ _ _ _ _ _ _ _ hc
        rcases hload with ⟨hq, hnull⟩ | ⟨hq, _, md, hget, hval⟩
        · refine ⟨fun _ => ?_, fun hne => absurd hq hne⟩
          rw [hrec, if_pos hnull]
        · refine ⟨fun he => absurd he hq, fun _ => ⟨md, hget, ?_⟩⟩
          rw [hrec, hval]
  · intro ht hq
    rw [head]
    apply construct_of_body_error
    rw [constructBody_of_recovery_ok _ _ _ _ _ _ _ _ config nullReal hcfg
      (loadRecoveryRate_of_empty config asof loader hq)]
    simp [buildRequestedType, ht, buildCdsCurve, qlRequire, qlFail, bind, Except.bind]
  · intro ht md hq hhas hget hval
    rw [head]
    apply construct_of_body_error
    rw [constructBody_of_recovery_ok _ _ _ _ _ _ _ _ config md.value hcfg
      (loadRecoveryRate_of_datum config asof loader md hq hhas hget)]
    simp [buildRequestedType, ht, buildBenchmarkCurve, qlRequire, qlFail, bind, Except.bind, hval]
  · intro hq hhas
    rw [head]
    apply construct_of_body_error
    rw [constructBody_of_recovery_error _ _ _ _ _ _ _ _ config _ hcfg
      (loadRecoveryRate_of_not_has config asof loader hq hhas)]

/-- Witness of C12: the SpreadCDS configuration `CDS1` with the recovery rate
quote `RECOVERY_RATE/CDS1`, loaded with the value 2/5, is built with the
discount curve `EUR-EONIA`, and its recovery rate is 2/5. -/
theorem recovery_rate_by_type_witness :
    construct plainEnv plainStreams 0 cdsSpec (listLoader [recoveryDatum, cdsSpreadDatum])
        (singleConfig cdsConfigWithRecovery) cdsConventions [("EUR-EONIA", flatCurve)] =
      .ok ⟨some (.survivalProbabilityCurve [0, 5] [1, 1] "A365" true), 2 / 5⟩ ∧
    (cdsConfigWithRecovery.recoveryRateQuote ≠ "" ∧
      ∃ md, (listLoader [recoveryDatum, cdsSpreadDatum]).get
          cdsConfigWithRecovery.recoveryRateQuote 0 = .ok (some md) ∧
        md.value ≠ nullReal ∧
        (DefaultCurve.mk (some (.survivalProbabilityCurve [0, 5] [1, 1] "A365" true))
          (2 / 5)).recoveryRate_ = md.value) := by
  have hbuilt : construct plainEnv plainStreams 0 cdsSpec
      (listLoader [recoveryDatum, cdsSpreadDatum]) (singleConfig cdsConfigWithRecovery)
      cdsConventions [("EUR-EONIA", flatCurve)] =
      .ok ⟨some (.survivalProbabilityCurve [0, 5] [1, 1] "A365" true), 2 / 5⟩ := by
    rw [construct_ok_iff, constructBody_of_recovery_ok _ _ _ _ _ _ _ _ cdsConfigWithRecovery
      recoveryDatum.value rfl (loadRecoveryRate_of_datum _ _ _ recoveryDatum (by decide) rfl rfl)]
    simp [buildRequestedType, buildCdsCurve, cdsConfigWithRecovery, cdsConfig, findCurve,
      qlRequire, bind, Except.bind, plainEnv, plainCalendar, flatCurve, finishCurve, pure,
      Except.pure, DefaultTermStructure.enableExtrapolation, recoveryDatum, nullReal,
      cdsConventions, Convention.asCds, getConfiguredQuotes, loadConfiguredQuotes, listLoader,
      cdsSpreadDatum, quoteTerm, mapInsert, copyPiecewise]
    norm_num
  exact ⟨hbuilt, ((recovery_rate_by_type plainEnv plainStreams 0 cdsSpec
    (listLoader [recoveryDatum, cdsSpreadDatum]) (singleConfig cdsConfigWithRecovery)
    cdsConventions [("EUR-EONIA", flatCurve)] cdsConfigWithRecovery rfl).1 _ hbuilt).1 rfl⟩

end DefaultCurve


/-! ## The configured quotes of a default curve -/

theorem mapInsert_inserted_iff {K V : Type} (lt : K → K → Bool)
    (htrans : ∀ a b c, lt a b = true → lt b c = true → lt a c = true) :
    ∀ (acc : List (K × V)) (k : K) (v : V), acc.Pairwise (fun a b => lt a.1 b.1 = true) →
      ((mapInsert lt acc k v).2 = true ↔ ∀ e ∈ acc, (lt k e.1 || lt e.1 k) = true) := by
  intro acc
  induction acc with
  | nil => intro k v _; simp [mapInsert]
  | cons hd rest ih =>
    intro k v hs
    obtain ⟨k1, v1⟩ := hd
    rw [List.pairwise_cons] at hs
    unfold mapInsert
    by_cases h1 : lt k k1 = true
    · simp only [h1, if_true, List.mem_cons, forall_eq_or_imp, Bool.true_or, true_and, true_iff]
      intro e he
      rw [htrans k k1 e.1 h1 (hs.1 e he)]
      rfl
    · by_cases h2 : lt k1 k = true
      · simp only [h1, h2, if_true, if_false, List.mem_cons, forall_eq_or_imp, Bool.or_true,
          true_and]
        exact ih k v hs.2
      · simp [h1, h2]

theorem mapInsert_perm {K V : Type} (lt : K → K → Bool) :
    ∀ (acc : List (K × V)) (k : K) (v : V), (mapInsert lt acc k v).2 = true →
      (mapInsert lt acc k v).1.Perm ((k, v) :: acc) := by
  intro acc
  induction acc with
  | nil => intro k v _; simp [mapInsert]
  | cons hd rest ih =>
    intro k v h
    obtain ⟨k1, v1⟩ := hd
    unfold mapInsert at h ⊢
    by_cases h1 : lt k k1 = true
    · simp [h1]
    · by_cases h2 : lt k1 k = true
      · simp only [h1, h2, if_true, if_false] at h ⊢
        exact ((ih k v h).cons (k1, v1)).trans (List.Perm.swap _ _ _)
      · simp [h1, h2] at h

theorem mapInsert_sorted {K V : Type} (lt : K → K → Bool)
    (htrans : ∀ a b c, lt a b = true → lt b c = true → lt a c = true) :
    ∀ (acc : List (K × V)) (k : K) (v : V), acc.Pairwise (fun a b => lt a.1 b.1 = true) →
      (mapInsert lt acc k v).2 = true →
      (mapInsert lt acc k v).1.Pairwise (fun a b => lt a.1 b.1 = true) := by
  intro acc
  induction acc with
  | nil => intro k v _ _; simp [mapInsert]
  | cons hd rest ih =>
    intro k v hs h
    obtain ⟨k1, v1⟩ := hd
    have hperm := mapInsert_perm lt ((k1, v1) :: rest) k v h
    rw [List.pairwise_cons] at hs
    unfold mapInsert at h ⊢
    by_cases h1 : lt k k1 = true
    · simp only [h1, if_true]
      rw [List.pairwise_cons, List.pairwise_cons]
      refine ⟨?_, hs.1, hs.2⟩
      intro e he
      rcases List.mem_cons.1 he with rfl | hmem
      · exact h1
      · exact htrans k k1 e.1 h1 (hs.1 e hmem)
    · by_cases h2 : lt k1 k = true
      · simp only [h1, h2, if_true, if_false, Bool.false_eq_true] at h ⊢
        rw [List.pairwise_cons]
        refine ⟨?_, ih k v hs.2 h⟩
        intro e he
        have := (mapInsert_perm lt rest k v h).subset he
        rcases List.mem_cons.1 this with rfl | hmem
        · exact h2
        · exact hs.1 e hmem
      · simp [h1, h2] at h

namespace DefaultCurve

theorem loadedQuotes_cons_null (type : DefaultCurveConfig.Type) (asof : Date) (loader : Loader)
    (p : String) (ps : List String) (h : loader.getQuote p asof = .ok none) :
    loadedQuotes type asof loader (p :: ps) = loadedQuotes type asof loader ps := by
  simp [loadedQuotes, List.filterMap_cons, h]

theorem loadedQuotes_cons_datum (type : DefaultCurveConfig.Type) (asof : Date) (loader : Loader)
    (p : String) (ps : List String) (md : MarketDatum) (term : Period)
    (h : loader.getQuote p asof = .ok (some md)) (ht : quoteTerm type md = .ok term) :
    loadedQuotes type asof loader (p :: ps) =
      (term, md.value) :: loadedQuotes type asof loader ps := by
  simp [loadedQuotes, List.filterMap_cons, h, ht]

theorem loadConfiguredQuotes_cons_null (q : QuantLibEnv) (io : Streams)
    (config : DefaultCurveConfig) (asof : Date) (loader : Loader) (p : String) (ps : List String)
    (acc : List (Period × QuantLib.Real)) (h : loader.getQuote p asof = .ok none) :
    loadConfiguredQuotes q io config asof loader (p :: ps) acc =
      loadConfiguredQuotes q io config asof loader ps acc := by
  simp [loadConfiguredQuotes, h, bind, Except.bind]

theorem loadConfiguredQuotes_cons_datum (q : QuantLibEnv) (io : Streams)
    (config : DefaultCurveConfig) (asof : Date) (loader : Loader) (p : String) (ps : List String)
    (acc : List (Period × QuantLib.Real)) (md : MarketDatum) (term : Period)
    (h : loader.getQuote p asof = .ok (some md)) (ht : quoteTerm config.type md = .ok term) :
    loadConfiguredQuotes q io config asof loader (p :: ps) acc =
      if (mapInsert q.periodLt acc term md.value).2 = true then
        loadConfiguredQuotes q io config asof loader ps (mapInsert q.periodLt acc term md.value).1
      else
        qlFail ("duplicate term in quotes found (" ++ io.showPeriod term ++
          ") while loading default curve " ++ config.curveID) := by
  by_cases hi : (mapInsert q.periodLt acc term md.value).2 = true <;>
    simp [loadConfiguredQuotes, h, ht, bind, Except.bind, qlRequire, qlFail, hi]

theorem loadConfiguredQuotes_error (q : QuantLibEnv) (io : Streams)
    (config : DefaultCurveConfig) (asof : Date) (loader : Loader) :
    ∀ (ps : List String) (acc : List (Period × QuantLib.Real)) (p : String), p ∈ ps →
      (∃ f, loader.getQuote p asof = .error f) →
      ∀ r, loadConfiguredQuotes q io config asof loader ps acc ≠ .ok r := by
  intro ps
  induction ps with
  | nil => intro acc p hp; cases hp
  | cons p0 ps ih =>
    intro acc p hp hf r
    cases hg : loader.getQuote p0 asof with
    | error f => simp [loadConfiguredQuotes, hg, bind, Except.bind]
    | ok omd =>
      have hmem : p ∈ ps := by
        rcases List.mem_cons.1 hp with rfl | h
        · obtain ⟨f, hf⟩ := hf
          rw [hf] at hg
          cases hg
        · exact h
      cases omd with
      | none =>
        rw [loadConfiguredQuotes_cons_null q io config asof loader p0 ps acc hg]
        exact ih acc p hmem hf r
      | some md =>
        cases ht : quoteTerm config.type md with
        | error f => simp [loadConfiguredQuotes, hg, ht, bind, Except.bind]
        | ok term =>
          rw [loadConfiguredQuotes_cons_datum q io config asof loader p0 ps acc md term hg ht]
          split
          · exact ih _ p hmem hf r
          · simp [qlFail]

theorem loadConfiguredQuotes_ok (q : QuantLibEnv) (io : Streams)
    (config : DefaultCurveConfig) (asof : Date) (loader : Loader)
    (htrans : ∀ a b c, q.periodLt a b = true → q.periodLt b c = true → q.periodLt a c = true) :
    ∀ (ps : List String) (acc : List (Period × QuantLib.Real)),
      LoadsWithType config.type asof loader ps →
      acc.Pairwise (fun a b => q.periodLt a.1 b.1 = true) →
      (loadedQuotes config.type asof loader ps).Pairwise (fun a b => periodNe q a.1 b.1 = true) →
      (∀ x ∈ loadedQuotes config.type asof loader ps, ∀ e ∈ acc, periodNe q x.1 e.1 = true) →
      ∃ r, loadConfiguredQuotes q io config asof loader ps acc = .ok r ∧
        r.Pairwise (fun a b => q.periodLt a.1 b.1 = true) ∧
        r.Perm (acc ++ loadedQuotes config.type asof loader ps) := by
  intro ps
  induction ps with
  | nil =>
    intro acc _ hs _ _
    exact ⟨acc, rfl, hs, by simp [loadedQuotes]⟩
  | cons p ps ih =>
    intro acc hclean hs hpw hacc
    have hclean2 : LoadsWithType config.type asof loader ps :=
      fun p2 hp2 => hclean p2 (List.mem_cons_of_mem _ hp2)
    rcases hclean p (List.mem_cons_self _ _) with hnull | ⟨md, term, hget, hterm⟩
    · rw [loadConfiguredQuotes_cons_null q io config asof loader p ps acc hnull]
      rw [loadedQuotes_cons_null _ _ _ _ _ hnull] at hpw hacc ⊢
      exact ih acc hclean2 hs hpw hacc
    · rw [loadConfiguredQuotes_cons_datum q io config asof loader p ps acc md term hget hterm]
      rw [loadedQuotes_cons_datum _ _ _ _ _ md term hget hterm] at hpw hacc ⊢
      rw [List.pairwise_cons] at hpw
      have hins : (mapInsert q.periodLt acc term md.value).2 = true := by
        rw [mapInsert_inserted_iff q.periodLt htrans acc term md.value hs]
        intro e he
        exact hacc (term, md.value) (List.mem_cons_self _ _) e he
      have hperm := mapInsert_perm q.periodLt acc term md.value hins
      rw [if_pos hins]
      obtain ⟨r, hr, hrs, hrp⟩ := ih (mapInsert q.periodLt acc term md.value).1 hclean2
        (mapInsert_sorted q.periodLt htrans acc term md.value hs hins) hpw.2 (by
          intro x hx e he
          rcases List.mem_cons.1 (hperm.subset he) with rfl | hmem
          · have := hpw.1 x hx
            simpa [periodNe, Bool.or_comm] using this
          · exact hacc x (List.mem_cons_of_mem _ hx) e hmem)
      refine ⟨r, hr, hrs, hrp.trans ?_⟩
      exact (hperm.append_right _).trans (by simpa using List.perm_middle.symm)

theorem periodNe_comm (q : QuantLibEnv) (a b : Period) : periodNe q a b = periodNe q b a := by
  simp [periodNe, Bool.or_comm]

theorem loadConfiguredQuotes_duplicate (q : QuantLibEnv) (io : Streams)
    (config : DefaultCurveConfig) (asof : Date) (loader : Loader)
    (htrans : ∀ a b c, q.periodLt a b = true → q.periodLt b c = true → q.periodLt a c = true) :
    ∀ (ps : List String) (acc : List (Period × QuantLib.Real)),
      LoadsWithType config.type asof loader ps →
      acc.Pairwise (fun a b => q.periodLt a.1 b.1 = true) →
      ¬ ((loadedQuotes config.type asof loader ps).Pairwise (fun a b => periodNe q a.1 b.1 = true) ∧
        ∀ x ∈ loadedQuotes config.type asof loader ps, ∀ e ∈ acc, periodNe q x.1 e.1 = true) →
      ∃ x ∈ loadedQuotes config.type asof loader ps,
        loadConfiguredQuotes q io config asof loader ps acc =
          qlFail ("duplicate term in quotes found (" ++ io.showPeriod x.1 ++
            ") while loading default curve " ++ config.curveID) := by
  intro ps
  induction ps with
  | nil =>
    intro acc _ _ hnot
    exact absurd ⟨by simp [loadedQuotes], by simp [loadedQuotes]⟩ hnot
  | cons p ps ih =>
    intro acc hclean hs hnot
    have hclean2 : LoadsWithType config.type asof loader ps :=
      fun p2 hp2 => hclean p2 (List.mem_cons_of_mem _ hp2)
    rcases hclean p (List.mem_cons_self _ _) with hnull | ⟨md, term, hget, hterm⟩
    · rw [loadConfiguredQuotes_cons_null q io config asof loader p ps acc hnull]
      rw [loadedQuotes_cons_null _ _ _ _ _ hnull] at hnot ⊢
      exact ih acc hclean2 hs hnot
    · rw [loadConfiguredQuotes_cons_datum q io config asof loader p ps acc md term hget hterm]
      rw [loadedQuotes_cons_datum _ _ _ _ _ md term hget hterm] at hnot ⊢
      by_cases hins : (mapInsert q.periodLt acc term md.value).2 = true
      · rw [if_pos hins]
        have hperm := mapInsert_perm q.periodLt acc term md.value hins
        have hfresh := (mapInsert_inserted_iff q.periodLt htrans acc term md.value hs).1 hins
        obtain ⟨x, hx, hfail⟩ := ih (mapInsert q.periodLt acc term md.value).1 hclean2
          (mapInsert_sorted q.periodLt htrans acc term md.value hs hins) (by
            rintro ⟨hpw, hacc⟩
            apply hnot
            refine ⟨List.pairwise_cons.2 ⟨?_, hpw⟩, ?_⟩
            · intro x hx
              have := hacc x hx (term, md.value) (hperm.symm.subset (List.mem_cons_self _ _))
              rw [periodNe_comm]
              exact this
            · intro x hx e he
              rcases List.mem_cons.1 hx with rfl | hmem
              · exact hfresh e he
              · exact hacc x hmem e (hperm.symm.subset (List.mem_cons_of_mem _ he)))
        exact ⟨x, List.mem_cons_of_mem _ hx, hfail⟩
      · rw [if_neg hins]
        exact ⟨(term, md.value), List.mem_cons_self _ _, rfl⟩

theorem getConfiguredQuotes_of_loop_ok (q : QuantLibEnv) (io : Streams)
    (config : DefaultCurveConfig) (asof : Date) (loader : Loader)
    (ht : config.type = .SpreadCDS ∨ config.type = .HazardRate)
    (r : List (Period × QuantLib.Real))
    (h : loadConfiguredQuotes q io config asof loader config.cdsQuotes [] = .ok r) :
    getConfiguredQuotes q io config asof loader =
      if r = [] then qlFail ("No market points found for curve config " ++ config.curveID)
      else .ok r := by
  unfold getConfiguredQuotes
  rcases ht with ht | ht <;> cases r <;>
    simp [ht, h, qlRequire, qlFail, bind, Except.bind, pure, Except.pure]

theorem getConfiguredQuotes_of_loop_error (q : QuantLibEnv) (io : Streams)
    (config : DefaultCurveConfig) (asof : Date) (loader : Loader)
    (ht : config.type = .SpreadCDS ∨ config.type = .HazardRate) (f : Failure)
    (h : loadConfiguredQuotes q io config asof loader config.cdsQuotes [] = .error f) :
    getConfiguredQuotes q io config asof loader = .error f := by
  unfold getConfiguredQuotes
  rcases ht with ht | ht <;> simp [ht, h, qlRequire, bind, Except.bind]

theorem getConfiguredQuotes_of_duplicate (q : QuantLibEnv) (io : Streams)
    (config : DefaultCurveConfig) (asof : Date) (loader : Loader)
    (ht : config.type = .SpreadCDS ∨ config.type = .HazardRate)
    (htrans : ∀ a b c, q.periodLt a b = true → q.periodLt b c = true → q.periodLt a c = true)
    (hclean : LoadsWithType config.type asof loader config.cdsQuotes)
    (hnot : ¬ (loadedQuotes config.type asof loader config.cdsQuotes).Pairwise
      (fun a b => periodNe q a.1 b.1 = true)) :
    ∃ x ∈ loadedQuotes config.type asof loader config.cdsQuotes,
      getConfiguredQuotes q io config asof loader =
        qlFail ("duplicate term in quotes found (" ++ io.showPeriod x.1 ++
          ") while loading default curve " ++ config.curveID) := by
  obtain ⟨x, hx, hfail⟩ := loadConfiguredQuotes_duplicate q io config asof loader htrans
    config.cdsQuotes [] hclean List.Pairwise.nil (fun h => hnot h.1)
  exact ⟨x, hx, getConfiguredQuotes_of_loop_error q io config asof loader ht _ hfail⟩

theorem getConfiguredQuotes_of_distinct (q : QuantLibEnv) (io : Streams)
    (config : DefaultCurveConfig) (asof : Date) (loader : Loader)
    (ht : config.type = .SpreadCDS ∨ config.type = .HazardRate)
    (htrans : ∀ a b c, q.periodLt a b = true → q.periodLt b c = true → q.periodLt a c = true)
    (hclean : LoadsWithType config.type asof loader config.cdsQuotes)
    (hpw : (loadedQuotes config.type asof loader config.cdsQuotes).Pairwise
      (fun a b => periodNe q a.1 b.1 = true)) :
    ∃ r, r.Perm (loadedQuotes config.type asof loader config.cdsQuotes) ∧
      r.Pairwise (fun a b => q.periodLt a.1 b.1 = true) ∧
      getConfiguredQuotes q io config asof loader =
        if r = [] then qlFail ("No market points found for curve config " ++ config.curveID)
        else .ok r := by
  obtain ⟨r, hr, hrs, hrp⟩ := loadConfiguredQuotes_ok q io config asof loader htrans
    config.cdsQuotes [] hclean List.Pairwise.nil hpw (fun _ _ e he => by cases he)
  exact ⟨r, by simpa using hrp, hrs,
    getConfiguredQuotes_of_loop_ok q io config asof loader ht r hr⟩

/-- C19: for a configuration of type SpreadCDS or HazardRate whose configured
names all load with the quote type of the curve (the order of periods being
transitive), `getConfiguredQuotes` succeeds if and only if at least one quote
was loaded and the terms of the loaded quotes are pairwise distinct keys. On
success the returned map, sorted by term, has exactly the entries (term, value)
of the loaded quotes. When two loaded quotes share a term it fails with
`duplicate term in quotes found (<term>) while loading default curve <id>`,
when none was loaded with `No market points found for curve config <id>`; and
it fails for every configuration of type Benchmark. -/
theorem getConfiguredQuotes_succeeds_iff (q : QuantLibEnv) (io : Streams)
    (config : DefaultCurveConfig) (asof : Date) (loader : Loader) :
    (config.type = .SpreadCDS ∨ config.type = .HazardRate →
      (∀ a b c, q.periodLt a b = true → q.periodLt b c = true → q.periodLt a c = true) →
      LoadsWithType config.type asof loader config.cdsQuotes →
      ((∃ r, getConfiguredQuotes q io config asof loader = .ok r) ↔
        loadedQuotes config.type asof loader config.cdsQuotes ≠ [] ∧
        (loadedQuotes config.type asof loader config.cdsQuotes).Pairwise
          (fun a b => periodNe q a.1 b.1 = true)) ∧
      (∀ r, getConfiguredQuotes q io config asof loader = .ok r →
        r.Perm (loadedQuotes config.type asof loader config.cdsQuotes) ∧
        r.Pairwise (fun a b => q.periodLt a.1 b.1 = true)) ∧
      (¬ (loadedQuotes config.type asof loader config.cdsQuotes).Pairwise
          (fun a b => periodNe q a.1 b.1 = true) →
        ∃ x ∈ loadedQuotes config.type asof loader config.cdsQuotes,
          getConfiguredQuotes q io config asof loader =
            qlFail ("duplicate term in quotes found (" ++ io.showPeriod x.1 ++
              ") while loading default curve " ++ config.curveID)) ∧
      (loadedQuotes config.type asof loader config.cdsQuotes = [] →
        getConfiguredQuotes q io config asof loader =
          qlFail ("No market points found for curve config " ++ config.curveID))) ∧
    (config.type = .Benchmark →
      getConfiguredQuotes q io config asof loader =
        qlFail ("DefaultCurve::getConfiguredQuotes expected a default curve configuration " ++
          "with type SpreadCDS or HazardRate")) := by
  constructor
  · intro ht htrans hclean
    have hdup := getConfiguredQuotes_of_duplicate q io config asof loader ht htrans hclean
    have hok := getConfiguredQuotes_of_distinct q io config asof loader ht htrans hclean
    refine ⟨⟨?_, ?_⟩, ?_, hdup, ?_⟩
    · rintro ⟨r, hr⟩
      by_cases hpw : (loadedQuotes config.type asof loader config.cdsQuotes).Pairwise
          (fun a b => periodNe q a.1 b.1 = true)
      · refine ⟨?_, hpw⟩
        obtain ⟨r2, hperm, _, hget⟩ := hok hpw
        intro hnil
        rw [hnil] at hperm
        rw [hget, if_pos hperm.eq_nil] at hr
        cases hr
      · obtain ⟨x, _, hfail⟩ := hdup hpw
        rw [hfail] at hr
        cases hr
    · rintro ⟨hne, hpw⟩
      obtain ⟨r, hperm, _, hget⟩ := hok hpw
      refine ⟨r, ?_⟩
      rw [hget, if_neg]
      intro hnil
      rw [hnil] at hperm
      exact hne hperm.symm.eq_nil
    · intro r hr
      by_cases hpw : (loadedQuotes config.type asof loader config.cdsQuotes).Pairwise
          (fun a b => periodNe q a.1 b.1 = true)
      · obtain ⟨r2, hperm, hsorted, hget⟩ := hok hpw
        rw [hget] at hr
        split at hr
        · cases hr
        · cases hr
          exact ⟨hperm, hsorted⟩
      · obtain ⟨x, _, hfail⟩ := hdup hpw
        rw [hfail] at hr
        cases hr
    · intro hnil
      obtain ⟨r, hperm, _, hget⟩ := hok (by rw [hnil]; exact List.Pairwise.nil)
      rw [hnil] at hperm
      rw [hget, if_pos hperm.eq_nil]
  · intro ht
    simp [getConfiguredQuotes, ht, qlRequire, qlFail, bind, Except.bind]

theorem plainEnv_periodLt_trans (a b c : Period) (hab : plainEnv.periodLt a b = true)
    (hbc : plainEnv.periodLt b c = true) : plainEnv.periodLt a c = true := by
  simp only [plainEnv, decide_eq_true_eq] at *
  omega

/-- Witness of C19: the two configured quotes of `twoQuoteConfig` load as CDS
spread quotes with the terms five and ten years, and both are returned. -/
theorem getConfiguredQuotes_succeeds_iff_witness :
    getConfiguredQuotes plainEnv plainStreams twoQuoteConfig 0
        (listLoader [cdsSpreadDatum10Y, cdsSpreadDatum]) =
      .ok [(⟨5, .Years⟩, 1 / 100), (⟨10, .Years⟩, 3 / 200)] ∧
    ((∃ r, getConfiguredQuotes plainEnv plainStreams twoQuoteConfig 0
        (listLoader [cdsSpreadDatum10Y, cdsSpreadDatum]) = .ok r) ↔
      loadedQuotes twoQuoteConfig.type 0 (listLoader [cdsSpreadDatum10Y, cdsSpreadDatum])
          twoQuoteConfig.cdsQuotes ≠ [] ∧
        (loadedQuotes twoQuoteConfig.type 0 (listLoader [cdsSpreadDatum10Y, cdsSpreadDatum])
          twoQuoteConfig.cdsQuotes).Pairwise (fun a b => periodNe plainEnv a.1 b.1 = true)) ∧
    getConfiguredQuotes plainEnv plainStreams benchmarkConfig 0
        (listLoader [cdsSpreadDatum10Y, cdsSpreadDatum]) =
      qlFail ("DefaultCurve::getConfiguredQuotes expected a default curve configuration " ++
        "with type SpreadCDS or HazardRate") := by
  refine ⟨?_, ((getConfiguredQuotes_succeeds_iff plainEnv plainStreams twoQuoteConfig 0
    (listLoader [cdsSpreadDatum10Y, cdsSpreadDatum])).1 (Or.inl rfl) plainEnv_periodLt_trans
    ?_).1, (getConfiguredQuotes_succeeds_iff plainEnv plainStreams benchmarkConfig 0
    (listLoader [cdsSpreadDatum10Y, cdsSpreadDatum])).2 rfl⟩
  · simp [getConfiguredQuotes, loadConfiguredQuotes, twoQuoteConfig, cdsConfig, listLoader,
      cdsSpreadDatum, cdsSpreadDatum10Y, quoteTerm, mapInsert, plainEnv, qlRequire, bind,
      Except.bind, pure, Except.pure]
  · intro p hp
    right
    simp only [twoQuoteConfig, cdsConfig, List.mem_cons, List.mem_singleton, List.not_mem_nil,
      or_false] at hp
    rcases hp with rfl | rfl
    · exact ⟨cdsSpreadDatum, ⟨5, .Years⟩, rfl, rfl⟩
    · exact ⟨cdsSpreadDatum10Y, ⟨10, .Years⟩, rfl, rfl⟩

/-! ### Names without a datum -/

theorem getConfiguredQuotes_ok_loop (q : QuantLibEnv) (io : Streams)
    (config : DefaultCurveConfig) (asof : Date) (loader : Loader)
    (r : List (Period × QuantLib.Real))
    (h : getConfiguredQuotes q io config asof loader = .ok r) :
    loadConfiguredQuotes q io config asof loader config.cdsQuotes [] = .ok r := by
  unfold getConfiguredQuotes at h
  simp only [bind, Except.bind, qlRequire, qlFail, pure, Except.pure] at h
  repeat' split at h
  all_goals first
    | (cases h; done)
    | (cases h; assumption)

theorem getConfiguredQuotes_of_get_error (q : QuantLibEnv) (io : Streams)
    (config : DefaultCurveConfig) (asof : Date) (loader : Loader) (p : String)
    (hp : p ∈ config.cdsQuotes) (hf : ∃ f, loader.getQuote p asof = .error f)
    (r : List (Period × QuantLib.Real)) :
    getConfiguredQuotes q io config asof loader ≠ .ok r := fun h =>
  loadConfiguredQuotes_error q io config asof loader config.cdsQuotes [] p hp hf r
    (getConfiguredQuotes_ok_loop q io config asof loader r h)

theorem impliedSurvival_eq (asof spot : Date) (cal : Calendar)
    (sourceCurve benchmarkCurve : YieldCurve) (sd bd : Date → QuantLib.Real) :
    ∀ (pillars : List Period) (acc : List Date × List QuantLib.Real),
      (∀ p ∈ pillars, sourceCurve.discount (cal.advance spot p) = .ok (sd (cal.advance spot p))) →
      (∀ p ∈ pillars,
        benchmarkCurve.discount (cal.advance spot p) = .ok (bd (cal.advance spot p))) →
      impliedSurvival asof spot cal sourceCurve benchmarkCurve pillars acc =
        .ok (acc.1 ++ pillars.map (fun p => cal.advance spot p),
          acc.2 ++ pillars.map (fun p =>
            if cal.advance spot p = asof then 1
            else sd (cal.advance spot p) / bd (cal.advance spot p))) := by
  intro pillars
  induction pillars with
  | nil => intro acc _ _; simp [impliedSurvival]
  | cons p ps ih =>
    intro acc hs hb
    have h1 := hs p (List.mem_cons_self _ _)
    have h2 := hb p (List.mem_cons_self _ _)
    simp only [impliedSurvival, h1, h2, bind, Except.bind]
    rw [ih _ (fun p2 hp2 => hs p2 (List.mem_cons_of_mem _ hp2))
      (fun p2 hp2 => hb p2 (List.mem_cons_of_mem _ hp2))]
    simp

/-- C20: in `buildBenchmarkCurve`, once the curves are found and the pillars are
parsed, with `sd` and `bd` the discount factors of the source and benchmark
curves at the pillar dates: for an empty pillar list the build fails with
`DefaultCurve (Benchmark): no dates given`; for a non-empty one the survival
probability curve is built from a date list and a probability list of equal
length that start with `asof` and `1`. When the first pillar date is `asof` the
lists are those of the pillars, that date carrying 1; otherwise `asof` and `1`
are put in front of them. Every pillar date `d` other than `asof` carries
`sd d / bd d`. -/
theorem buildBenchmarkCurve_nodes (q : QuantLibEnv) (config : DefaultCurveConfig) (asof : Date)
    (spec : DefaultCurveSpec) (yieldCurves : List (String × YieldCurve))
    (benchmarkCurve sourceCurve : YieldCurve) (pillars : List Period)
    (sd bd : Date → QuantLib.Real)
    (ht : config.type = .Benchmark)
    (hb : findCurve yieldCurves config.benchmarkCurveID = some benchmarkCurve)
    (hs : findCurve yieldCurves config.sourceCurveID = some sourceCurve)
    (hp : config.pillars.mapM q.parsePeriod = .ok pillars)
    (hsd : ∀ p ∈ pillars,
      sourceCurve.discount
          (config.calendar.advance (config.calendar.advance asof ⟨config.spotLag, .Days⟩) p) =
        .ok (sd (config.calendar.advance (config.calendar.advance asof ⟨config.spotLag, .Days⟩) p)))
    (hbd : ∀ p ∈ pillars,
      benchmarkCurve.discount
          (config.calendar.advance (config.calendar.advance asof ⟨config.spotLag, .Days⟩) p) =
        .ok (bd (config.calendar.advance (config.calendar.advance asof ⟨config.spotLag, .Days⟩) p))) :
    (pillars = [] →
      buildBenchmarkCurve q nullReal config asof spec yieldCurves =
        qlFail "DefaultCurve (Benchmark): no dates given") ∧
    (pillars ≠ [] → ∃ dates probs,
      buildBenchmarkCurve q nullReal config asof spec yieldCurves =
        finishCurve q config
          (.survivalProbabilityCurve dates probs config.dayCounter false) 0 ∧
      dates.head? = some asof ∧ probs.head? = some 1 ∧ dates.length = probs.length ∧
      ((pillars.map fun p =>
          config.calendar.advance (config.calendar.advance asof ⟨config.spotLag, .Days⟩) p).head? =
          some asof →
        dates = (pillars.map fun p =>
          config.calendar.advance (config.calendar.advance asof ⟨config.spotLag, .Days⟩) p) ∧
        probs = pillars.map fun p =>
          if config.calendar.advance (config.calendar.advance asof ⟨config.spotLag, .Days⟩) p = asof
          then 1
          else sd (config.calendar.advance (config.calendar.advance asof ⟨config.spotLag, .Days⟩) p) /
            bd (config.calendar.advance (config.calendar.advance asof ⟨config.spotLag, .Days⟩) p)) ∧
      ((pillars.map fun p =>
          config.calendar.advance (config.calendar.advance asof ⟨config.spotLag, .Days⟩) p).head? ≠
          some asof →
        dates = asof :: (pillars.map fun p =>
          config.calendar.advance (config.calendar.advance asof ⟨config.spotLag, .Days⟩) p) ∧
        probs = 1 :: pillars.map fun p =>
          if config.calendar.advance (config.calendar.advance asof ⟨config.spotLag, .Days⟩) p = asof
          then 1
          else sd (config.calendar.advance (config.calendar.advance asof ⟨config.spotLag, .Days⟩) p) /
            bd (config.calendar.advance (config.calendar.advance asof ⟨config.spotLag, .Days⟩) p)) ∧
      ∀ p ∈ pillars,
        config.calendar.advance (config.calendar.advance asof ⟨config.spotLag, .Days⟩) p ≠ asof →
        (config.calendar.advance (config.calendar.advance asof ⟨config.spotLag, .Days⟩) p,
          sd (config.calendar.advance (config.calendar.advance asof ⟨config.spotLag, .Days⟩) p) /
            bd (config.calendar.advance (config.calendar.advance asof ⟨config.spotLag, .Days⟩) p)) ∈
          dates.zip probs) := by
  have himp := impliedSurvival_eq asof (config.calendar.advance asof ⟨config.spotLag, .Days⟩)
    config.calendar sourceCurve benchmarkCurve sd bd pillars ([], []) hsd hbd
  simp only [List.nil_append] at himp
  constructor
  · intro hnil
    subst hnil
    unfold buildBenchmarkCurve
    simp only [ht, hb, hs, hp, himp, qlRequire, bind, Except.bind]
    simp [qlFail]
  · intro hne
    obtain ⟨p0, rest, rfl⟩ := List.exists_cons_of_ne_nil hne
    have hzip : ∀ (f : Period → Date) (g : Period → QuantLib.Real) (p : Period),
        p ∈ p0 :: rest → (f p, g p) ∈ ((p0 :: rest).map f).zip ((p0 :: rest).map g) := by
      intro f g p hmem
      rw [List.zip_map']
      exact List.mem_map.2 ⟨p, hmem, rfl⟩
    by_cases hfirst : config.calendar.advance
        (config.calendar.advance asof ⟨config.spotLag, .Days⟩) p0 = asof
    · refine ⟨_, _, ?_, ?_, ?_, ?_, fun _ => ⟨rfl, rfl⟩, ?_, ?_⟩
      · unfold buildBenchmarkCurve
        simp only [ht, hb, hs, hp, himp, qlRequire, bind, Except.bind]
        simp [hfirst]
      · simp [hfirst]
      · simp [hfirst]
      · simp
      · intro hcontra
        simp [hfirst] at hcontra
      · intro p hmem hd
        have := hzip (fun p => config.calendar.advance
            (config.calendar.advance asof ⟨config.spotLag, .Days⟩) p)
          (fun p =>
            if config.calendar.advance
              (config.calendar.advance asof ⟨config.spotLag, .Days⟩) p = asof then 1
            else sd (config.calendar.advance
                (config.calendar.advance asof ⟨config.spotLag, .Days⟩) p) /
              bd (config.calendar.advance
                (config.calendar.advance asof ⟨config.spotLag, .Days⟩) p)) p hmem
        simpa only [if_neg hd] using this
    · refine ⟨asof :: _, 1 :: _, ?_, rfl, rfl, ?_, ?_, fun _ => ⟨rfl, rfl⟩, ?_⟩
      · unfold buildBenchmarkCurve
        simp only [ht, hb, hs, hp, himp, qlRequire, bind, Except.bind]
        simp [hfirst]
      · simp
      · intro hcontra
        simp [hfirst] at hcontra
      · intro p hmem hd
        have := hzip (fun p => config.calendar.advance
            (config.calendar.advance asof ⟨config.spotLag, .Days⟩) p)
          (fun p =>
            if config.calendar.advance
              (config.calendar.advance asof ⟨config.spotLag, .Days⟩) p = asof then 1
            else sd (config.calendar.advance
                (config.calendar.advance asof ⟨config.spotLag, .Days⟩) p) /
              bd (config.calendar.advance
                (config.calendar.advance asof ⟨config.spotLag, .Days⟩) p)) p hmem
        rw [List.zip_cons_cons]
        exact List.mem_cons_of_mem _ (by simpa only [if_neg hd] using this)

/-- Witness of C20: the Benchmark configuration `BM1` with the pillar `1Y`, the
benchmark curve discounting with 1 and the source curve with 1/2: the nodes
are `(0, 1)` and `(1, 1/2)`. -/
theorem buildBenchmarkCurve_nodes_witness :
    buildBenchmarkCurve plainEnv nullReal benchmarkConfig 0 ⟨"Default/USD/BM1", "BM1"⟩
        [("USD-LIBOR", flatCurve), ("USD-GOVT", halfCurve)] =
      .ok ⟨some (.survivalProbabilityCurve [0, 1] [1, 1 / 2] "A365" true), 0⟩ ∧
    ∃ dates probs,
      buildBenchmarkCurve plainEnv nullReal benchmarkConfig 0 ⟨"Default/USD/BM1", "BM1"⟩
          [("USD-LIBOR", flatCurve), ("USD-GOVT", halfCurve)] =
        finishCurve plainEnv benchmarkConfig
          (.survivalProbabilityCurve dates probs benchmarkConfig.dayCounter false) 0 ∧
      dates.head? = some 0 ∧ probs.head? = some 1 ∧ dates.length = probs.length ∧
      ((1 : Date), (1 / 2 : QuantLib.Real) / 1) ∈ dates.zip probs := by
  obtain ⟨dates, probs, h1, h2, h3, h4, _, _, h7⟩ :=
    (buildBenchmarkCurve_nodes plainEnv benchmarkConfig 0 ⟨"Default/USD/BM1", "BM1"⟩
      [("USD-LIBOR", flatCurve), ("USD-GOVT", halfCurve)] flatCurve halfCurve [⟨1, .Years⟩]
      (fun _ => 1 / 2) (fun _ => 1) rfl rfl rfl rfl (fun _ _ => rfl) (fun _ _ => rfl)).2
      (by simp)
  refine ⟨?_, dates, probs, h1, h2, h3, h4, h7 ⟨1, .Years⟩ (by simp) (by decide)⟩
  simp [buildBenchmarkCurve, benchmarkConfig, cdsConfig, findCurve, qlRequire, bind,
    Except.bind, plainEnv, plainCalendar, flatCurve, halfCurve, impliedSurvival, finishCurve,
    pure, Except.pure, DefaultTermStructure.enableExtrapolation, List.mapM, List.mapM.loop]

/-! ### The nodes of a hazard rate curve -/

theorem loadConfiguredQuotes_loads (q : QuantLibEnv) (io : Streams)
    (config : DefaultCurveConfig) (asof : Date) (loader : Loader) :
    ∀ (ps : List String) (acc r : List (Period × QuantLib.Real)),
      loadConfiguredQuotes q io config asof loader ps acc = .ok r →
      LoadsWithType config.type asof loader ps := by
  intro ps
  induction ps with
  | nil => intro acc r _ p hp; cases hp
  | cons p0 ps ih =>
    intro acc r h
    cases hg : loader.getQuote p0 asof with
    | error f => simp [loadConfiguredQuotes, hg, bind, Except.bind] at h
    | ok omd =>
      cases omd with
      | none =>
        rw [loadConfiguredQuotes_cons_null q io config asof loader p0 ps acc hg] at h
        intro p hp
        rcases List.mem_cons.1 hp with rfl | hmem
        · exact Or.inl hg
        · exact ih acc r h p hmem
      | some md =>
        cases ht : quoteTerm config.type md with
        | error f => simp [loadConfiguredQuotes, hg, ht, bind, Except.bind] at h
        | ok term =>
          rw [loadConfiguredQuotes_cons_datum q io config asof loader p0 ps acc md term hg ht] at h
          split at h
          · intro p hp
            rcases List.mem_cons.1 hp with rfl | hmem
            · exact Or.inr ⟨md, term, hg, ht⟩
            · exact ih _ r h p hmem
          · simp [qlFail] at h

theorem getConfiguredQuotes_ok_type (q : QuantLibEnv) (io : Streams)
    (config : DefaultCurveConfig) (asof : Date) (loader : Loader)
    (r : List (Period × QuantLib.Real))
    (h : getConfiguredQuotes q io config asof loader = .ok r) :
    config.type = .SpreadCDS ∨ config.type = .HazardRate := by
  by_contra hne
  have h1 : config.type ≠ .SpreadCDS := fun he => hne (Or.inl he)
  have h2 : config.type ≠ .HazardRate := fun he => hne (Or.inr he)
  simp [getConfiguredQuotes, h1, h2, qlRequire, qlFail, bind, Except.bind] at h

theorem getConfiguredQuotes_ok_sorted (q : QuantLibEnv) (io : Streams)
    (config : DefaultCurveConfig) (asof : Date) (loader : Loader)
    (htrans : ∀ a b c, q.periodLt a b = true → q.periodLt b c = true → q.periodLt a c = true)
    (r : List (Period × QuantLib.Real))
    (h : getConfiguredQuotes q io config asof loader = .ok r) :
    r ≠ [] ∧ r.Pairwise (fun a b => q.periodLt a.1 b.1 = true) ∧
      r.Perm (loadedQuotes config.type asof loader config.cdsQuotes) := by
  have ht := getConfiguredQuotes_ok_type q io config asof loader r h
  have hclean := loadConfiguredQuotes_loads q io config asof loader config.cdsQuotes [] r
    (getConfiguredQuotes_ok_loop q io config asof loader r h)
  by_cases hpw : (loadedQuotes config.type asof loader config.cdsQuotes).Pairwise
      (fun a b => periodNe q a.1 b.1 = true)
  · obtain ⟨r2, hperm, hsorted, hget⟩ :=
      getConfiguredQuotes_of_distinct q io config asof loader ht htrans hclean hpw
    rw [hget] at h
    split at h
    · cases h
    · rename_i hne
      cases h
      exact ⟨hne, hsorted, hperm⟩
  · obtain ⟨x, _, hfail⟩ :=
      getConfiguredQuotes_of_duplicate q io config asof loader ht htrans hclean hpw
    rw [hfail] at h
    cases h

/-- C21: in `buildHazardRateCurve`, once the CDS convention is found and
`getConfiguredQuotes` has returned the map `quotes` (the order of periods being
transitive), the map is not empty and runs in increasing term order, its first
entry having the smallest term. The hazard rate curve is built from a date
list and a value list of equal length. When the smallest term is not `0D` they
are `asof` and the value of the smallest-term quote, followed by the date and
the value of every quote in term order: one node more than there are quotes.
When the smallest term is `0D` they are the dates and values of the quotes and
nothing is put in front. -/
theorem buildHazardRateCurve_nodes (q : QuantLibEnv) (io : Streams) (r : QuantLib.Real)
    (config : DefaultCurveConfig) (asof : Date) (loader : Loader) (conventions : Conventions)
    (cdsConv : CdsConvention) (quotes : List (Period × QuantLib.Real))
    (ht : config.type = .HazardRate)
    (hhas : conventions.has config.conventionID = true)
    (hget : conventions.get config.conventionID = .ok (.cds cdsConv))
    (htrans : ∀ a b c, q.periodLt a b = true → q.periodLt b c = true → q.periodLt a c = true)
    (hq : getConfiguredQuotes q io config asof loader = .ok quotes) :
    ∃ first rest dates values,
      quotes = first :: rest ∧
      quotes.Pairwise (fun a b => q.periodLt a.1 b.1 = true) ∧
      (∀ e ∈ rest, q.periodLt first.1 e.1 = true) ∧
      quotes.Perm (loadedQuotes config.type asof loader config.cdsQuotes) ∧
      buildHazardRateCurve q io r config asof loader conventions =
        (finishCurve q config (.hazardRateCurve dates values config.dayCounter false) r).map
          (fun built =>
            if built.recoveryRate_ = nullReal then { built with recoveryRate_ := 0 } else built) ∧
      dates.length = values.length ∧
      (periodNe q first.1 ⟨0, .Days⟩ = true →
        dates = asof :: quotes.map (fun quote => cdsConv.calendar.advance asof quote.1) ∧
        values = first.2 :: quotes.map (fun quote => quote.2) ∧
        dates.length = quotes.length + 1) ∧
      (periodNe q first.1 ⟨0, .Days⟩ = false →
        dates = quotes.map (fun quote => cdsConv.calendar.advance asof quote.1) ∧
        values = quotes.map (fun quote => quote.2) ∧
        dates.length = quotes.length) := by
  obtain ⟨hne, hsorted, hperm⟩ := getConfiguredQuotes_ok_sorted q io config asof loader htrans
    quotes hq
  obtain ⟨first, rest, rfl⟩ := List.exists_cons_of_ne_nil hne
  have hbuild : buildHazardRateCurve q io r config asof loader conventions =
      (finishCurve q config
        (.hazardRateCurve
          ((if periodNe q first.1 ⟨0, .Days⟩ then ([asof], [first.2]) else ([], [])).1 ++
            (first :: rest).map fun quote => cdsConv.calendar.advance asof quote.1)
          ((if periodNe q first.1 ⟨0, .Days⟩ then ([asof], [first.2]) else ([], [])).2 ++
            (first :: rest).map fun quote => quote.2)
          config.dayCounter false) r).map
        (fun built =>
          if built.recoveryRate_ = nullReal then { built with recoveryRate_ := 0 } else built) := by
    unfold buildHazardRateCurve
    simp only [ht, hhas, hget, hq, Convention.asCds, qlRequire, bind, Except.bind, pure,
      Except.pure, beq_self_eq_true, if_true]
    cases finishCurve q config
      (.hazardRateCurve
        ((if periodNe q first.1 ⟨0, .Days⟩ then ([asof], [first.2]) else ([], [])).1 ++
          (first :: rest).map fun quote => cdsConv.calendar.advance asof quote.1)
        ((if periodNe q first.1 ⟨0, .Days⟩ then ([asof], [first.2]) else ([], [])).2 ++
          (first :: rest).map fun quote => quote.2)
        config.dayCounter false) r <;> rfl
  refine ⟨first, rest, _, _, rfl, hsorted, (List.pairwise_cons.1 hsorted).1, hperm, hbuild,
    ?_, ?_, ?_⟩
  · by_cases hz : periodNe q first.1 ⟨0, .Days⟩ = true <;> simp [hz]
  · intro hz
    simp [hz]
  · intro hz
    simp [hz]

/-- Witness of C21: with the one quote of term five years the nodes are
`(0, 1/50)` and `(5, 1/50)`; with the quotes of terms five years and zero days
they are `(0, 1/100)` and `(5, 1/50)`. -/
theorem buildHazardRateCurve_nodes_witness :
    buildHazardRateCurve plainEnv plainStreams nullReal hazardConfig 0
        (listLoader [hazardDatum5Y]) cdsConventions =
      (finishCurve plainEnv hazardConfig
        (.hazardRateCurve [0, 5] [1 / 50, 1 / 50] "A365" false) nullReal).map
        (fun built =>
          if built.recoveryRate_ = nullReal then { built with recoveryRate_ := 0 } else built) ∧
    buildHazardRateCurve plainEnv plainStreams nullReal hazardConfigWithSpot 0
        (listLoader [hazardDatum5Y, hazardDatum0D]) cdsConventions =
      (finishCurve plainEnv hazardConfigWithSpot
        (.hazardRateCurve [0, 5] [1 / 100, 1 / 50] "A365" false) nullReal).map
        (fun built =>
          if built.recoveryRate_ = nullReal then { built with recoveryRate_ := 0 } else built) := by
  constructor
  · obtain ⟨first, rest, dates, values, hq, _, _, _, hb, _, h1, _⟩ :=
      buildHazardRateCurve_nodes plainEnv plainStreams nullReal hazardConfig 0
        (listLoader [hazardDatum5Y]) cdsConventions
        ⟨1, plainCalendar, "Quarterly", "Following", "CDS", "A360", true, true⟩
        [(⟨5, .Years⟩, 1 / 50)] rfl rfl rfl plainEnv_periodLt_trans (by
          simp [getConfiguredQuotes, loadConfiguredQuotes, hazardConfig, cdsConfig, listLoader,
            hazardDatum5Y, quoteTerm, mapInsert, qlRequire, bind, Except.bind, pure,
            Except.pure])
    cases hq
    obtain ⟨hd, hv, _⟩ := h1 (by decide)
    rw [hb, hd, hv]
    rfl
  · obtain ⟨first, rest, dates, values, hq, _, _, _, hb, _, _, h0⟩ :=
      buildHazardRateCurve_nodes plainEnv plainStreams nullReal hazardConfigWithSpot 0
        (listLoader [hazardDatum5Y, hazardDatum0D]) cdsConventions
        ⟨1, plainCalendar, "Quarterly", "Following", "CDS", "A360", true, true⟩
        [(⟨0, .Days⟩, 1 / 100), (⟨5, .Years⟩, 1 / 50)] rfl rfl rfl plainEnv_periodLt_trans (by
          simp [getConfiguredQuotes, loadConfiguredQuotes, hazardConfigWithSpot, hazardConfig,
            cdsConfig, listLoader, hazardDatum5Y, hazardDatum0D, quoteTerm, mapInsert, plainEnv,
            qlRequire, bind, Except.bind, pure, Except.pure])
    cases hq
    obtain ⟨hd, hv, _⟩ := h0 (by decide)
    rw [hb, hd, hv]
    rfl

/-! ### The nodes of a CDS curve -/

theorem copyPiecewise_eq (q : QuantLibEnv) (asof : Date) (helpers : List SpreadCdsHelper)
    (dayCounter : String) (sp : Date → QuantLib.Real) :
    ∀ (hs : List SpreadCdsHelper) (acc : List Date × List QuantLib.Real),
      (∀ h ∈ hs, q.latestDate asof h > asof →
        q.piecewiseSurvivalProbability asof helpers dayCounter (q.latestDate asof h) =
          .ok (sp (q.latestDate asof h))) →
      copyPiecewise q asof helpers dayCounter hs acc =
        .ok (acc.1 ++ (hs.filter fun h => decide (q.latestDate asof h > asof)).map
            (fun h => q.latestDate asof h),
          acc.2 ++ (hs.filter fun h => decide (q.latestDate asof h > asof)).map
            (fun h => sp (q.latestDate asof h))) := by
  intro hs
  induction hs with
  | nil => intro acc _; simp [copyPiecewise]
  | cons h hs ih =>
    intro acc hsp
    have htail := fun h2 hmem => hsp h2 (List.mem_cons_of_mem _ hmem)
    by_cases hl : q.latestDate asof h > asof
    · simp only [copyPiecewise, hl, if_true, hsp h (List.mem_cons_self _ _) hl, bind,
        Except.bind]
      rw [ih _ htail]
      simp [List.filter_cons, hl]
    · simp only [copyPiecewise, hl, if_false]
      rw [ih _ htail]
      simp [List.filter_cons, hl]

theorem copyPiecewise_dates (q : QuantLibEnv) (asof : Date) (helpers : List SpreadCdsHelper)
    (dayCounter : String) :
    ∀ (hs : List SpreadCdsHelper) (acc nodes : List Date × List QuantLib.Real),
      copyPiecewise q asof helpers dayCounter hs acc = .ok nodes →
      nodes.1 = acc.1 ++ (hs.filter fun h => decide (q.latestDate asof h > asof)).map
        (fun h => q.latestDate asof h) := by
  intro hs
  induction hs with
  | nil =>
    intro acc nodes h
    simp only [copyPiecewise, Except.ok.injEq] at h
    simp [← h]
  | cons h hs ih =>
    intro acc nodes hc
    by_cases hl : q.latestDate asof h > asof
    · simp only [copyPiecewise, hl, if_true, bind, Except.bind] at hc
      cases hp : q.piecewiseSurvivalProbability asof helpers dayCounter (q.latestDate asof h) with
      | error f => simp [hp] at hc
      | ok v =>
        simp only [hp] at hc
        rw [ih _ nodes hc]
        simp [List.filter_cons, hl]
    · simp only [copyPiecewise, hl, if_false] at hc
      rw [ih _ nodes hc]
      simp [List.filter_cons, hl]

theorem copyPiecewise_error (q : QuantLibEnv) (asof : Date) (helpers : List SpreadCdsHelper)
    (dayCounter : String) :
    ∀ (hs : List SpreadCdsHelper) (acc : List Date × List QuantLib.Real) (f : Failure),
      copyPiecewise q asof helpers dayCounter hs acc = .error f →
      ∃ d, q.piecewiseSurvivalProbability asof helpers dayCounter d = .error f := by
  intro hs
  induction hs with
  | nil => intro acc f h; simp [copyPiecewise] at h
  | cons h hs ih =>
    intro acc f hc
    by_cases hl : q.latestDate asof h > asof
    · simp only [copyPiecewise, hl, if_true, bind, Except.bind] at hc
      cases hp : q.piecewiseSurvivalProbability asof helpers dayCounter (q.latestDate asof h) with
      | error f2 =>
        simp only [hp, Except.error.injEq] at hc
        exact ⟨_, hc ▸ hp⟩
      | ok v =>
        simp only [hp] at hc
        exact ih _ f hc
    · simp only [copyPiecewise, hl, if_false] at hc
      exact ih _ f hc

theorem finishCurve_error (q : QuantLibEnv) (config : DefaultCurveConfig)
    (curve : DefaultTermStructure) (r : QuantLib.Real) (f : Failure)
    (h : finishCurve q config curve r = .error f) :
    (∃ c, q.makeCurve c = .error f) ∨ ∃ c, q.forceBootstrap c = .error f := by
  unfold finishCurve at h
  simp only [bind, Except.bind, pure, Except.pure] at h
  cases hm : q.makeCurve curve with
  | error f2 =>
    simp only [hm, Except.error.injEq] at h
    exact Or.inl ⟨curve, h ▸ hm⟩
  | ok u =>
    simp only [hm] at h
    cases hb : q.forceBootstrap (if config.extrapolation then curve.enableExtrapolation else curve) with
    | error f2 =>
      simp only [hb, Except.error.injEq] at h
      exact Or.inr ⟨_, h ▸ hb⟩
    | ok u2 => simp [hb] at h

theorem buildCdsCurve_eq (q : QuantLibEnv) (io : Streams) (r : QuantLib.Real)
    (config : DefaultCurveConfig) (asof : Date) (spec : DefaultCurveSpec) (loader : Loader)
    (conventions : Conventions) (yieldCurves : List (String × YieldCurve))
    (cdsConv : CdsConvention) (discountCurve : YieldCurve)
    (quotes : List (Period × QuantLib.Real))
    (ht : config.type = .SpreadCDS) (hr : r ≠ nullReal)
    (hhas : conventions.has config.conventionID = true)
    (hget : conventions.get config.conventionID = .ok (.cds cdsConv))
    (hd : findCurve yieldCurves config.discountCurveID = some discountCurve)
    (hq : getConfiguredQuotes q io config asof loader = .ok quotes) :
    buildCdsCurve q io r config asof spec loader conventions yieldCurves =
      match copyPiecewise q asof
          (quotes.map fun quote => ⟨quote.2, quote.1, cdsConv, r, discountCurve, config.startDate⟩)
          config.dayCounter
          (quotes.map fun quote => ⟨quote.2, quote.1, cdsConv, r, discountCurve, config.startDate⟩)
          ([asof], [1]) with
      | .error f => .error f
      | .ok nodes =>
        if nodes.1.length ≥ 2 then
          finishCurve q config
            (.survivalProbabilityCurve nodes.1 nodes.2 config.dayCounter false) r
        else qlFail "Need at least 2 points to build the default curve" := by
  unfold buildCdsCurve
  simp only [ht, hr, hhas, hget, hd, hq, Convention.asCds, qlRequire, bind, Except.bind,
    beq_self_eq_true, if_true, bne_iff_ne, ne_eq, not_false_eq_true]
  cases copyPiecewise q asof
      (quotes.map fun quote => ⟨quote.2, quote.1, cdsConv, r, discountCurve, config.startDate⟩)
      config.dayCounter
      (quotes.map fun quote => ⟨quote.2, quote.1, cdsConv, r, discountCurve, config.startDate⟩)
      ([asof], [1]) with
  | error f => rfl
  | ok nodes =>
    by_cases hn : nodes.1.length ≥ 2 <;> simp [hn, qlFail]

/-- C22: in `buildCdsCurve`, once the guards before the bootstrap pass and
`getConfiguredQuotes` has returned `quotes`, with `helpers` the CDS helpers of
the quotes: when the bootstrapped curve returns the survival probability `sp d`
at the latest date `d` of every helper maturing after `asof`, and there is such
a helper, the copied curve is built from the node `(asof, 1)` followed by one
node `(d, sp d)` for every helper whose latest date `d` is after `asof`, in the
order of the helpers, the other helpers being dropped. When no helper's latest
date is after `asof` the build fails with
`Need at least 2 points to build the default curve`; and, that message not
being one of the QuantLib routines, the build fails with it if and only if no
helper's latest date is after `asof`. -/
theorem buildCdsCurve_nodes (q : QuantLibEnv) (io : Streams) (r : QuantLib.Real)
    (config : DefaultCurveConfig) (asof : Date) (spec : DefaultCurveSpec) (loader : Loader)
    (conventions : Conventions) (yieldCurves : List (String × YieldCurve))
    (cdsConv : CdsConvention) (discountCurve : YieldCurve)
    (quotes : List (Period × QuantLib.Real)) (helpers : List SpreadCdsHelper)
    (ht : config.type = .SpreadCDS) (hr : r ≠ nullReal)
    (hhas : conventions.has config.conventionID = true)
    (hget : conventions.get config.conventionID = .ok (.cds cdsConv))
    (hd : findCurve yieldCurves config.discountCurveID = some discountCurve)
    (hq : getConfiguredQuotes q io config asof loader = .ok quotes)
    (hh : helpers = quotes.map fun quote =>
      ⟨quote.2, quote.1, cdsConv, r, discountCurve, config.startDate⟩) :
    (∀ sp : Date → QuantLib.Real,
      (∀ h ∈ helpers, q.latestDate asof h > asof →
        q.piecewiseSurvivalProbability asof helpers config.dayCounter (q.latestDate asof h) =
          .ok (sp (q.latestDate asof h))) →
      (helpers.filter fun h => decide (q.latestDate asof h > asof)) ≠ [] →
      buildCdsCurve q io r config asof spec loader conventions yieldCurves =
        finishCurve q config
          (.survivalProbabilityCurve
            (asof :: (helpers.filter fun h => decide (q.latestDate asof h > asof)).map
              (fun h => q.latestDate asof h))
            (1 :: (helpers.filter fun h => decide (q.latestDate asof h > asof)).map
              (fun h => sp (q.latestDate asof h)))
            config.dayCounter false) r) ∧
    ((helpers.filter fun h => decide (q.latestDate asof h > asof)) = [] →
      buildCdsCurve q io r config asof spec loader conventions yieldCurves =
        qlFail "Need at least 2 points to build the default curve") ∧
    ((∀ d, q.piecewiseSurvivalProbability asof helpers config.dayCounter d ≠
        qlFail "Need at least 2 points to build the default curve") →
      (∀ c, q.makeCurve c ≠ qlFail "Need at least 2 points to build the default curve") →
      (∀ c, q.forceBootstrap c ≠ qlFail "Need at least 2 points to build the default curve") →
      (buildCdsCurve q io r config asof spec loader conventions yieldCurves =
          qlFail "Need at least 2 points to build the default curve" ↔
        (helpers.filter fun h => decide (q.latestDate asof h > asof)) = [])) := by
  have heq := buildCdsCurve_eq q io r config asof spec loader conventions yieldCurves cdsConv
    discountCurve quotes ht hr hhas hget hd hq
  rw [← hh] at heq
  have hnone : (helpers.filter fun h => decide (q.latestDate asof h > asof)) = [] →
      buildCdsCurve q io r config asof spec loader conventions yieldCurves =
        qlFail "Need at least 2 points to build the default curve" := by
    intro hempty
    have hcopy := copyPiecewise_eq q asof helpers config.dayCounter (fun _ => 0) helpers
      ([asof], [1]) (by
        intro h hmem hl
        have : h ∈ helpers.filter fun h => decide (q.latestDate asof h > asof) :=
          List.mem_filter.2 ⟨hmem, by simpa using hl⟩
        rw [hempty] at this
        cases this)
    rw [heq, hcopy, hempty]
    simp
  refine ⟨?_, hnone, ?_⟩
  · intro sp hsp hlive
    have hcopy := copyPiecewise_eq q asof helpers config.dayCounter sp helpers ([asof], [1]) hsp
    rw [heq, hcopy]
    obtain ⟨h0, rest, hcons⟩ := List.exists_cons_of_ne_nil hlive
    simp [hcons]
  · intro hpsp hmake hforce
    refine ⟨fun hfail => ?_, hnone⟩
    by_contra hlive
    rw [heq] at hfail
    cases hc : copyPiecewise q asof helpers config.dayCounter helpers ([asof], [1]) with
    | error f =>
      rw [hc] at hfail
      obtain ⟨d, hdp⟩ := copyPiecewise_error q asof helpers config.dayCounter helpers _ f hc
      have hf : (Except.error f : Outcome DefaultCurve) =
          qlFail "Need at least 2 points to build the default curve" := hfail
      simp only [qlFail, Except.error.injEq] at hf
      rw [hf] at hdp
      exact hpsp d hdp
    | ok nodes =>
      rw [hc] at hfail
      have hfail : (if nodes.1.length ≥ 2 then
          finishCurve q config
            (.survivalProbabilityCurve nodes.1 nodes.2 config.dayCounter false) r
          else qlFail "Need at least 2 points to build the default curve") =
          qlFail "Need at least 2 points to build the default curve" := hfail
      have hdates := copyPiecewise_dates q asof helpers config.dayCounter helpers _ nodes hc
      obtain ⟨h0, rest, hcons⟩ := List.exists_cons_of_ne_nil hlive
      have hlen : nodes.1.length ≥ 2 := by
        rw [hdates, hcons]
        simp
      simp only [hlen, if_true] at hfail
      rcases finishCurve_error q config _ r _ hfail with ⟨c, hm⟩ | ⟨c, hb⟩
      · exact hmake c hm
      · exact hforce c hb

/-- Witness of C22: of the helpers of the quotes of terms zero days and five
years the first matures on `asof` and is dropped; the nodes are `(0, 1)` and
`(5, 1)`. With the quote of term zero days alone the build fails. -/
theorem buildCdsCurve_nodes_witness :
    buildCdsCurve plainEnv plainStreams (2 / 5) cdsConfigWithSpot 0 cdsSpec
        (listLoader [recoveryDatum, cdsSpreadDatum, cdsSpreadDatum0D]) cdsConventions
        [("EUR-EONIA", flatCurve)] =
      finishCurve plainEnv cdsConfigWithSpot
        (.survivalProbabilityCurve [0, 5] [1, 1] "A365" false) (2 / 5) ∧
    buildCdsCurve plainEnv plainStreams (2 / 5)
        { cdsConfigWithRecovery with cdsQuotes := ["CDS/CREDIT_SPREAD/CDS1/0D"] } 0 cdsSpec
        (listLoader [recoveryDatum, cdsSpreadDatum, cdsSpreadDatum0D]) cdsConventions
        [("EUR-EONIA", flatCurve)] =
      qlFail "Need at least 2 points to build the default curve" := by
  have hr : (2 / 5 : QuantLib.Real) ≠ nullReal := by
    simp only [nullReal]
    norm_num
  constructor
  · exact (buildCdsCurve_nodes plainEnv plainStreams (2 / 5) cdsConfigWithSpot 0 cdsSpec
      (listLoader [recoveryDatum, cdsSpreadDatum, cdsSpreadDatum0D]) cdsConventions
      [("EUR-EONIA", flatCurve)]
      ⟨1, plainCalendar, "Quarterly", "Following", "CDS", "A360", true, true⟩ flatCurve
      [(⟨0, .Days⟩, 1 / 200), (⟨5, .Years⟩, 1 / 100)]
      [⟨1 / 200, ⟨0, .Days⟩,
          ⟨1, plainCalendar, "Quarterly", "Following", "CDS", "A360", true, true⟩, 2 / 5,
          flatCurve, 0⟩,
        ⟨1 / 100, ⟨5, .Years⟩,
          ⟨1, plainCalendar, "Quarterly", "Following", "CDS", "A360", true, true⟩, 2 / 5,
          flatCurve, 0⟩]
      rfl hr rfl rfl rfl (by
        simp [getConfiguredQuotes, loadConfiguredQuotes, cdsConfigWithSpot,
          cdsConfigWithRecovery, cdsConfig, listLoader, recoveryDatum, cdsSpreadDatum,
          cdsSpreadDatum0D, quoteTerm, mapInsert, plainEnv, qlRequire, bind, Except.bind, pure,
          Except.pure]) rfl).1 (fun _ => 1) (fun _ _ _ => rfl)
      (by simp [List.filter_cons, plainEnv])
  · exact (buildCdsCurve_nodes plainEnv plainStreams (2 / 5)
      { cdsConfigWithRecovery with cdsQuotes := ["CDS/CREDIT_SPREAD/CDS1/0D"] } 0 cdsSpec
      (listLoader [recoveryDatum, cdsSpreadDatum, cdsSpreadDatum0D]) cdsConventions
      [("EUR-EONIA", flatCurve)]
      ⟨1, plainCalendar, "Quarterly", "Following", "CDS", "A360", true, true⟩ flatCurve
      [(⟨0, .Days⟩, 1 / 200)]
      [⟨1 / 200, ⟨0, .Days⟩,
          ⟨1, plainCalendar, "Quarterly", "Following", "CDS", "A360", true, true⟩, 2 / 5,
          flatCurve, 0⟩]
      rfl hr rfl rfl rfl (by
        simp [getConfiguredQuotes, loadConfiguredQuotes, cdsConfigWithRecovery, cdsConfig,
          listLoader, recoveryDatum, cdsSpreadDatum, cdsSpreadDatum0D, quoteTerm, mapInsert,
          qlRequire, bind, Except.bind, pure, Except.pure]) rfl).2.1
      (by simp [List.filter_cons, plainEnv])

end DefaultCurve

/-! ## Properties of `CrLgmBuilder` -/

namespace CrLgmBuilder

theorem create_ok (mk : String → DefaultTermStructure → QuantLib.Real → QuantLib.Real →
      String → Outcome QuantExt.CrLgm1fConstantParametrization)
    (market : Market) (data : CrLgmData) (configuration : String) (b : CrLgmBuilder)
    (h : create mk market data configuration = .ok b) :
    ∃ curve alpha0 h0 p0, market.defaultCurve data.name configuration = .ok curve ∧
      data.calibrateA = false ∧ data.calibrateH = false ∧
      data.aParamType = .Constant ∧ data.hParamType = .Constant ∧
      data.aValues.head? = some alpha0 ∧ data.hValues.head? = some h0 ∧
      mk "USD" curve alpha0 h0 data.name = .ok p0 ∧
      0 ≤ data.shiftHorizon ∧ 0 < data.scaling ∧
      b = ⟨configuration, data, curve,
        { p0 with
          shift := if data.shiftHorizon > 0 then data.shiftHorizon else p0.shift
          scaling := if data.scaling ≠ 1 then data.scaling else p0.scaling }⟩ := by
  unfold create at h
  simp only [bind, Except.bind, qlRequire, qlFail, pure, Except.pure] at h
  repeat' split at h
  all_goals first
    | (cases h; done)
    | (simp only [Except.ok.injEq] at h
       subst h
       refine ⟨_, _, _, _, by assumption, ?_, ?_, ?_, ?_, by assumption, by assumption,
         by assumption, ?_, ?_, ?_⟩ <;> simp_all <;> split_ifs <;>
           first | rfl | (exfalso; linarith))

/-- C16: the constructor of `CrLgmBuilder` returns no builder whenever the
data ask for the calibration of A or of H, or the volatility or the reversion
parameter type is not `Constant`, or the shift horizon is negative, or the
scaling is not positive. Once the default curve is found, the first three
guards fail with their messages; once the parametrization `p0` is constructed,
a negative shift horizon and a scaling that is not positive fail with theirs,
and otherwise the builder is returned with the parametrization `p0` whose
shift is replaced by the shift horizon only if that is positive and whose
scaling is replaced by the data's only if that differs from 1. -/
theorem create_guards (mk : String → DefaultTermStructure → QuantLib.Real → QuantLib.Real →
      String → Outcome QuantExt.CrLgm1fConstantParametrization)
    (market : Market) (data : CrLgmData) (configuration : String) :
    (data.calibrateA = true ∨ data.calibrateH = true ∨ data.aParamType ≠ .Constant ∨
        data.hParamType ≠ .Constant ∨ data.shiftHorizon < 0 ∨ ¬ 0 < data.scaling →
      ∀ b, create mk market data configuration ≠ .ok b) ∧
    (∀ b, create mk market data configuration = .ok b →
      ∃ curve alpha0 h0 p0, mk "USD" curve alpha0 h0 data.name = .ok p0 ∧
        b.parametrization_ =
          { p0 with
            shift := if data.shiftHorizon > 0 then data.shiftHorizon else p0.shift
            scaling := if data.scaling ≠ 1 then data.scaling else p0.scaling }) ∧
    (∀ curve, market.defaultCurve data.name configuration = .ok curve →
      (data.calibrateA = true ∨ data.calibrateH = true →
        create mk market data configuration =
          qlFail "CrLgmBuilder does not support calibration currently") ∧
      (data.calibrateA = false → data.calibrateH = false →
        (data.aParamType ≠ .Constant →
          create mk market data configuration =
            qlFail "CrLgmBuilder only supports constant volatility currently") ∧
        (data.aParamType = .Constant → data.hParamType ≠ .Constant →
          create mk market data configuration =
            qlFail "CrLgmBuilder only supports constant reversion currently") ∧
        (data.aParamType = .Constant → data.hParamType = .Constant →
          ∀ alpha0 h0 p0, data.aValues.head? = some alpha0 → data.hValues.head? = some h0 →
            mk "USD" curve alpha0 h0 data.name = .ok p0 →
            (data.shiftHorizon < 0 →
              create mk market data configuration =
                qlFail "shift horizon must be non negative") ∧
            (0 ≤ data.shiftHorizon → ¬ 0 < data.scaling →
              create mk market data configuration = qlFail "scaling must be positive") ∧
            (0 ≤ data.shiftHorizon → 0 < data.scaling →
              create mk market data configuration =
                .ok ⟨configuration, data, curve,
                  { p0 with
                    shift := if data.shiftHorizon > 0 then data.shiftHorizon else p0.shift
                    scaling := if data.scaling ≠ 1 then data.scaling else p0.scaling }⟩)))) := by
  refine ⟨?_, ?_, ?_⟩
  · intro hbad b hb
    obtain ⟨_, _, _, _, _, hA, hH, ha, hh, _, _, _, hshift, hscale, _⟩ :=
      create_ok mk market data configuration b hb
    rcases hbad with h | h | h | h | h | h
    · rw [hA] at h
      cases h
    · rw [hH] at h
      cases h
    · exact h ha
    · exact h hh
    · exact absurd hshift (not_le.2 h)
    · exact h hscale
  · intro b hb
    obtain ⟨curve, alpha0, h0, p0, _, _, _, _, _, _, _, hmk, _, _, hbuilt⟩ :=
      create_ok mk market data configuration b hb
    exact ⟨curve, alpha0, h0, p0, hmk, by rw [hbuilt]⟩
  · intro curve hcurve
    refine ⟨?_, fun hA hH => ⟨?_, ?_, ?_⟩⟩
    · intro h
      unfold create
      rcases h with h | h <;>
        simp [hcurve, h, bind, Except.bind, qlRequire, qlFail]
    · intro ha
      unfold create
      simp [hcurve, hA, hH, ha, bind, Except.bind, qlRequire, qlFail]
    · intro ha hh
      unfold create
      simp [hcurve, hA, hH, ha, hh, bind, Except.bind, qlRequire, qlFail]
    · intro ha hh alpha0 h0 p0 halpha hh0 hmk
      refine ⟨?_, ?_, ?_⟩
      · intro hneg
        unfold create
        simp [hcurve, hA, hH, ha, hh, halpha, hh0, hmk, bind, Except.bind, qlRequire, qlFail,
          not_le.2 hneg]
      · intro hshift hscale
        unfold create
        simp [hcurve, hA, hH, ha, hh, halpha, hh0, hmk, bind, Except.bind, qlRequire, qlFail,
          hshift, hscale]
      · intro hshift hscale
        unfold create
        simp only [hcurve, hA, hH, ha, hh, halpha, hh0, hmk, bind, Except.bind, qlRequire, qlFail,
          hshift, hscale, pure, Except.pure, ge_iff_le, gt_iff_lt, decide_True, if_true,
          Bool.not_false, Bool.and_self, beq_self_eq_true]
        by_cases h1 : 0 < data.shiftHorizon <;> by_cases h2 : data.scaling = 1 <;>
          simp [h1, h2]

/-- Witness of C16: the data `crLgmData`, with shift horizon 5 and scaling 2. -/
theorem create_guards_witness :
    create plainParametrization plainMarket crLgmData "default" =
      .ok ⟨"default", crLgmData, .survivalProbabilityCurve [0, 1] [1, 1] "A365" true,
        ⟨"USD", .survivalProbabilityCurve [0, 1] [1, 1] "A365" true, 1 / 100, 3 / 100, "CDS1",
          5, 2⟩⟩ := by
  have h := ((((create_guards plainParametrization plainMarket crLgmData "default").2.2
    (.survivalProbabilityCurve [0, 1] [1, 1] "A365" true) rfl).2 rfl rfl).2.2 rfl rfl
    (1 / 100) (3 / 100) ⟨"USD", .survivalProbabilityCurve [0, 1] [1, 1] "A365" true, 1 / 100,
      3 / 100, "CDS1", 0, 1⟩ rfl rfl rfl).2.2 (by simp [crLgmData]) (by simp [crLgmData])
  rw [h]
  simp [crLgmData]

end CrLgmBuilder

end data
end ore

/-! ## Properties of `IrHwStateProcess` and `ZeroInflationIndexWrapper` -/

namespace QuantExt

open QuantLib (Date Frequency)
open ore.data (Outcome qlRequire qlFail)

namespace IrHwStateProcess

/-- C14: the constructor of `IrHwStateProcess` returns a process if and only if
the measure is `BA` and the discretization (Euler when not passed) is `Euler`.
For every other measure it fails with `IrHwStateProcess only supports measure
BA`, and for the measure `BA` with any other discretization, `Exact` included,
with `IrHwStateProcess only supports dicsretization Euler`. -/
theorem create_only_BA_Euler (parametrization : Option IrHwParametrization)
    (measure : IrModel.Measure) (discretization : Option HwModel.Discretization)
    (evaluateBankAccount : Option Bool) :
    ((∃ p, create parametrization measure discretization evaluateBankAccount = .ok p) ↔
      measure = .BA ∧ discretization.getD .Euler = .Euler) ∧
    (measure = .BA → discretization.getD .Euler = .Euler →
      create parametrization measure discretization evaluateBankAccount =
        .ok ⟨true, parametrization, .BA, .Euler, evaluateBankAccount.getD true⟩) ∧
    (measure ≠ .BA →
      create parametrization measure discretization evaluateBankAccount =
        qlFail "IrHwStateProcess only supports measure BA") ∧
    (measure = .BA → discretization.getD .Euler ≠ .Euler →
      create parametrization measure discretization evaluateBankAccount =
        qlFail "IrHwStateProcess only supports dicsretization Euler") ∧
    create parametrization .BA (some .Exact) evaluateBankAccount =
      qlFail "IrHwStateProcess only supports dicsretization Euler" := by
  have hok : measure = .BA → discretization.getD .Euler = .Euler →
      create parametrization measure discretization evaluateBankAccount =
        .ok ⟨true, parametrization, .BA, .Euler, evaluateBankAccount.getD true⟩ := by
    intro hm hd
    simp [create, hm, hd, qlRequire, bind, Except.bind, pure, Except.pure]
  have hmeasure : measure ≠ .BA →
      create parametrization measure discretization evaluateBankAccount =
        qlFail "IrHwStateProcess only supports measure BA" := by
    intro hm
    simp [create, hm, qlRequire, qlFail, bind, Except.bind]
  have hdisc : measure = .BA → discretization.getD .Euler ≠ .Euler →
      create parametrization measure discretization evaluateBankAccount =
        qlFail "IrHwStateProcess only supports dicsretization Euler" := by
    intro hm hd
    simp [create, hm, hd, qlRequire, qlFail, bind, Except.bind]
  refine ⟨⟨?_, fun h => ⟨_, hok h.1 h.2⟩⟩, hok, hmeasure, hdisc, ?_⟩
  · rintro ⟨p, hp⟩
    by_cases hm : measure = .BA
    · refine ⟨hm, ?_⟩
      by_contra hd
      rw [hdisc hm hd] at hp
      cases hp
    · rw [hmeasure hm] at hp
      cases hp
  · simp [create, qlRequire, qlFail, bind, Except.bind]

/-- Witness of C14: the measure `BA` with the discretization left out. -/
theorem create_only_BA_Euler_witness :
    create (some ⟨1, 1⟩) .BA none none = .ok ⟨true, some ⟨1, 1⟩, .BA, .Euler, true⟩ :=
  (create_only_BA_Euler (some ⟨1, 1⟩) .BA none none).2.1 rfl rfl

end IrHwStateProcess

namespace ZeroInflationIndexWrapper

/-- C15: the fixing of a `ZeroInflationIndexWrapper` at the date `d` follows its
interpolation type. For `AsIndex` it is the fixing of the source at `d`. For
`Flat` it is the fixing of the source at the first day of the inflation period
of `d`, the same for all dates of one period. For `Linear`, with `(start, end)`
the inflation period of `d`, `indexStart` the fixing of the source at `start`
and `indexEnd` its fixing at `end + 1`, it is
`indexStart + (indexEnd - indexStart) * (d - start) / ((end + 1) - start)`. -/
theorem fixing_by_interpolation (inflationPeriod : Date → Frequency → Date × Date)
    (w : ZeroInflationIndexWrapper) (d : Date) (forecastTodaysFixing : Bool) :
    (w.interpolation_ = .AsIndex →
      w.fixing inflationPeriod d forecastTodaysFixing = w.source_.fixing d) ∧
    (w.interpolation_ = .Flat →
      w.fixing inflationPeriod d forecastTodaysFixing =
        w.source_.fixing (inflationPeriod d w.frequency).1 ∧
      ∀ d2, inflationPeriod d2 w.frequency = inflationPeriod d w.frequency →
        w.fixing inflationPeriod d2 forecastTodaysFixing =
          w.fixing inflationPeriod d forecastTodaysFixing) ∧
    (w.interpolation_ = .Linear → ∀ indexStart indexEnd,
      w.source_.fixing (inflationPeriod d w.frequency).1 = .ok indexStart →
      w.source_.fixing ((inflationPeriod d w.frequency).2 + 1) = .ok indexEnd →
      w.fixing inflationPeriod d forecastTodaysFixing =
        .ok (indexStart + (indexEnd - indexStart) *
          (((d : Int) - ((inflationPeriod d w.frequency).1 : Int) : Int) : ℚ) /
          ((((((inflationPeriod d w.frequency).2 + 1 : ℕ) : Int) -
            ((inflationPeriod d w.frequency).1 : Int) : Int) : ℚ)))) := by
  have hflat : w.interpolation_ = .Flat → ∀ d1,
      w.fixing inflationPeriod d1 forecastTodaysFixing =
        w.source_.fixing (inflationPeriod d1 w.frequency).1 := by
    intro h d1
    unfold fixing
    simp only [h, bind, Except.bind, pure, Except.pure]
    cases w.source_.fixing (inflationPeriod d1 w.frequency).1 <;> simp
  refine ⟨?_, ?_, ?_⟩
  · intro h
    simp [fixing, h]
  · intro h
    refine ⟨hflat h d, fun d2 hd => ?_⟩
    rw [hflat h d2, hflat h d, hd]
  · intro h indexStart indexEnd hs he
    unfold fixing
    simp [h, hs, he, bind, Except.bind, pure, Except.pure]

/-- Witness of C15: a linear wrapper of `rampIndex` with inflation periods of
ten days; the fixing at 13 lies between those at 10 and at 20. -/
theorem fixing_by_interpolation_witness :
    fixing tenDayPeriod (create rampIndex .Linear) 13 false =
      .ok (110 + (120 - 110) * (((13 : Int) - (10 : Int) : Int) : ℚ) /
        (((((19 + 1 : ℕ) : Int) - (10 : Int) : Int) : ℚ))) :=
  (fixing_by_interpolation tenDayPeriod (create rampIndex .Linear) 13 false).2.2 rfl 110 120
    (by simp [create, rampIndex, tenDayPeriod]; norm_num)
    (by simp [create, rampIndex, tenDayPeriod]; norm_num)

end ZeroInflationIndexWrapper

end QuantExt
